import Mathlib

/-!
# dxy2pdf: a shallow embedding of `dxy2pdf.cc`

The program converts a DXY plotter command stream into a one-page PDF.  The
embedding follows the source function by function:

* a `std::string` is a list of chars (`Str`); a C string is its prefix before
  the first NUL (`cstr`);
* a `double` is an IEEE-754 binary64 bit pattern with round-to-nearest-even
  arithmetic (`Double`);
* `snprintf` is the expansion of a format over its arguments (`expand`), and
  `strfmt` is the source's wrapper around it, which throws when the size is
  negative or `INT_MAX`; a thrown exception is `none`;
* the `PDF` class is a record and its methods are functions on it;
* `operator>>` on doubles, `std::getline` and `std::regex_replace` are the
  standard library's, modelled after libstdc++ in the "C" locale.
-/

set_option autoImplicit false

namespace Dxy2pdf

/-- A C++ `std::string`: a finite sequence of chars, NUL included.  The bytes of
the program are the chars below 256; what is proved for all chars holds for them. -/
abbrev Str := List Char

/-- Truncation at the first NUL: the C string a buffer holds (`c_str()` read
by `%s`, or `buffer.data()` turned back into a `std::string`). -/
def cstr : Str → Str
  | [] => []
  | c :: cs => if c = '\x00' then [] else c :: cstr cs

/-! ## IEEE-754 binary64 (`double`) -/

/-- A `double`, held as its 64-bit pattern: bit 63 is the sign,
bits 52..62 the biased exponent, bits 0..51 the fraction. -/
structure Double where
  bits : Fin 18446744073709551616
  deriving DecidableEq

namespace Double

/-- The double with the bit pattern `n` (taken modulo 2^64). -/
def ofBits (n : Nat) : Double := ⟨⟨n % 18446744073709551616, Nat.mod_lt _ (by decide)⟩⟩

def sign (d : Double) : Bool := decide (9223372036854775808 ≤ d.bits.val)

def expo (d : Double) : Nat := d.bits.val / 4503599627370496 % 2048

def mant (d : Double) : Nat := d.bits.val % 4503599627370496

def isNaN (d : Double) : Bool := d.expo == 2047 && d.mant != 0

def isInf (d : Double) : Bool := d.expo == 2047 && d.mant == 0

def isZero (d : Double) : Bool := d.expo == 0 && d.mant == 0

/-- The magnitude of a finite double as a whole number of units of 2^-1074. -/
def units (d : Double) : Nat :=
  if d.expo = 0 then d.mant else (4503599627370496 + d.mant) * 2 ^ (d.expo - 1)

def signBit (neg : Bool) : Nat := if neg then 9223372036854775808 else 0

def zero (neg : Bool) : Double := ofBits (signBit neg)

def inf (neg : Bool) : Double := ofBits (signBit neg + 2047 * 4503599627370496)

/-- The largest finite double with the given sign (`numeric_limits<double>::max()`). -/
def max (neg : Bool) : Double := ofBits (signBit neg + 2047 * 4503599627370496 - 1)

/-- The NaN delivered by an invalid operation (the x86-64 default NaN). -/
def defaultNaN : Double :=
  ofBits (signBit true + 2047 * 4503599627370496 + 2251799813685248)

/-- A NaN operand as an arithmetic operation delivers it: made quiet. -/
def quiet (d : Double) : Double :=
  ofBits (signBit d.sign + 2047 * 4503599627370496
    + (d.mant % 2251799813685248 + 2251799813685248))

/-- Floor of the binary logarithm (0 at 0), by halving at most `fuel` times. -/
def ilog2Aux : Nat → Nat → Nat
  | 0, _ => 0
  | fuel + 1, n => if n < 2 then 0 else ilog2Aux fuel (n / 2) + 1

def ilog2 (n : Nat) : Nat := ilog2Aux n n

/-- The quotient `a / b` rounded to the nearest whole number, ties to even. -/
def rne (a b : Nat) : Nat :=
  let q := a / b
  let r := a % b
  if 2 * r < b then q
  else if b < 2 * r then q + 1
  else if q % 2 = 0 then q else q + 1

/-- The double nearest to the magnitude `num / den` (ties to even) with the
given sign; a magnitude that rounds beyond the largest finite double becomes
infinite.  Every double is a multiple of 2^-1074, and below 2^53 units the bit
pattern of a double is its number of units; above, `s` binades are skipped. -/
def round (neg : Bool) (num den : Nat) : Double :=
  if num = 0 then zero neg
  else
    let n0 := num * 2 ^ 1074
    let s :=
      if ilog2 n0 < ilog2 den + 53 then 0
      else
        let k0 := ilog2 n0 - ilog2 den
        let k := if n0 < den * 2 ^ k0 then k0 - 1 else k0
        k - 52
    let b := s * 4503599627370496 + rne n0 (den * 2 ^ s)
    if 2047 * 4503599627370496 ≤ b then inf neg else ofBits (signBit neg + b)

/-- Conversion of a non-negative integer to `double`. -/
def ofNat (n : Nat) : Double := round false n 1

/-- The decimal literal `num / den` (such as `0.1`), correctly rounded. -/
def ofDecimal (num den : Nat) : Double := round false num den

def mul (a b : Double) : Double :=
  if a.isNaN then quiet a
  else if b.isNaN then quiet b
  else if (a.isInf && b.isZero) || (a.isZero && b.isInf) then defaultNaN
  else if a.isInf || b.isInf then inf (xor a.sign b.sign)
  else round (xor a.sign b.sign) (a.units * b.units) (2 ^ 2148)

def add (a b : Double) : Double :=
  if a.isNaN then quiet a
  else if b.isNaN then quiet b
  else if a.isInf then (if b.isInf && (a.sign != b.sign) then defaultNaN else a)
  else if b.isInf then b
  else if a.sign = b.sign then round a.sign (a.units + b.units) (2 ^ 1074)
  else if b.units < a.units then round a.sign (a.units - b.units) (2 ^ 1074)
  else if a.units < b.units then round b.sign (b.units - a.units) (2 ^ 1074)
  else zero false

def div (a b : Double) : Double :=
  if a.isNaN then quiet a
  else if b.isNaN then quiet b
  else if (a.isInf && b.isInf) || (a.isZero && b.isZero) then defaultNaN
  else if a.isInf || b.isZero then inf (xor a.sign b.sign)
  else if b.isInf then zero (xor a.sign b.sign)
  else round (xor a.sign b.sign) a.units b.units

end Double

/-! ## `printf` conversions -/

def digitChar (n : Nat) : Char := Char.ofNat (48 + n % 10)

/-- Digits of `n` in base `b`, most significant first, in front of `acc`. -/
def digitsAux (b : Nat) : Nat → Nat → Str → Str
  | 0, n, acc => digitChar (n % b) :: acc
  | fuel + 1, n, acc =>
    if n < b then digitChar n :: acc
    else digitsAux b fuel (n / b) (digitChar (n % b) :: acc)

def digits (b n : Nat) : Str := digitsAux b n n []

/-- The conversion `%zu` (also `%u` and `%d` of a non-negative value). -/
def decimal (n : Nat) : Str := digits 10 n

/-- The flag `0` with a minimum field width `w`. -/
def zeroPad (w : Nat) (s : Str) : Str := List.replicate (w - s.length) '0' ++ s

/-- The conversion `%f` of a double: six decimals, the exact value rounded to
nearest (ties to even); `inf` and `nan` for the non-finite values. -/
def fmt_f (d : Double) : Str :=
  (if d.sign then ['-'] else []) ++
  if d.isNaN then ['n', 'a', 'n']
  else if d.isInf then ['i', 'n', 'f']
  else
    let n := Double.rne (d.units * 1000000) (2 ^ 1074)
    decimal (n / 1000000) ++ '.' :: zeroPad 6 (decimal (n % 1000000))

/-- An argument of a variadic `printf` call: a C string (`%s`), a char (`%c`),
a double (`%f`), or a non-negative integer (`%zu`, `%u`, `%d`, `%o`). -/
inductive Arg where
  | str (s : Str)
  | chr (c : Char)
  | dbl (d : Double)
  | num (n : Nat)

/-- The text `printf` produces for a format and its arguments, for the
conversions the program uses; any other char of the format is copied. -/
def expand : Str → List Arg → Str
  | '%' :: '%' :: f, as => '%' :: expand f as
  | '%' :: 's' :: f, Arg.str s :: as => cstr s ++ expand f as
  | '%' :: 'c' :: f, Arg.chr c :: as => c :: expand f as
  | '%' :: 'f' :: f, Arg.dbl d :: as => fmt_f d ++ expand f as
  | '%' :: 'z' :: 'u' :: f, Arg.num n :: as => decimal n ++ expand f as
  | '%' :: '0' :: '1' :: '0' :: 'z' :: 'u' :: f, Arg.num n :: as =>
    zeroPad 10 (decimal n) ++ expand f as
  | '%' :: '0' :: '1' :: '0' :: 'u' :: f, Arg.num n :: as =>
    zeroPad 10 (decimal n) ++ expand f as
  | '%' :: '0' :: '5' :: 'u' :: f, Arg.num n :: as => zeroPad 5 (decimal n) ++ expand f as
  | '%' :: '0' :: '5' :: 'd' :: f, Arg.num n :: as => zeroPad 5 (decimal n) ++ expand f as
  | '%' :: '0' :: '3' :: 'o' :: f, Arg.num n :: as => zeroPad 3 (digits 8 n) ++ expand f as
  | c :: f, as => c :: expand f as
  | [], _ => []

def INT_MAX : Nat := 2147483647

/-- The source's `strfmt`: `snprintf(nullptr, 0, ...)` measures the expansion
of `format.c_str()`; a negative size (an expansion longer than `INT_MAX`) or
`INT_MAX` itself throws; otherwise the expansion is printed into a buffer and
the C string of the buffer is returned. -/
def strfmt (format : Str) (args : List Arg) : Option Str :=
  let out := expand (cstr format) args
  if INT_MAX ≤ out.length then none else some (cstr out)

def program_name : Str := "dxy2pdf".toList

/-- The source's `warn`, writing to `std::cerr` (the text `err` so far). -/
def warn (err : Str) (format : Str) (args : List Arg) : Option Str := do
  let format2 ← strfmt "%%s: %s\n".toList [Arg.str format]
  let message ← strfmt format2 (Arg.str program_name :: args)
  pure (err ++ message)

/-! ## The `PDF` class -/

/-- The writer.  `file` holds the bytes written to the output stream so far;
the other fields are the data members of the class. -/
structure PDF where
  file : Str
  width : Double
  height : Double
  x : Double
  y : Double
  offset : Nat
  offsets : List Nat
  ops : Str
  deriving DecidableEq

namespace PDF

/-- The constant `PDF::unit`, 25.4 / 72.0. -/
def unit : Double := Double.div (Double.ofDecimal 254 10) (Double.ofNat 72)

/-- `offset` is a `size_t`: it is advanced modulo 2^64. -/
def add (p : PDF) (s : Str) : PDF :=
  { p with offset := (p.offset + s.length) % 18446744073709551616, file := p.file ++ s }

def add_object (p : PDF) (s : Str) : Option PDF := do
  let p := { p with offsets := p.offsets ++ [p.offset] }
  let i := p.offsets.length
  let pre ← strfmt "%zu 0 obj\n".toList [Arg.num i]
  let p := p.add pre
  let p := p.add s
  pure (p.add "\nendobj\n".toList)

/-- The variadic overload of `add_object`. -/
def add_object_fmt (p : PDF) (format : Str) (args : List Arg) : Option PDF := do
  let s ← strfmt format args
  p.add_object s

def add_op (p : PDF) (format : Str) (args : List Arg) : Option PDF := do
  let s ← strfmt format args
  pure { p with ops := p.ops ++ s ++ "\n".toList }

/-- The loop of `escape` over the chars of `s`, appending to the stream `ss`. -/
def escape_loop : Str → Str → Option Str
  | [], ss => some ss
  | c :: s, ss =>
    if c = '\t' ∨ c = '\r' ∨ c = '\n' then escape_loop s (ss ++ [' '])
    else if c = '(' ∨ c = ')' ∨ c = '\\' then do
      let e ← strfmt "\\%03o".toList [Arg.num c.toNat]
      escape_loop s (ss ++ e)
    else escape_loop s (ss ++ [c])

def escape (s : Str) : Option Str := do
  let ss ← escape_loop s ['(']
  pure (ss ++ [')'])

/-- The constructor `PDF::PDF`.  The members `x` and `y` have no initialiser:
their indeterminate initial values are the parameters `x` and `y`. -/
def ctor (width height x y : Double) : Option PDF := do
  let p : PDF :=
    { file := [], width := width, height := height, x := x, y := y,
      offset := 0, offsets := [], ops := [] }
  let p := p.add "%PDF-1.1\n".toList
  let p ← p.add_object "<< /Pages 2 0 R >>".toList
  let p ← p.add_object "<< /Kids [3 0 R] /Type /Pages /Count 1 >>".toList
  let p ← p.add_object_fmt
    ("<< /Parent 2 0 R ".toList ++ "/Contents 4 0 R ".toList ++ "/MediaBox [0 0 %f %f] ".toList
      ++ "/Resources  << /Font << /F1 << /BaseFont /Courier /Subtype /Type1 /Type /Font >> >> >> ".toList
      ++ "/Type /Page ".toList ++ ">>".toList)
    [Arg.dbl (Double.div width unit), Arg.dbl (Double.div height unit)]
  let p ← p.add_op "%f 0 0 %f %f %f cm".toList
    [Arg.dbl (Double.div (Double.ofNat 1) unit), Arg.dbl (Double.div (Double.ofNat 1) unit),
     Arg.dbl (Double.div (Double.ofNat 10) unit), Arg.dbl (Double.div (Double.ofNat 10) unit)]
  p.add_op "%f w".toList [Arg.dbl (Double.ofDecimal 2 10)]

def move (p : PDF) (x y : Double) : PDF := { p with x := x, y := y }

def draw (p : PDF) (x y : Double) : Option PDF := do
  let p ← p.add_op "%f %f m".toList [Arg.dbl p.x, Arg.dbl p.y]
  let p := { p with x := x, y := y }
  p.add_op "%f %f l s".toList [Arg.dbl x, Arg.dbl y]

def rdraw (p : PDF) (dx dy : Double) : Option PDF :=
  p.draw (Double.add p.x dx) (Double.add p.y dy)

def print_text (p : PDF) (s : Str) : Option PDF := do
  let se ← escape s
  p.add_op "BT /F1 4 Tf %f %f Td %s Tj ET".toList [Arg.dbl p.x, Arg.dbl p.y, Arg.str se]

/-- The loop of `finish` over `offsets`, writing one entry each to the file. -/
def finish_loop : List Nat → Str → Option Str
  | [], file => some file
  | i :: rest, file => do
    let s ← strfmt "%010zu %05d n\n".toList [Arg.num i, Arg.num 0]
    finish_loop rest (file ++ s)

def finish (p : PDF) : Option PDF := do
  let ops := p.ops
  let p ← p.add_object_fmt "<< /Length %zu >>\nstream\n%sendstream".toList
    [Arg.num ops.length, Arg.str ops]
  let s ← strfmt "xref\n0 %zu\n".toList [Arg.num (1 + p.offsets.length)]
  let file := p.file ++ s
  let s ← strfmt "%010u %05u f\n".toList [Arg.num 0, Arg.num 65535]
  let file := file ++ s
  let file ← finish_loop p.offsets file
  let s ← strfmt "trailer\n<< /Root 1 0 R /Size %zu >>\n".toList [Arg.num (1 + p.offsets.length)]
  let file := file ++ s
  let s ← strfmt "startxref\n%zu\n".toList [Arg.num p.offset]
  let file := file ++ s
  pure { p with file := file ++ "%%EOF\n".toList }

end PDF

def a3_width : Double := Double.ofNat 297

def a3_height : Double := Double.ofNat 420

/-! ## Input: the standard library's `regex_replace`, `getline`, `operator>>` -/

/-- `std::regex_replace(s, std::regex(","), " ")`: every comma becomes a space. -/
def normalize_commas (s : Str) : Str := s.map (fun c => if c = ',' then ' ' else c)

/-- The lines `std::getline` delivers, one per call, until it fails: a line
ends at a newline (dropped) or at the end of input, and at the end of input a
line is delivered only if some char was extracted for it.  `cur` is the line
being read. -/
def getlines_from : Str → Str → List Str
  | [], cur => if cur = [] then [] else [cur]
  | c :: cs, cur => if c = '\n' then cur :: getlines_from cs [] else getlines_from cs (cur ++ [c])

def getlines (input : Str) : List Str := getlines_from input []

/-- `isspace` in the "C" locale. -/
def isspace (c : Char) : Bool :=
  c == ' ' || c == '\t' || c == '\n' || c == '\x0b' || c == '\x0c' || c == '\r'

def isdigit (c : Char) : Bool := decide (48 ≤ c.toNat) && decide (c.toNat ≤ 57)

/-- The value of a string of decimal digits. -/
def digitsValue (s : Str) : Nat := s.foldl (fun n c => 10 * n + (c.toNat - 48)) 0

/-- An optional sign at the front of `s`: whether it is a minus, and the rest. -/
def takeSign : Str → Bool × Str
  | '-' :: s => (true, s)
  | '+' :: s => (false, s)
  | s => (false, s)

/-- The exponent part `e[sign]digits` at the front of `s`, if complete: the
sign, the digits and the rest; otherwise nothing is consumed. -/
def takeExponent (s : Str) : Bool × Str × Str :=
  match s with
  | [] => (false, [], s)
  | c :: t =>
    if c = 'e' ∨ c = 'E' then
      let st := takeSign t
      let ds := st.2.takeWhile isdigit
      if ds = [] then (false, [], s) else (st.1, ds, st.2.dropWhile isdigit)
    else (false, [], s)

/-- `strtod` on a decimal floating literal without leading white space: the
correctly rounded value and the unparsed rest (the whole input, with value
zero, when there is no conversion). -/
def strtod (s : Str) : Double × Str :=
  let st := takeSign s
  let ip := st.2.takeWhile isdigit
  let s2 := st.2.dropWhile isdigit
  let fr : Str × Str :=
    match s2 with
    | '.' :: t => (t.takeWhile isdigit, t.dropWhile isdigit)
    | _ => ([], s2)
  if ip = [] ∧ fr.1 = [] then (Double.zero false, s)
  else
    let ex := takeExponent fr.2
    let m := digitsValue (ip ++ fr.1)
    let f := fr.1.length
    let e := digitsValue ex.2.1
    let v :=
      if ex.1 then Double.round st.1 m (10 ^ (f + e))
      else if f ≤ e then Double.round st.1 (m * 10 ^ (e - f)) 1
      else Double.round st.1 m (10 ^ (f - e))
    (v, ex.2.2)

/-- The main loop of libstdc++'s `num_get::_M_extract_float`: it collects into
`xtrc` digits, one decimal point (before any exponent) and one exponent marker
(after a digit) with an optional sign right after it, and stops at the first
other char.  The flags are `found_mantissa`, `found_dec`, `found_sci`; `se`
says that the previous char was the exponent marker.  The result is the
collected text and the unread rest of the stream. -/
def extract_float_loop : Str → Bool → Bool → Bool → Bool → Str → Str × Str
  | [], _, _, _, _, xtrc => (xtrc, [])
  | c :: cs, fm, fd, fs, se, xtrc =>
    if se = true ∧ (c = '+' ∨ c = '-') then extract_float_loop cs fm fd fs false (xtrc ++ [c])
    else if isdigit c then extract_float_loop cs true fd fs false (xtrc ++ [c])
    else if c = '.' ∧ fd = false ∧ fs = false then
      extract_float_loop cs fm true fs false (xtrc ++ ['.'])
    else if (c = 'e' ∨ c = 'E') ∧ fs = false ∧ fm = true then
      extract_float_loop cs fm fd true true (xtrc ++ ['e'])
    else (xtrc, c :: cs)

/-- `_M_extract_float`: an optional sign, leading zeros (collected as a single
`0`), then the main loop. -/
def extract_float (s : Str) : Str × Str :=
  let sg : Str × Str :=
    match s with
    | c :: cs => if c = '+' ∨ c = '-' then ([c], cs) else ([], s)
    | [] => ([], [])
  let zs := sg.2.takeWhile (fun c => c == '0')
  let s2 := sg.2.dropWhile (fun c => c == '0')
  if zs = [] then extract_float_loop s2 false false false false sg.1
  else extract_float_loop s2 true false false false (sg.1 ++ ['0'])

/-- libstdc++'s `__convert_to_v` for `double`: `strtod` must consume all of
the collected text, else the value is zero and the conversion fails; an
infinite result is replaced by the largest finite double and fails too.  The
result is the value stored and whether the conversion succeeded. -/
def convert_to_v (xtrc : Str) : Double × Bool :=
  let r := strtod xtrc
  if r.2 ≠ [] ∨ xtrc = [] then (Double.zero false, false)
  else if r.1 = Double.inf false then (Double.max false, false)
  else if r.1 = Double.inf true then (Double.max true, false)
  else (r.1, true)

/-- The outcome of `ss >> v` for a `double`: the stream was already at its end
after skipping white space (`failbit`, nothing stored); a failed conversion
(`failbit`, the value stored); or success with the rest of the stream. -/
inductive Extracted where
  | eof
  | fail (v : Double)
  | ok (v : Double) (rest : Str)
  deriving DecidableEq

/-- `ss >> v` on a stream in good state whose unread chars are `ss`. -/
def extract (ss : Str) : Extracted :=
  match ss.dropWhile isspace with
  | [] => Extracted.eof
  | c :: s =>
    let xr := extract_float (c :: s)
    let vr := convert_to_v xr.1
    if vr.2 then Extracted.ok vr.1 xr.2 else Extracted.fail vr.1

/-- `ss >> x >> y` with the prior values of `x` and `y`: the values of `x` and
`y` afterwards and, when both extractions succeeded, the rest of the stream.
After a failure the stream is not good and a further extraction stores
nothing. -/
def extract_pair (ss : Str) (x y : Double) : Double × Double × Option Str :=
  match extract ss with
  | Extracted.eof => (x, y, none)
  | Extracted.fail v => (v, y, none)
  | Extracted.ok v rest =>
    match extract rest with
    | Extracted.eof => (v, y, none)
    | Extracted.fail w => (v, w, none)
    | Extracted.ok w rest2 => (v, w, some rest2)

/-! ## `process_file` -/

/-- The constant `dxy_unit`, 0.1. -/
def dxy_unit : Double := Double.ofDecimal 1 10

/-- What one conversion has produced: the writer and the text on `std::cerr`. -/
structure Run where
  pdf : PDF
  err : Str
  deriving DecidableEq

/-- The loop `while (ss >> x >> y) pdf.draw(...)` (or `pdf.rdraw`, as `op`).
Every round reads at least one char of `ss`, so `fuel = ss.length` rounds
are never exceeded. -/
def draw_loop (op : PDF → Double → Double → Option PDF) : Nat → Str → Double → Double → PDF → Option PDF
  | 0, _, _, _, p => some p
  | fuel + 1, ss, x, y, p =>
    match extract_pair ss x y with
    | (x1, y1, some rest) => do
      let p ← op p (Double.mul x1 dxy_unit) (Double.mul y1 dxy_unit)
      draw_loop op fuel rest x1 y1 p
    | (_, _, none) => some p

/-- The body of the loop of `process_file` for a non-empty line.  The locals
`x` and `y` of a case are declared without initialiser: `lx` and `ly` are
their indeterminate values. -/
def process_line (line : Str) (lx ly : Double) (r : Run) : Option Run :=
  match line with
  | [] => some r
  | cmd :: args =>
    if cmd = 'D' then do
      let ss := normalize_commas args
      let pdf ← draw_loop PDF.draw ss.length ss lx ly r.pdf
      pure { r with pdf := pdf }
    else if cmd = 'I' then do
      let ss := normalize_commas args
      let pdf ← draw_loop PDF.rdraw ss.length ss lx ly r.pdf
      pure { r with pdf := pdf }
    else if cmd = 'J' then some r
    else if cmd = 'M' then
      let ss := normalize_commas args
      let xy := extract_pair ss lx ly
      some { r with pdf := r.pdf.move (Double.mul xy.1 dxy_unit) (Double.mul xy.2.1 dxy_unit) }
    else if cmd = 'P' then do
      let pdf ← r.pdf.print_text args
      pure { r with pdf := pdf }
    else if cmd = 'S' then some r
    else do
      let err ← warn r.err "command not implemented: %c".toList [Arg.chr cmd]
      pure { r with err := err }

/-- The values of the doubles the program reads without having written them:
the cursor members of a new writer, and the locals `x`, `y` of the `n`-th line
read. -/
structure Indeterminate where
  cursor_x : Double
  cursor_y : Double
  local_x : Nat → Double
  local_y : Nat → Double

/-- The loop over the lines: an empty line ends it. -/
def process_lines (u : Indeterminate) : List Str → Nat → Run → Option Run
  | [], _, r => some r
  | line :: rest, n, r =>
    if line.length = 0 then some r
    else do
      let r ← process_line line (u.local_x n) (u.local_y n) r
      process_lines u rest (n + 1) r

/-- The source's `process_file(std::istream&, std::ostream&)` on the bytes of
the input; the output bytes are the `file` of the resulting writer. -/
def process_file (input : Str) (u : Indeterminate) : Option Run := do
  let pdf ← PDF.ctor a3_height a3_width u.cursor_x u.cursor_y
  let r ← process_lines u (getlines input) 0 { pdf := pdf, err := [] }
  let pdf ← r.pdf.finish
  pure { r with pdf := pdf }

/-! ## The layout of the output, for stating the properties -/

def header : Str := "%PDF-1.1\n".toList

/-- Object `k` with the given body, as `add_object` writes it. -/
def obj (k : Nat) (body : Str) : Str :=
  decimal k ++ (" 0 obj\n".toList ++ (body ++ "\nendobj\n".toList))

/-- The header line `k 0 obj` of object `k`. -/
def obj_header (k : Nat) : Str := decimal k ++ " 0 obj\n".toList

def catalog : Str := "<< /Pages 2 0 R >>".toList

def pages : Str := "<< /Kids [3 0 R] /Type /Pages /Count 1 >>".toList

def page (width height : Double) : Str :=
  "<< /Parent 2 0 R /Contents 4 0 R /MediaBox [0 0 ".toList ++
  (fmt_f (Double.div width PDF.unit) ++ (" ".toList ++ (fmt_f (Double.div height PDF.unit) ++
  ("] /Resources  << /Font << /F1 << /BaseFont /Courier /Subtype /Type1 /Type /Font >> >> >> ".toList
    ++ "/Type /Page >>".toList))))

/-- The two operators the constructor puts into the content buffer. -/
def setup_ops : Str :=
  fmt_f (Double.div (Double.ofNat 1) PDF.unit) ++ (" 0 0 ".toList ++
  (fmt_f (Double.div (Double.ofNat 1) PDF.unit) ++ (" ".toList ++
  (fmt_f (Double.div (Double.ofNat 10) PDF.unit) ++ (" ".toList ++
  (fmt_f (Double.div (Double.ofNat 10) PDF.unit) ++ " cm\n".toList)))))) ++
  (fmt_f (Double.ofDecimal 2 10) ++ " w\n".toList)

/-- The body of the content-stream object holding `data`, with its length written out. -/
def stream_body (data : Str) : Str :=
  "<< /Length ".toList ++ (decimal data.length ++ (" >>\nstream\n".toList ++
  (data ++ "endstream".toList)))

/-- An in-use cross-reference entry for the byte offset `o`. -/
def xref_entry (o : Nat) : Str := zeroPad 10 (decimal o) ++ " 00000 n\n".toList

def xref_entries : List Nat → Str
  | [] => []
  | o :: os => xref_entry o ++ xref_entries os

/-- The cross-reference section: keyword, subsection line `0 n`, the free
entry, and one in-use entry per offset. -/
def xref_section (n : Nat) (offsets : List Nat) : Str :=
  "xref\n0 ".toList ++ (decimal n ++ ("\n".toList ++
  ("0000000000 65535 f\n".toList ++ xref_entries offsets)))

def trailer (n : Nat) : Str :=
  "trailer\n<< /Root 1 0 R /Size ".toList ++ (decimal n ++ " >>\n".toList)

def startxref (o : Nat) : Str := "startxref\n".toList ++ (decimal o ++ "\n".toList)

def eof_marker : Str := "%%EOF\n".toList

/-- The bytes in front of object 4: header and objects 1 to 3. -/
def preamble (width height : Double) : Str :=
  header ++ (obj 1 catalog ++ (obj 2 pages ++ obj 3 (page width height)))

/-- The bytes in front of the cross-reference section, for the content `data`. -/
def body (width height : Double) (data : Str) : Str :=
  preamble width height ++ obj 4 (stream_body data)

/-- The four recorded offsets, for a page of the given size. -/
def object_offsets (width height : Double) : List Nat :=
  [9, 43, 100, (preamble width height).length]

/-- The finished document for a page of the given size and the content `data`. -/
def document (width height : Double) (data : Str) : Str :=
  body width height data ++ (xref_section 5 (object_offsets width height) ++
  (trailer 5 ++ (startxref (body width height data).length ++ eof_marker)))

/-- The operator line `x y m`. -/
def line_m (x y : Double) : Str := fmt_f x ++ (" ".toList ++ (fmt_f y ++ " m\n".toList))

/-- The operator line `x y l s`. -/
def line_ls (x y : Double) : Str := fmt_f x ++ (" ".toList ++ (fmt_f y ++ " l s\n".toList))

/-- The text-show operator line at `(x, y)` with the literal `lit`. -/
def line_text (x y : Double) (lit : Str) : Str :=
  "BT /F1 4 Tf ".toList ++ (fmt_f x ++ (" ".toList ++ (fmt_f y ++ (" Td ".toList ++
  (lit ++ " Tj ET\n".toList)))))

/-- The writer `q` differs from `p` only by a longer content buffer and the
cursor: nothing was emitted, and the text appended holds no NUL. -/
def Extends (p q : PDF) : Prop :=
  q.file = p.file ∧ q.offset = p.offset ∧ q.offsets = p.offsets ∧
  q.width = p.width ∧ q.height = p.height ∧ ∃ t, q.ops = p.ops ++ t ∧ '\x00' ∉ t

/-- A call of the drawing interface of the writer. -/
inductive Call where
  | move (x y : Double)
  | draw (x y : Double)
  | rdraw (dx dy : Double)
  | print_text (s : Str)

def Call.run (p : PDF) : Call → Option PDF
  | Call.move x y => some (p.move x y)
  | Call.draw x y => p.draw x y
  | Call.rdraw dx dy => p.rdraw dx dy
  | Call.print_text s => p.print_text s

/-- A sequence of drawing calls, in order. -/
def run_calls : PDF → List Call → Option PDF
  | p, [] => some p
  | p, c :: cs => (c.run p).bind (fun q => run_calls q cs)

/-! ## The escaping rule, and a reader of PDF literal strings -/

/-- The image of one char under the escaping rule: white-space controls become
a space; parentheses and backslash become a backslash and three octal digits. -/
def escape_char (c : Char) : Str :=
  if c = '\t' ∨ c = '\r' ∨ c = '\n' then [' ']
  else if c = '(' then ['\\', '0', '5', '0']
  else if c = ')' then ['\\', '0', '5', '1']
  else if c = '\\' then ['\\', '1', '3', '4']
  else [c]

/-- The images of the chars of `s`, concatenated in order. -/
def escaped : Str → Str
  | [] => []
  | c :: s => escape_char c ++ escaped s

/-- What a text is after tab, carriage return and line feed became spaces. -/
def collapse (s : Str) : Str := s.map (fun c => if c = '\t' ∨ c = '\r' ∨ c = '\n' then ' ' else c)

def isoctal (c : Char) : Bool := decide (48 ≤ c.toNat) && decide (c.toNat ≤ 55)

/-- The state of the reader inside a literal string: plain text; right after
a carriage return (a line feed now belongs to the same end of line); right
after a backslash; inside an octal escape with value `v` and `k` more digits
allowed. -/
inductive LitState where
  | normal
  | after_cr
  | escape
  | octal (v : Nat) (k : Nat)

/-- Outcome of reading one char: the string is closed, or reading goes on
with a state, a nesting depth and the decoded text. -/
inductive LitStep where
  | done (out : Str)
  | more (st : LitState) (depth : Nat) (out : Str)

/-- One char read as plain text (PDF 32000-1, 7.3.4.2): balanced parentheses
are kept, an end of line reads as a line feed, a backslash starts an escape. -/
def lit_plain (depth : Nat) (out : Str) (c : Char) : LitStep :=
  if c = ')' then
    match depth with
    | 0 => LitStep.done out
    | d + 1 => LitStep.more LitState.normal d (out ++ [')'])
  else if c = '(' then LitStep.more LitState.normal (depth + 1) (out ++ ['('])
  else if c = '\r' then LitStep.more LitState.after_cr depth (out ++ ['\n'])
  else if c = '\\' then LitStep.more LitState.escape depth out
  else LitStep.more LitState.normal depth (out ++ [c])

/-- One char read in a given state.  After a backslash: `n r t b f ( ) \`
denote one char each, an end of line is a line continuation, up to three octal
digits denote the byte of that value (overflow ignored), and before any other
char the backslash is ignored. -/
def lit_step (st : LitState) (depth : Nat) (out : Str) (c : Char) : LitStep :=
  match st with
  | LitState.normal => lit_plain depth out c
  | LitState.after_cr =>
    if c = '\n' then LitStep.more LitState.normal depth out else lit_plain depth out c
  | LitState.escape =>
    if c = 'n' then LitStep.more LitState.normal depth (out ++ ['\n'])
    else if c = 'r' then LitStep.more LitState.normal depth (out ++ ['\r'])
    else if c = 't' then LitStep.more LitState.normal depth (out ++ ['\t'])
    else if c = 'b' then LitStep.more LitState.normal depth (out ++ ['\x08'])
    else if c = 'f' then LitStep.more LitState.normal depth (out ++ ['\x0c'])
    else if c = '(' ∨ c = ')' ∨ c = '\\' then LitStep.more LitState.normal depth (out ++ [c])
    else if c = '\n' then LitStep.more LitState.normal depth out
    else if c = '\r' then LitStep.more LitState.after_cr depth out
    else if isoctal c then LitStep.more (LitState.octal (c.toNat - 48) 2) depth out
    else LitStep.more LitState.normal depth (out ++ [c])
  | LitState.octal v k =>
    if isoctal c ∧ 0 < k then
      if k = 1 then
        LitStep.more LitState.normal depth (out ++ [Char.ofNat ((8 * v + (c.toNat - 48)) % 256)])
      else LitStep.more (LitState.octal (8 * v + (c.toNat - 48)) (k - 1)) depth out
    else lit_plain depth (out ++ [Char.ofNat (v % 256)]) c

/-- The body of a literal string, after its opening parenthesis: the decoded
text and the input left behind the closing parenthesis, if the string is closed. -/
def read_literal_body : Str → LitState → Nat → Str → Option (Str × Str)
  | [], _, _, _ => none
  | c :: cs, st, depth, out =>
    match lit_step st depth out c with
    | LitStep.done res => some (res, cs)
    | LitStep.more st2 depth2 out2 => read_literal_body cs st2 depth2 out2

/-- A conforming reader of a PDF literal string at the front of the input. -/
def read_literal : Str → Option (Str × Str)
  | [] => none
  | c :: cs => if c = '(' then read_literal_body cs LitState.normal 0 [] else none

/-- The writer is open: header and objects 1 to 3 of a page of the given size
are emitted and recorded, the byte counter is the length of the output, and
the content buffer holds no NUL. -/
def Open (width height : Double) (p : PDF) : Prop :=
  p.file = preamble width height ∧ p.offset = (preamble width height).length ∧
  p.offsets = [9, 43, 100] ∧ '\x00' ∉ p.ops

/-! ## A sample conversion -/

/-- The sample input (the end-to-end scenario of the specification). -/
def sample_input : Str := "M 0,0\nD 10,0 10,10\nP hello\n\n".toList

/-- Indeterminate values that are all `+0.0`. -/
def zero_indeterminate : Indeterminate :=
  { cursor_x := Double.zero false, cursor_y := Double.zero false,
    local_x := fun _ => Double.zero false, local_y := fun _ => Double.zero false }

/-- The content buffer at the end of the sample conversion. -/
def sample_ops : Str :=
  "2.834646 0 0 2.834646 28.346457 28.346457 cm\n".toList ++
  "0.200000 w\n".toList ++
  "0.000000 0.000000 m\n".toList ++
  "1.000000 0.000000 l s\n".toList ++
  "1.000000 0.000000 m\n".toList ++
  "1.000000 1.000000 l s\n".toList ++
  "BT /F1 4 Tf 1.000000 1.000000 Td ( hello) Tj ET\n".toList

/-- The bytes written by the sample conversion. -/
def sample_output : Str :=
  "%PDF-1.1\n".toList ++
  "1 0 obj\n<< /Pages 2 0 R >>\nendobj\n".toList ++
  "2 0 obj\n<< /Kids [3 0 R] /Type /Pages /Count 1 >>\nendobj\n".toList ++
  "3 0 obj\n<< /Parent 2 0 R /Contents 4 0 R /MediaBox [0 0 1190.551181 841.889764] ".toList ++
  "/Resources  << /Font << /F1 << /BaseFont /Courier /Subtype /Type1 /Type /Font >> >> >> ".toList ++
  "/Type /Page >>\nendobj\n".toList ++
  "4 0 obj\n<< /Length 188 >>\nstream\n".toList ++
  sample_ops ++
  "endstream\nendobj\n".toList ++
  "xref\n0 5\n".toList ++
  "0000000000 65535 f\n".toList ++
  "0000000009 00000 n\n".toList ++
  "0000000043 00000 n\n".toList ++
  "0000000100 00000 n\n".toList ++
  "0000000289 00000 n\n".toList ++
  "trailer\n<< /Root 1 0 R /Size 5 >>\n".toList ++
  "startxref\n527\n".toList ++
  "%%EOF\n".toList

/-- The result of the sample conversion: the writer at the end, and no warning. -/
def sample_run : Run :=
  { pdf :=
      { file := sample_output, width := a3_height, height := a3_width,
        x := Double.ofNat 1, y := Double.ofNat 1,
        offset := 527, offsets := [9, 43, 100, 289], ops := sample_ops },
    err := [] }

/-! ## Sequences of draws -/

/-- Successive calls of `draw`, one per point, in order. -/
def draw_all : PDF → List (Double × Double) → Option PDF
  | p, [] => some p
  | p, pt :: rest => (p.draw pt.1 pt.2).bind (fun q => draw_all q rest)

/-- One move/line/stroke pair per point: each segment starts where the
previous one ended, the first at `(cx, cy)`. -/
def segments : Double → Double → List (Double × Double) → Str
  | _, _, [] => []
  | cx, cy, pt :: rest => line_m cx cy ++ (line_ls pt.1 pt.2 ++ segments pt.1 pt.2 rest)

/-- The last of the points, or `(cx, cy)` when there is none. -/
def last_point : Double → Double → List (Double × Double) → Double × Double
  | cx, cy, [] => (cx, cy)
  | _, _, pt :: rest => last_point pt.1 pt.2 rest

/-- Sample drawing calls, among them a text with a NUL in it. -/
def sample_calls : List Call :=
  [Call.move (Double.ofNat 1) (Double.ofNat 2), Call.draw (Double.ofNat 3) (Double.ofNat 4),
   Call.rdraw (Double.ofNat 5) (Double.ofNat 6), Call.print_text "a\x00b(c)".toList]

/-! ## The coordinate pairs of a line -/

/-- The pairs the loop `while (ss >> x >> y)` reads from `ss`, in order
(`fuel`, `x`, `y` as in `draw_loop`). -/
def read_pairs : Nat → Str → Double → Double → List (Double × Double)
  | 0, _, _, _ => []
  | fuel + 1, ss, x, y =>
    match extract_pair ss x y with
    | (x1, y1, some rest) => (x1, y1) :: read_pairs fuel rest x1 y1
    | (_, _, none) => []

/-- The pairs of the operand text of a `D` or `I` line. -/
def line_pairs (args : Str) (lx ly : Double) : List (Double × Double) :=
  read_pairs (normalize_commas args).length (normalize_commas args) lx ly

/-- A pair in plotter units, in document units. -/
def scale (pt : Double × Double) : Double × Double :=
  (Double.mul pt.1 dxy_unit, Double.mul pt.2 dxy_unit)

/-- Successive calls of `rdraw`, one per pair, in order. -/
def rdraw_all : PDF → List (Double × Double) → Option PDF
  | p, [] => some p
  | p, pt :: rest => (p.rdraw pt.1 pt.2).bind (fun q => rdraw_all q rest)

/-- The text `t2` is `t1` with some of its commas replaced by spaces. -/
def CommasToSpaces (t1 t2 : Str) : Prop :=
  List.Forall₂ (fun a b => b = a ∨ (a = ',' ∧ b = ' ')) t1 t2

/-- The two setup operators, as the constructor prints them. -/
def setup_text : Str :=
  "2.834646 0 0 2.834646 28.346457 28.346457 cm\n".toList ++ "0.200000 w\n".toList

/-! ## The drawing calls of a conversion -/

/-- The end points of successive relative draws by the offsets `ds`, starting
at `(cx, cy)`. -/
def absolute : Double → Double → List (Double × Double) → List (Double × Double)
  | _, _, [] => []
  | cx, cy, d :: rest =>
    (Double.add cx d.1, Double.add cy d.2)
      :: absolute (Double.add cx d.1) (Double.add cy d.2) rest

/-- The drawing calls `process_line` issues for a line, in order. -/
def calls_of_line (line : Str) (lx ly : Double) : List Call :=
  match line with
  | [] => []
  | cmd :: args =>
    if cmd = 'D' then
      (line_pairs args lx ly).map (fun pt => Call.draw (scale pt).1 (scale pt).2)
    else if cmd = 'I' then
      (line_pairs args lx ly).map (fun pt => Call.rdraw (scale pt).1 (scale pt).2)
    else if cmd = 'M' then
      [Call.move (Double.mul (extract_pair (normalize_commas args) lx ly).1 dxy_unit)
        (Double.mul (extract_pair (normalize_commas args) lx ly).2.1 dxy_unit)]
    else if cmd = 'P' then [Call.print_text args]
    else []

/-- The drawing calls `process_lines` issues, in order, up to the first empty line. -/
def calls_of_lines (u : Indeterminate) : List Str → Nat → List Call
  | [], _ => []
  | line :: rest, n =>
    if line.length = 0 then []
    else calls_of_line line (u.local_x n) (u.local_y n) ++ calls_of_lines u rest (n + 1)

/-- The cursor as an optional pair, absent until it is stored: a move or a
draw stores it; a draw, a relative draw and a text read it.  The result is
`none` when a call reads a cursor that is absent. -/
def tracked_call : Option (Double × Double) → Call → Option (Option (Double × Double))
  | _, Call.move x y => some (some (x, y))
  | some _, Call.draw x y => some (some (x, y))
  | some c, Call.rdraw dx dy => some (some (Double.add c.1 dx, Double.add c.2 dy))
  | some c, Call.print_text _ => some (some c)
  | none, _ => none

/-- The optional cursor along a sequence of calls; `none` when some call reads
an absent cursor. -/
def tracked_calls : Option (Double × Double) → List Call → Option (Option (Double × Double))
  | c, [] => some c
  | c, call :: rest => (tracked_call c call).bind (fun c2 => tracked_calls c2 rest)

/-- The operand text holds a complete numeric pair: both extractions succeed. -/
def complete_pair (args : Str) : Bool :=
  (extract_pair (normalize_commas args) (Double.zero false) (Double.zero false)).2.2.isSome

/-- Every `M` line among the lines holds a complete numeric pair. -/
def moves_complete : List Str → Bool
  | [] => true
  | line :: rest =>
    (match line with
      | [] => true
      | cmd :: args => if cmd = 'M' then complete_pair args else true) && moves_complete rest

/-- The first line is an `M` line with a complete numeric pair. -/
def starts_with_move : List Str → Bool
  | [] => false
  | line :: _ =>
    match line with
    | [] => false
    | cmd :: args => if cmd = 'M' then complete_pair args else false

/-! ## Positions of a text in the output -/

/-- The text `pat` stands at the front of `s`. -/
def starts_with : Str → Str → Bool
  | [], _ => true
  | _ :: _, [] => false
  | a :: pat, c :: s => decide (a = c) && starts_with pat s

/-- The byte positions at which `pat` stands in `s`, in increasing order, when
`s` begins at the position `n`. -/
def occurrences_from (pat : Str) : Str → Nat → List Nat
  | [], n => if starts_with pat [] then [n] else []
  | c :: s, n =>
    if starts_with pat (c :: s) then n :: occurrences_from pat s (n + 1)
    else occurrences_from pat s (n + 1)

/-- The byte positions at which `pat` stands in `s`, in increasing order. -/
def occurrences (pat s : Str) : List Nat := occurrences_from pat s 0

/-! # Properties -/

/-! ## C strings -/

theorem cstr_of_not_mem {s : Str} (h : '\x00' ∉ s) : cstr s = s := by
  induction s with
  | nil => rfl
  | cons c cs ih =>
    have hc : c ≠ '\x00' := fun e => h (by simp [e])
    have hcs : '\x00' ∉ cs := fun e => h (by simp [e])
    simp [cstr, hc, ih hcs]

theorem nul_not_mem_cstr (s : Str) : '\x00' ∉ cstr s := by
  induction s with
  | nil => simp [cstr]
  | cons c cs ih =>
    by_cases hc : c = '\x00'
    · simp [cstr, hc]
    · simp only [cstr, hc, if_false, List.mem_cons, not_or]
      exact ⟨fun e => hc e.symm, ih⟩

theorem cstr_length_le (s : Str) : (cstr s).length ≤ s.length := by
  induction s with
  | nil => simp [cstr]
  | cons c cs ih =>
    by_cases hc : c = '\x00'
    · simp [cstr, hc]
    · simp only [cstr, hc, if_false, List.length_cons]
      omega

theorem strfmt_eq_some {format : Str} {args : List Arg} {s : Str}
    (h : strfmt format args = some s) :
    s = cstr (expand (cstr format) args) ∧ (expand (cstr format) args).length < INT_MAX := by
  unfold strfmt at h
  simp only at h
  split at h
  · cases h
  · rename_i hlt
    exact ⟨(Option.some.inj h).symm, Nat.lt_of_not_le hlt⟩

theorem strfmt_of_lt {format : Str} {args : List Arg}
    (h : (expand (cstr format) args).length < INT_MAX) :
    strfmt format args = some (cstr (expand (cstr format) args)) := by
  unfold strfmt
  simp only
  rw [if_neg (Nat.not_le_of_lt h)]

theorem nul_not_mem_strfmt {format : Str} {args : List Arg} {s : Str}
    (h : strfmt format args = some s) : '\x00' ∉ s := by
  rw [(strfmt_eq_some h).1]
  exact nul_not_mem_cstr _

theorem strfmt_length_lt {format : Str} {args : List Arg} {s : Str}
    (h : strfmt format args = some s) : s.length < INT_MAX := by
  rw [(strfmt_eq_some h).1]
  exact Nat.lt_of_le_of_lt (cstr_length_le _) (strfmt_eq_some h).2

/-! ## Digits -/

theorem digitChar_ne_nul (n : Nat) : digitChar n ≠ '\x00' := by
  unfold digitChar
  have h : n % 10 < 10 := Nat.mod_lt _ (by decide)
  generalize n % 10 = k at h
  interval_cases k <;> decide

theorem nul_not_mem_digitsAux (b : Nat) (fuel n : Nat) (acc : Str) (h : '\x00' ∉ acc) :
    '\x00' ∉ digitsAux b fuel n acc := by
  induction fuel generalizing n acc with
  | zero =>
    simp only [digitsAux, List.mem_cons, not_or]
    exact ⟨fun e => digitChar_ne_nul _ e.symm, h⟩
  | succ fuel ih =>
    unfold digitsAux
    split
    · simp only [List.mem_cons, not_or]
      exact ⟨fun e => digitChar_ne_nul _ e.symm, h⟩
    · apply ih
      simp only [List.mem_cons, not_or]
      exact ⟨fun e => digitChar_ne_nul _ e.symm, h⟩

theorem nul_not_mem_digits (b n : Nat) : '\x00' ∉ digits b n :=
  nul_not_mem_digitsAux b n n [] (by simp)

theorem nul_not_mem_zeroPad (w : Nat) {s : Str} (h : '\x00' ∉ s) : '\x00' ∉ zeroPad w s := by
  unfold zeroPad
  simp only [List.mem_append, not_or]
  refine ⟨?_, h⟩
  intro hm
  have := List.eq_of_mem_replicate hm
  exact absurd this (by decide)

/-- A number below `10 ^ (k + 1)` has at most `k + 1` decimal digits. -/
theorem digitsAux_length_le (fuel n : Nat) (acc : Str) (k : Nat) (h : n < 10 ^ (k + 1)) :
    (digitsAux 10 fuel n acc).length ≤ k + 1 + acc.length := by
  induction fuel generalizing n acc k with
  | zero => simp only [digitsAux, List.length_cons]; omega
  | succ fuel ih =>
    unfold digitsAux
    split
    · simp only [List.length_cons]; omega
    · rename_i hn
      cases k with
      | zero => simp at h; omega
      | succ k =>
        have h2 : n / 10 < 10 ^ (k + 1) := by
          rw [Nat.div_lt_iff_lt_mul (by decide)]
          rw [pow_succ] at h
          exact h
        have := ih (n / 10) (digitChar (n % 10) :: acc) k h2
        simp only [List.length_cons] at this
        omega

theorem decimal_length_le (n k : Nat) (h : n < 10 ^ (k + 1)) : (decimal n).length ≤ k + 1 := by
  have := digitsAux_length_le n n [] k h
  simpa [decimal, digits] using this

theorem digitsAux_length_pos (b fuel n : Nat) (acc : Str) :
    acc.length < (digitsAux b fuel n acc).length := by
  induction fuel generalizing n acc with
  | zero => simp [digitsAux]
  | succ fuel ih =>
    unfold digitsAux
    split
    · simp
    · have := ih (n / b) (digitChar (n % b) :: acc)
      simp only [List.length_cons] at this
      omega

theorem zeroPad_length (w : Nat) (s : Str) :
    (zeroPad w s).length = (w - s.length) + s.length := by
  unfold zeroPad
  simp only [List.length_append, List.length_replicate]

/-! ## The conversion `%f` -/

theorem nul_not_mem_fmt_f (d : Double) : '\x00' ∉ fmt_f d := by
  unfold fmt_f
  simp only [List.mem_append, not_or]
  constructor
  · split <;> simp
  · split
    · decide
    · split
      · decide
      · simp only [List.mem_append, List.mem_cons, not_or]
        refine ⟨nul_not_mem_digits _ _, by decide, nul_not_mem_zeroPad _ (nul_not_mem_digits _ _)⟩

theorem Double.rne_le (a b : Nat) : Double.rne a b ≤ a / b + 1 := by
  unfold Double.rne
  simp only
  split
  · omega
  · split
    · omega
    · split <;> omega

theorem Double.units_lt (d : Double) : d.units < 2 ^ 2100 := by
  unfold Double.units
  have hm : d.mant < 4503599627370496 := Nat.mod_lt _ (by decide)
  have he : d.expo < 2048 := Nat.mod_lt _ (by decide)
  split
  · calc d.mant < 4503599627370496 := hm
      _ ≤ 2 ^ 2100 := by
        rw [show (4503599627370496 : Nat) = 2 ^ 52 by norm_num]
        exact Nat.pow_le_pow_right (by decide) (by decide)
  · have h1 : 4503599627370496 + d.mant < 2 ^ 53 := by
      rw [show (2 : Nat) ^ 53 = 9007199254740992 by norm_num]
      omega
    have h2 : 2 ^ (d.expo - 1) ≤ 2 ^ 2047 := Nat.pow_le_pow_right (by decide) (by omega)
    calc (4503599627370496 + d.mant) * 2 ^ (d.expo - 1)
        < 2 ^ 53 * 2 ^ 2047 := Nat.mul_lt_mul_of_lt_of_le h1 h2 (Nat.pow_pos (by decide))
      _ = 2 ^ 2100 := by rw [← pow_add]

/-- The text of `%f` is short: well below `INT_MAX`. -/
theorem fmt_f_length_le (d : Double) : (fmt_f d).length ≤ 3000 := by
  have hsign : (if d.sign then ['-'] else ([] : Str)).length ≤ 1 := by split <;> simp
  have hbody : (if d.isNaN then ['n', 'a', 'n']
      else if d.isInf then ['i', 'n', 'f']
      else
        decimal (Double.rne (d.units * 1000000) (2 ^ 1074) / 1000000) ++
          '.' :: zeroPad 6 (decimal (Double.rne (d.units * 1000000) (2 ^ 1074) % 1000000))).length
      ≤ 2900 := by
    split
    · simp only [List.length_cons, List.length_nil]; omega
    · split
      · simp only [List.length_cons, List.length_nil]; omega
      · simp only [List.length_append, List.length_cons]
        have hu := Double.units_lt d
        have h1 := Double.rne_le (d.units * 1000000) (2 ^ 1074)
        have h2 : d.units * 1000000 / 2 ^ 1074 ≤ d.units * 1000000 := Nat.div_le_self _ _
        have h3 : (2 : Nat) ^ 2100 ≤ 10 ^ 2100 := Nat.pow_le_pow_left (by decide) _
        have h4 : (10 : Nat) ^ 2107 = 10 ^ 2100 * 10000000 := by
          rw [show 2107 = 2100 + 7 by rfl, pow_add]; norm_num
        have hn : Double.rne (d.units * 1000000) (2 ^ 1074) / 1000000 < 10 ^ (2106 + 1) := by
          apply Nat.lt_of_le_of_lt (Nat.div_le_self _ _)
          rw [h4]
          have : 0 < (10 : Nat) ^ 2100 := Nat.pow_pos (by decide)
          omega
        have h5 := decimal_length_le _ 2106 hn
        have h6 : Double.rne (d.units * 1000000) (2 ^ 1074) % 1000000 < 10 ^ (5 + 1) :=
          Nat.mod_lt _ (by decide)
        have h7 := decimal_length_le _ 5 h6
        rw [zeroPad_length]
        omega
  unfold fmt_f
  simp only [List.length_append]
  omega

/-! ## The calls of `strfmt` in the program -/

theorem strfmt_eq_of {format : Str} {args : List Arg} {out : Str}
    (he : expand (cstr format) args = out) (hn : '\x00' ∉ out) (hl : out.length < INT_MAX) :
    strfmt format args = some out := by
  rw [strfmt_of_lt (by rw [he]; exact hl), he, cstr_of_not_mem hn]

theorem fmt_f_length_lt (d : Double) : (fmt_f d).length < 3001 :=
  Nat.lt_succ_of_le (fmt_f_length_le d)

theorem strfmt_m (a b : Double) :
    strfmt "%f %f m".toList [Arg.dbl a, Arg.dbl b]
      = some (fmt_f a ++ (" ".toList ++ (fmt_f b ++ " m".toList))) := by
  have he : expand (cstr "%f %f m".toList) [Arg.dbl a, Arg.dbl b]
      = fmt_f a ++ (" ".toList ++ (fmt_f b ++ " m".toList)) := rfl
  apply strfmt_eq_of he
  · simp only [List.mem_append, not_or]
    exact ⟨nul_not_mem_fmt_f a, by decide, nul_not_mem_fmt_f b, by decide⟩
  · have ha := fmt_f_length_le a
    have hb := fmt_f_length_le b
    simp only [List.length_append, INT_MAX]
    have : " ".toList.length = 1 := rfl
    have : " m".toList.length = 2 := rfl
    omega

theorem strfmt_ls (a b : Double) :
    strfmt "%f %f l s".toList [Arg.dbl a, Arg.dbl b]
      = some (fmt_f a ++ (" ".toList ++ (fmt_f b ++ " l s".toList))) := by
  have he : expand (cstr "%f %f l s".toList) [Arg.dbl a, Arg.dbl b]
      = fmt_f a ++ (" ".toList ++ (fmt_f b ++ " l s".toList)) := rfl
  apply strfmt_eq_of he
  · simp only [List.mem_append, not_or]
    exact ⟨nul_not_mem_fmt_f a, by decide, nul_not_mem_fmt_f b, by decide⟩
  · have ha := fmt_f_length_le a
    have hb := fmt_f_length_le b
    simp only [List.length_append, INT_MAX]
    have : " ".toList.length = 1 := rfl
    have : " l s".toList.length = 4 := rfl
    omega

/-- The page dictionary, object 3. -/
theorem strfmt_page (w h : Double) :
    strfmt ("<< /Parent 2 0 R ".toList ++ "/Contents 4 0 R ".toList ++ "/MediaBox [0 0 %f %f] ".toList
      ++ "/Resources  << /Font << /F1 << /BaseFont /Courier /Subtype /Type1 /Type /Font >> >> >> ".toList
      ++ "/Type /Page ".toList ++ ">>".toList)
      [Arg.dbl (Double.div w PDF.unit), Arg.dbl (Double.div h PDF.unit)] = some (page w h) := by
  have he : expand (cstr ("<< /Parent 2 0 R ".toList ++ "/Contents 4 0 R ".toList ++ "/MediaBox [0 0 %f %f] ".toList
      ++ "/Resources  << /Font << /F1 << /BaseFont /Courier /Subtype /Type1 /Type /Font >> >> >> ".toList
      ++ "/Type /Page ".toList ++ ">>".toList))
      [Arg.dbl (Double.div w PDF.unit), Arg.dbl (Double.div h PDF.unit)] = page w h := rfl
  apply strfmt_eq_of he
  · unfold page
    simp only [List.mem_append, not_or]
    exact ⟨by decide, nul_not_mem_fmt_f _, by decide, nul_not_mem_fmt_f _, by decide, by decide⟩
  · have ha := fmt_f_length_le (Double.div w PDF.unit)
    have hb := fmt_f_length_le (Double.div h PDF.unit)
    simp [page, INT_MAX]
    omega

theorem decimal_length_le_of_lt (n : Nat) (h : n < 18446744073709551616) :
    (decimal n).length ≤ 20 :=
  decimal_length_le n 19 (Nat.lt_of_lt_of_le h (by norm_num))

theorem strfmt_obj (i : Nat) (h : i < 18446744073709551616) :
    strfmt "%zu 0 obj\n".toList [Arg.num i] = some (obj_header i) := by
  have he : expand (cstr "%zu 0 obj\n".toList) [Arg.num i] = obj_header i := rfl
  apply strfmt_eq_of he
  · simp only [obj_header, List.mem_append, not_or]
    exact ⟨nul_not_mem_digits _ _, by decide⟩
  · have := decimal_length_le_of_lt i h
    simp [obj_header, INT_MAX]
    omega

theorem strfmt_cm (a b c d : Double) :
    strfmt "%f 0 0 %f %f %f cm".toList [Arg.dbl a, Arg.dbl b, Arg.dbl c, Arg.dbl d]
      = some (fmt_f a ++ (" 0 0 ".toList ++ (fmt_f b ++ (" ".toList ++ (fmt_f c ++ (" ".toList ++
        (fmt_f d ++ " cm".toList))))))) := by
  have he : expand (cstr "%f 0 0 %f %f %f cm".toList) [Arg.dbl a, Arg.dbl b, Arg.dbl c, Arg.dbl d]
      = fmt_f a ++ (" 0 0 ".toList ++ (fmt_f b ++ (" ".toList ++ (fmt_f c ++ (" ".toList ++
        (fmt_f d ++ " cm".toList)))))) := rfl
  apply strfmt_eq_of he
  · simp only [List.mem_append, not_or]
    exact ⟨nul_not_mem_fmt_f a, by decide, nul_not_mem_fmt_f b, by decide, nul_not_mem_fmt_f c,
      by decide, nul_not_mem_fmt_f d, by decide⟩
  · have ha := fmt_f_length_le a
    have hb := fmt_f_length_le b
    have hc := fmt_f_length_le c
    have hd := fmt_f_length_le d
    simp [INT_MAX]
    omega

theorem strfmt_w (a : Double) :
    strfmt "%f w".toList [Arg.dbl a] = some (fmt_f a ++ " w".toList) := by
  have he : expand (cstr "%f w".toList) [Arg.dbl a] = fmt_f a ++ " w".toList := rfl
  apply strfmt_eq_of he
  · simp only [List.mem_append, not_or]
    exact ⟨nul_not_mem_fmt_f a, by decide⟩
  · have ha := fmt_f_length_le a
    simp [INT_MAX]
    omega

theorem strfmt_xref : strfmt "xref\n0 %zu\n".toList [Arg.num (1 + 4)] = some "xref\n0 5\n".toList := by
  decide

theorem strfmt_free :
    strfmt "%010u %05u f\n".toList [Arg.num 0, Arg.num 65535] = some "0000000000 65535 f\n".toList := by
  decide

theorem strfmt_trailer :
    strfmt "trailer\n<< /Root 1 0 R /Size %zu >>\n".toList [Arg.num (1 + 4)] = some (trailer 5) := by
  decide

theorem strfmt_entry (i : Nat) (h : i < 18446744073709551616) :
    strfmt "%010zu %05d n\n".toList [Arg.num i, Arg.num 0] = some (xref_entry i) := by
  have he : expand (cstr "%010zu %05d n\n".toList) [Arg.num i, Arg.num 0] = xref_entry i := rfl
  apply strfmt_eq_of he
  · simp only [xref_entry, List.mem_append, not_or]
    exact ⟨nul_not_mem_zeroPad _ (nul_not_mem_digits _ _), by decide⟩
  · have := decimal_length_le_of_lt i h
    simp [xref_entry, INT_MAX, zeroPad_length]
    omega

theorem strfmt_startxref (i : Nat) (h : i < 18446744073709551616) :
    strfmt "startxref\n%zu\n".toList [Arg.num i] = some (startxref i) := by
  have he : expand (cstr "startxref\n%zu\n".toList) [Arg.num i] = startxref i := rfl
  apply strfmt_eq_of he
  · simp only [startxref, List.mem_append, not_or]
    exact ⟨by decide, nul_not_mem_digits _ _, by decide⟩
  · have := decimal_length_le_of_lt i h
    simp [startxref, INT_MAX]
    omega

theorem strfmt_some_iff {format : Str} {args : List Arg} {out s : Str}
    (he : expand (cstr format) args = out) (hn : '\x00' ∉ out) :
    strfmt format args = some s ↔ s = out ∧ out.length < INT_MAX := by
  constructor
  · intro h
    have := strfmt_eq_some h
    rw [he, cstr_of_not_mem hn] at this
    exact this
  · rintro ⟨rfl, hl⟩
    exact strfmt_eq_of he hn hl

/-! ## `escape` -/

theorem strfmt_octal (c : Char) (h : c = '(' ∨ c = ')' ∨ c = '\\') :
    strfmt "\\%03o".toList [Arg.num c.toNat] = some (escape_char c) := by
  rcases h with rfl | rfl | rfl <;> decide

theorem escape_loop_eq (s ss : Str) : PDF.escape_loop s ss = some (ss ++ escaped s) := by
  induction s generalizing ss with
  | nil => simp [PDF.escape_loop, escaped]
  | cons c s ih =>
    unfold PDF.escape_loop
    by_cases h1 : c = '\t' ∨ c = '\r' ∨ c = '\n'
    · rw [if_pos h1, ih]
      simp [escaped, escape_char, h1]
    · rw [if_neg h1]
      by_cases h2 : c = '(' ∨ c = ')' ∨ c = '\\'
      · rw [if_pos h2, strfmt_octal c h2]
        simp only [Option.bind_eq_bind, Option.some_bind, ih, escaped, List.append_assoc]
      · rw [if_neg h2, ih]
        have h3 : escape_char c = [c] := by
          simp only [not_or] at h2
          simp [escape_char, h1, h2]
        simp [escaped, h3]

/-- The value of `escape`: the images of the chars between parentheses. -/
theorem escape_eq (s : Str) : PDF.escape s = some ('(' :: (escaped s ++ [')'])) := by
  unfold PDF.escape
  rw [escape_loop_eq]
  rfl

/-! ## The writer's methods -/

theorem add_op_of_strfmt {p : PDF} {format : Str} {args : List Arg} {s : Str}
    (h : strfmt format args = some s) :
    p.add_op format args = some { p with ops := p.ops ++ s ++ "\n".toList } := by
  unfold PDF.add_op
  rw [h]
  rfl

theorem add_op_eq_some {p q : PDF} {format : Str} {args : List Arg}
    (h : p.add_op format args = some q) :
    ∃ s, strfmt format args = some s ∧ q = { p with ops := p.ops ++ s ++ "\n".toList } := by
  unfold PDF.add_op at h
  cases hs : strfmt format args with
  | none => rw [hs] at h; cases h
  | some s =>
    rw [hs] at h
    exact ⟨s, rfl, (Option.some.inj h).symm⟩

/-- The effect of `draw`: it never throws, appends the two operator lines and
moves the cursor. -/
theorem draw_eq (p : PDF) (x y : Double) :
    p.draw x y = some { p with ops := p.ops ++ (line_m p.x p.y ++ line_ls x y), x := x, y := y } := by
  unfold PDF.draw
  rw [add_op_of_strfmt (strfmt_m p.x p.y)]
  simp only [Option.bind_eq_bind, Option.some_bind]
  rw [add_op_of_strfmt (strfmt_ls x y)]
  simp [line_m, line_ls]

theorem rdraw_eq (p : PDF) (dx dy : Double) :
    p.rdraw dx dy = some { p with
      ops := p.ops ++ (line_m p.x p.y ++ line_ls (Double.add p.x dx) (Double.add p.y dy)),
      x := Double.add p.x dx, y := Double.add p.y dy } := by
  unfold PDF.rdraw
  exact draw_eq p _ _

theorem nul_not_mem_line_m (x y : Double) : '\x00' ∉ line_m x y := by
  simp only [line_m, List.mem_append, not_or]
  exact ⟨nul_not_mem_fmt_f x, by decide, nul_not_mem_fmt_f y, by decide⟩

theorem nul_not_mem_line_ls (x y : Double) : '\x00' ∉ line_ls x y := by
  simp only [line_ls, List.mem_append, not_or]
  exact ⟨nul_not_mem_fmt_f x, by decide, nul_not_mem_fmt_f y, by decide⟩

/-- The text operator `print_text` formats: the escaped literal is passed as a
C string. -/
theorem expand_text (x y : Double) (se : Str) :
    expand (cstr "BT /F1 4 Tf %f %f Td %s Tj ET".toList) [Arg.dbl x, Arg.dbl y, Arg.str se]
      = "BT /F1 4 Tf ".toList ++ (fmt_f x ++ (" ".toList ++ (fmt_f y ++ (" Td ".toList ++
        (cstr se ++ " Tj ET".toList))))) := rfl

theorem nul_not_mem_text (x y : Double) (se : Str) :
    '\x00' ∉ "BT /F1 4 Tf ".toList ++ (fmt_f x ++ (" ".toList ++ (fmt_f y ++ (" Td ".toList ++
        (cstr se ++ " Tj ET".toList))))) := by
  simp only [List.mem_append, not_or]
  exact ⟨by decide, nul_not_mem_fmt_f x, by decide, nul_not_mem_fmt_f y, by decide,
    nul_not_mem_cstr se, by decide⟩

/-- The effect of `print_text` when it returns: one text operator line whose
literal is the C string of the escaped text. -/
theorem print_text_eq_some {p q : PDF} {s : Str} (h : p.print_text s = some q) :
    q = { p with ops := p.ops ++ line_text p.x p.y (cstr ('(' :: (escaped s ++ [')']))) } := by
  unfold PDF.print_text at h
  rw [escape_eq] at h
  simp only [Option.bind_eq_bind, Option.some_bind] at h
  obtain ⟨t, ht, rfl⟩ := add_op_eq_some h
  rw [strfmt_some_iff (expand_text _ _ _) (nul_not_mem_text _ _ _)] at ht
  rw [ht.1]
  simp [line_text]

theorem escape_char_length_le (c : Char) : (escape_char c).length ≤ 4 := by
  unfold escape_char
  split
  · simp
  · split
    · simp
    · split
      · simp
      · split <;> simp

theorem escaped_length_le (s : Str) : (escaped s).length ≤ 4 * s.length := by
  induction s with
  | nil => simp [escaped]
  | cons c s ih =>
    have := escape_char_length_le c
    simp only [escaped, List.length_append, List.length_cons]
    omega

/-- When `print_text` returns and when it throws: it returns if the operator
line stays below `INT_MAX` chars, which a text of up to 500 million chars
guarantees. -/
theorem print_text_of_short (p : PDF) (s : Str) (h : s.length ≤ 500000000) :
    p.print_text s
      = some { p with ops := p.ops ++ line_text p.x p.y (cstr ('(' :: (escaped s ++ [')']))) } := by
  have hq : ∃ q, p.print_text s = some q := by
    unfold PDF.print_text
    rw [escape_eq]
    simp only [Option.bind_eq_bind, Option.some_bind]
    have hl : ("BT /F1 4 Tf ".toList ++ (fmt_f p.x ++ (" ".toList ++ (fmt_f p.y ++ (" Td ".toList ++
        (cstr ('(' :: (escaped s ++ [')'])) ++ " Tj ET".toList)))))).length < INT_MAX := by
      have h1 := fmt_f_length_le p.x
      have h2 := fmt_f_length_le p.y
      have h3 := cstr_length_le ('(' :: (escaped s ++ [')']))
      have h4 := escaped_length_le s
      simp only [List.length_cons, List.length_append, List.length_nil] at h3
      simp [INT_MAX]
      omega
    exact ⟨_, add_op_of_strfmt (strfmt_eq_of (expand_text _ _ _) (nul_not_mem_text _ _ _) hl)⟩
  obtain ⟨q, hq⟩ := hq
  rw [hq, print_text_eq_some hq]

theorem nul_not_mem_line_text (x y : Double) (se : Str) : '\x00' ∉ line_text x y (cstr se) := by
  simp only [line_text, List.mem_append, not_or]
  exact ⟨by decide, nul_not_mem_fmt_f x, by decide, nul_not_mem_fmt_f y, by decide,
    nul_not_mem_cstr se, by decide⟩

/-! ## Drawing emits nothing -/

theorem Extends.refl (p : PDF) : Extends p p :=
  ⟨rfl, rfl, rfl, rfl, rfl, [], by simp, by simp⟩

theorem Extends.trans {p q r : PDF} (h1 : Extends p q) (h2 : Extends q r) : Extends p r := by
  obtain ⟨a1, a2, a3, a4, a5, t, a6, a7⟩ := h1
  obtain ⟨b1, b2, b3, b4, b5, u, b6, b7⟩ := h2
  refine ⟨b1.trans a1, b2.trans a2, b3.trans a3, b4.trans a4, b5.trans a5, t ++ u, ?_, ?_⟩
  · rw [b6, a6, List.append_assoc]
  · simp only [List.mem_append, not_or]
    exact ⟨a7, b7⟩

theorem extends_move (p : PDF) (x y : Double) : Extends p (p.move x y) :=
  ⟨rfl, rfl, rfl, rfl, rfl, [], by simp [PDF.move], by simp⟩

theorem extends_draw {p q : PDF} {x y : Double} (h : p.draw x y = some q) : Extends p q := by
  rw [draw_eq] at h
  cases h
  refine ⟨rfl, rfl, rfl, rfl, rfl, _, rfl, ?_⟩
  simp only [List.mem_append, not_or]
  exact ⟨nul_not_mem_line_m _ _, nul_not_mem_line_ls _ _⟩

theorem extends_rdraw {p q : PDF} {dx dy : Double} (h : p.rdraw dx dy = some q) : Extends p q :=
  extends_draw h

theorem extends_print_text {p q : PDF} {s : Str} (h : p.print_text s = some q) : Extends p q := by
  rw [print_text_eq_some h]
  exact ⟨rfl, rfl, rfl, rfl, rfl, _, rfl, nul_not_mem_line_text _ _ _⟩

theorem extends_call {p q : PDF} {c : Call} (h : c.run p = some q) : Extends p q := by
  cases c with
  | move x y => cases h; exact extends_move _ _ _
  | draw x y => exact extends_draw h
  | rdraw dx dy => exact extends_rdraw h
  | print_text s => exact extends_print_text h

theorem extends_run_calls {p q : PDF} {cs : List Call} (h : run_calls p cs = some q) :
    Extends p q := by
  induction cs generalizing p with
  | nil => cases h; exact Extends.refl _
  | cons c cs ih =>
    unfold run_calls at h
    cases hc : c.run p with
    | none => rw [hc] at h; cases h
    | some r =>
      rw [hc] at h
      exact (extends_call hc).trans (ih h)

/-! ## Emitting objects -/

theorem add_object_eq (p : PDF) (s : Str) (h : p.offsets.length + 1 < 18446744073709551616) :
    p.add_object s = some
      { p with
        file := p.file ++ obj (p.offsets.length + 1) s,
        offset := (p.offset + (obj (p.offsets.length + 1) s).length) % 18446744073709551616,
        offsets := p.offsets ++ [p.offset] } := by
  unfold PDF.add_object
  simp only [List.length_append, List.length_cons, List.length_nil, Nat.zero_add]
  rw [strfmt_obj _ h]
  simp only [Option.bind_eq_bind, Option.some_bind, PDF.add, Option.pure_def, Option.some.injEq,
    PDF.mk.injEq, and_true, true_and]
  constructor
  · simp [obj, obj_header]
  · simp only [obj, obj_header, List.length_append]
    omega

theorem header_length : header.length = 9 := rfl

theorem obj_catalog_length : (obj 1 catalog).length = 34 := by decide

theorem obj_pages_length : (obj 2 pages).length = 57 := by decide

theorem page_length_le (w h : Double) : (page w h).length ≤ 7000 := by
  have ha := fmt_f_length_le (Double.div w PDF.unit)
  have hb := fmt_f_length_le (Double.div h PDF.unit)
  simp [page]
  omega

theorem obj_length (k : Nat) (s : Str) : (obj k s).length = (decimal k).length + s.length + 15 := by
  simp [obj]
  omega

theorem preamble_length (w h : Double) :
    (preamble w h).length = 100 + (obj 3 (page w h)).length := by
  unfold preamble
  simp only [List.length_append, header_length, obj_catalog_length, obj_pages_length]
  omega

theorem preamble_length_le (w h : Double) : (preamble w h).length ≤ 8000 := by
  rw [preamble_length, obj_length]
  have := page_length_le w h
  have : (decimal 3).length = 1 := by decide
  omega

theorem setup_ops_eq :
    setup_ops = fmt_f (Double.div (Double.ofNat 1) PDF.unit) ++ (" 0 0 ".toList ++
      (fmt_f (Double.div (Double.ofNat 1) PDF.unit) ++ (" ".toList ++
      (fmt_f (Double.div (Double.ofNat 10) PDF.unit) ++ (" ".toList ++
      (fmt_f (Double.div (Double.ofNat 10) PDF.unit) ++ " cm".toList)))))) ++ "\n".toList
      ++ (fmt_f (Double.ofDecimal 2 10) ++ " w".toList) ++ "\n".toList := by
  simp [setup_ops]

/-- The constructor never throws; it emits the header and objects 1 to 3 and
puts the two setup operators into the content buffer. -/
theorem ctor_eq (w h x y : Double) :
    PDF.ctor w h x y = some
      { file := preamble w h, width := w, height := h, x := x, y := y,
        offset := (preamble w h).length, offsets := [9, 43, 100], ops := setup_ops } := by
  unfold PDF.ctor
  simp only [PDF.add, Option.bind_eq_bind]
  rw [add_object_eq _ _ (by simp)]
  simp only [Option.some_bind]
  rw [add_object_eq _ _ (by simp)]
  simp only [Option.some_bind]
  unfold PDF.add_object_fmt
  rw [strfmt_page]
  simp only [Option.bind_eq_bind, Option.some_bind]
  rw [add_object_eq _ _ (by simp)]
  simp only [Option.some_bind]
  rw [add_op_of_strfmt (strfmt_cm _ _ _ _)]
  simp only [Option.some_bind]
  rw [add_op_of_strfmt (strfmt_w _)]
  simp only [Option.some.injEq, PDF.mk.injEq, and_true, true_and, List.nil_append,
    List.length_nil, List.length_cons, List.length_append, Nat.zero_add]
  have h0 : "%PDF-1.1\n".toList.length = 9 := rfl
  have h1 : (obj 1 "<< /Pages 2 0 R >>".toList).length = 34 := obj_catalog_length
  have h2 : (obj 2 "<< /Kids [3 0 R] /Type /Pages /Count 1 >>".toList).length = 57 :=
    obj_pages_length
  have h3 := preamble_length w h
  have h4 := preamble_length_le w h
  refine ⟨?_, ?_, ?_, ?_⟩
  · simp [preamble, header, catalog, pages]
  · rw [h0, h1, h2, h3]
    have h5 : (1 + 1 + 1 : Nat) = 3 := rfl
    rw [h5]
    omega
  · rw [h0, h1, h2]
    rfl
  · rw [setup_ops_eq]

/-! ## `finish` -/

theorem nul_not_mem_setup_ops : '\x00' ∉ setup_ops := by
  simp only [setup_ops, List.mem_append, not_or]
  exact ⟨⟨nul_not_mem_fmt_f _, by decide, nul_not_mem_fmt_f _, by decide, nul_not_mem_fmt_f _,
    by decide, nul_not_mem_fmt_f _, by decide⟩, nul_not_mem_fmt_f _, by decide⟩

theorem open_ctor {w h x y : Double} {p : PDF} (hp : PDF.ctor w h x y = some p) : Open w h p := by
  rw [ctor_eq] at hp
  cases hp
  exact ⟨rfl, rfl, rfl, nul_not_mem_setup_ops⟩

theorem open_of_extends {w h : Double} {p q : PDF} (hp : Open w h p) (hq : Extends p q) :
    Open w h q := by
  obtain ⟨a1, a2, a3, a4⟩ := hp
  obtain ⟨b1, b2, b3, _, _, t, b6, b7⟩ := hq
  refine ⟨b1.trans a1, b2.trans a2, b3.trans a3, ?_⟩
  rw [b6]
  simp only [List.mem_append, not_or]
  exact ⟨a4, b7⟩

theorem expand_stream (n : Nat) (ops : Str) :
    expand (cstr "<< /Length %zu >>\nstream\n%sendstream".toList) [Arg.num n, Arg.str ops]
      = "<< /Length ".toList ++ (decimal n ++ (" >>\nstream\n".toList ++
        (cstr ops ++ "endstream".toList))) := rfl

theorem nul_not_mem_stream_body (ops : Str) (h : '\x00' ∉ ops) : '\x00' ∉ stream_body ops := by
  simp only [stream_body, List.mem_append, not_or]
  exact ⟨by decide, nul_not_mem_digits _ _, by decide, h, by decide⟩

/-- The content-stream dictionary and data `finish` formats, for a buffer without NUL. -/
theorem strfmt_stream_iff (ops s : Str) (h : '\x00' ∉ ops) :
    strfmt "<< /Length %zu >>\nstream\n%sendstream".toList [Arg.num ops.length, Arg.str ops] = some s
      ↔ s = stream_body ops ∧ (stream_body ops).length < INT_MAX := by
  have he : expand (cstr "<< /Length %zu >>\nstream\n%sendstream".toList)
      [Arg.num ops.length, Arg.str ops] = stream_body ops := by
    rw [expand_stream, cstr_of_not_mem h]
    rfl
  exact strfmt_some_iff he (nul_not_mem_stream_body ops h)

theorem finish_loop_four (a b c d : Nat) (file : Str)
    (ha : a < 18446744073709551616) (hb : b < 18446744073709551616)
    (hc : c < 18446744073709551616) (hd : d < 18446744073709551616) :
    PDF.finish_loop [a, b, c, d] file = some (file ++ xref_entries [a, b, c, d]) := by
  simp only [PDF.finish_loop, strfmt_entry _ ha, strfmt_entry _ hb, strfmt_entry _ hc,
    strfmt_entry _ hd, Option.bind_eq_bind, Option.some_bind, xref_entries, List.append_assoc,
    List.append_nil]

theorem xref_section_five (os : List Nat) :
    xref_section 5 os
      = "xref\n0 5\n".toList ++ ("0000000000 65535 f\n".toList ++ xref_entries os) := rfl

theorem body_length (w h : Double) (ops : Str) :
    (body w h ops).length = (preamble w h).length + (obj 4 (stream_body ops)).length := by
  simp [body]

/-- What `finish` does on an open writer, when it returns: object 4 with the
whole content buffer, then the cross-reference section, trailer, start
pointer and end marker. -/
theorem finish_eq_some {w h : Double} {p q : PDF} (hp : Open w h p) (hq : p.finish = some q) :
    q = { p with file := document w h p.ops, offset := (body w h p.ops).length,
                 offsets := object_offsets w h } ∧ (stream_body p.ops).length < INT_MAX := by
  obtain ⟨a1, a2, a3, a4⟩ := hp
  unfold PDF.finish PDF.add_object_fmt at hq
  cases hs : strfmt "<< /Length %zu >>\nstream\n%sendstream".toList
      [Arg.num p.ops.length, Arg.str p.ops] with
  | none => simp only [hs, Option.bind_eq_bind, Option.none_bind] at hq; cases hq
  | some s =>
    obtain ⟨rfl, hl⟩ := (strfmt_stream_iff _ _ a4).1 hs
    refine ⟨?_, hl⟩
    have hpl := preamble_length_le w h
    have hol := obj_length 4 (stream_body p.ops)
    have hd4 : (decimal 4).length = 1 := by decide
    simp only [INT_MAX] at hl
    dsimp only at hq
    rw [hs] at hq
    simp only [Option.bind_eq_bind, Option.some_bind] at hq
    rw [add_object_eq _ _ (by rw [a3]; decide)] at hq
    simp only [Option.some_bind, a3, List.length_cons, List.length_nil, List.length_append,
      List.cons_append, List.nil_append, Nat.zero_add] at hq
    rw [strfmt_xref, strfmt_free, strfmt_trailer] at hq
    simp only [Option.some_bind] at hq
    rw [finish_loop_four _ _ _ _ _ (by decide) (by decide) (by decide) (by rw [a2]; omega)] at hq
    simp only [Option.some_bind] at hq
    rw [strfmt_startxref _ (Nat.mod_lt _ (by decide))] at hq
    simp only [Option.some_bind, Option.pure_def, Option.some.injEq] at hq
    rw [← hq]
    have hoff : (p.offset + (obj 4 (stream_body p.ops)).length) % 18446744073709551616
        = (body w h p.ops).length := by
      rw [body_length, a2, Nat.mod_eq_of_lt (by omega)]
    rw [hoff]
    simp only [PDF.mk.injEq, and_true, true_and]
    refine ⟨?_, ?_⟩
    · rw [a1]
      rw [a2]
      simp only [document, body, xref_section_five, object_offsets, eof_marker,
        List.append_assoc, Nat.reduceAdd]
    · rw [a2]; rfl

/-- On an open writer `finish` returns unless the content-stream body reaches
`INT_MAX` chars. -/
theorem finish_of_lt {w h : Double} {p : PDF} (hp : Open w h p)
    (hl : (stream_body p.ops).length < INT_MAX) :
    p.finish = some { p with file := document w h p.ops, offset := (body w h p.ops).length,
                             offsets := object_offsets w h } := by
  have hq : ∃ q, p.finish = some q := by
    obtain ⟨a1, a2, a3, a4⟩ := hp
    have hpl := preamble_length_le w h
    have hol := obj_length 4 (stream_body p.ops)
    have hd4 : (decimal 4).length = 1 := by decide
    have hs := (strfmt_stream_iff p.ops _ a4).2 ⟨rfl, hl⟩
    simp only [INT_MAX] at hl
    unfold PDF.finish PDF.add_object_fmt
    dsimp only
    rw [hs]
    simp only [Option.bind_eq_bind, Option.some_bind]
    rw [add_object_eq _ _ (by rw [a3]; decide)]
    simp only [Option.some_bind, a3, List.length_cons, List.length_nil, List.length_append,
      List.cons_append, List.nil_append, Nat.zero_add]
    rw [strfmt_xref, strfmt_free, strfmt_trailer]
    simp only [Option.some_bind]
    rw [finish_loop_four _ _ _ _ _ (by decide) (by decide) (by decide) (by rw [a2]; omega)]
    simp only [Option.some_bind]
    rw [strfmt_startxref _ (Nat.mod_lt _ (by decide))]
    exact ⟨_, rfl⟩
  obtain ⟨q, hq⟩ := hq
  rw [hq, (finish_eq_some hp hq).1]

/-! ## The interpreter emits nothing either -/

theorem bind_eq_some_elim {α β : Type} {x : Option α} {f : α → Option β} {b : β}
    (h : (x >>= f) = some b) : ∃ a, x = some a ∧ f a = some b := by
  cases x with
  | none => cases h
  | some a => exact ⟨a, rfl, h⟩

theorem ctor_ops {w h x y : Double} {p : PDF} (hp : PDF.ctor w h x y = some p) :
    p.ops = setup_ops := by
  rw [ctor_eq] at hp
  cases hp
  rfl

theorem extends_draw_loop (op : PDF → Double → Double → Option PDF)
    (hop : ∀ p x y q, op p x y = some q → Extends p q) (fuel : Nat) (ss : Str) (x y : Double)
    (p q : PDF) (h : draw_loop op fuel ss x y p = some q) : Extends p q := by
  induction fuel generalizing ss x y p with
  | zero =>
    simp only [draw_loop, Option.some.injEq] at h
    rw [← h]
    exact Extends.refl _
  | succ fuel ih =>
    unfold draw_loop at h
    split at h
    · rename_i x1 y1 rest _
      cases hd : op p (Double.mul x1 dxy_unit) (Double.mul y1 dxy_unit) with
      | none => simp [hd] at h
      | some p1 =>
        simp only [hd, Option.bind_eq_bind, Option.some_bind] at h
        exact (hop _ _ _ _ hd).trans (ih _ _ _ _ h)
    · simp only [Option.some.injEq] at h
      rw [← h]
      exact Extends.refl _

theorem extends_process_line {line : Str} {lx ly : Double} {r r2 : Run}
    (h : process_line line lx ly r = some r2) : Extends r.pdf r2.pdf := by
  unfold process_line at h
  split at h
  · cases h; exact Extends.refl _
  · rename_i cmd args
    split at h
    · obtain ⟨q, hd, h⟩ := bind_eq_some_elim h
      cases h
      exact extends_draw_loop _ (fun _ _ _ _ hq => extends_draw hq) _ _ _ _ _ _ hd
    · split at h
      · obtain ⟨q, hd, h⟩ := bind_eq_some_elim h
        cases h
        exact extends_draw_loop _ (fun _ _ _ _ hq => extends_rdraw hq) _ _ _ _ _ _ hd
      · split at h
        · cases h; exact Extends.refl _
        · split at h
          · cases h
            exact extends_move _ _ _
          · split at h
            · obtain ⟨q, hd, h⟩ := bind_eq_some_elim h
              cases h
              exact extends_print_text hd
            · split at h
              · cases h; exact Extends.refl _
              · obtain ⟨e, _, h⟩ := bind_eq_some_elim h
                cases h
                exact Extends.refl _

theorem extends_process_lines (u : Indeterminate) (lines : List Str) (n : Nat) (r r2 : Run)
    (h : process_lines u lines n r = some r2) : Extends r.pdf r2.pdf := by
  induction lines generalizing n r with
  | nil => cases h; exact Extends.refl _
  | cons line rest ih =>
    unfold process_lines at h
    split at h
    · cases h; exact Extends.refl _
    · cases hl : process_line line (u.local_x n) (u.local_y n) r with
      | none => simp [hl] at h
      | some r1 =>
        simp only [hl, Option.bind_eq_bind, Option.some_bind] at h
        exact (extends_process_line hl).trans (ih _ _ h)

/-- The output of `process_file`, when it returns, is the document built from
the final content buffer; the buffer starts with the setup operators and
holds no NUL. -/
theorem process_file_eq_some {input : Str} {u : Indeterminate} {r : Run}
    (h : process_file input u = some r) :
    r.pdf.file = document a3_height a3_width r.pdf.ops ∧
    r.pdf.offsets = object_offsets a3_height a3_width ∧
    r.pdf.offset = (body a3_height a3_width r.pdf.ops).length ∧
    '\x00' ∉ r.pdf.ops ∧ (∃ t, r.pdf.ops = setup_ops ++ t) ∧
    (stream_body r.pdf.ops).length < INT_MAX := by
  unfold process_file at h
  obtain ⟨p0, hp0, h⟩ := bind_eq_some_elim h
  obtain ⟨r1, hl, h⟩ := bind_eq_some_elim h
  obtain ⟨q, hf, h⟩ := bind_eq_some_elim h
  cases h
  have hext := extends_process_lines _ _ _ _ _ hl
  have hopen : Open a3_height a3_width r1.pdf := open_of_extends (open_ctor hp0) hext
  obtain ⟨hq, hlen⟩ := finish_eq_some hopen hf
  obtain ⟨_, _, _, _, _, t, ht, _⟩ := hext
  have h0 : p0.ops = setup_ops := ctor_ops hp0
  rw [hq]
  refine ⟨rfl, rfl, rfl, hopen.2.2.2, ⟨t, ?_⟩, hlen⟩
  show r1.pdf.ops = setup_ops ++ t
  rw [ht]
  exact congrArg (fun z => z ++ t) h0

/-! ## The sample conversion, evaluated -/

set_option maxRecDepth 100000 in
theorem process_file_sample : process_file sample_input zero_indeterminate = some sample_run := by
  decide!

/-! ## Reading decimal numbers back -/

theorem digitsValue_append_single (s : Str) (c : Char) :
    digitsValue (s ++ [c]) = 10 * digitsValue s + (c.toNat - 48) := by
  simp [digitsValue, List.foldl_append]

theorem digitChar_toNat (n : Nat) : (digitChar n).toNat - 48 = n % 10 := by
  unfold digitChar
  have h : n % 10 < 10 := Nat.mod_lt _ (by decide)
  generalize n % 10 = k at h
  interval_cases k <;> rfl

theorem digitsAux_append (b fuel n : Nat) (acc : Str) :
    digitsAux b fuel n acc = digitsAux b fuel n [] ++ acc := by
  induction fuel generalizing n acc with
  | zero => simp [digitsAux]
  | succ fuel ih =>
    unfold digitsAux
    split
    · simp
    · rw [ih, ih (n / b) [digitChar (n % b)]]
      simp

theorem digitsValue_digitsAux (fuel n : Nat) (h : n ≤ fuel) :
    digitsValue (digitsAux 10 fuel n []) = n := by
  induction fuel generalizing n with
  | zero =>
    have : n = 0 := by omega
    subst this
    rfl
  | succ fuel ih =>
    unfold digitsAux
    split
    · rename_i hn
      simp only [digitsValue, List.foldl_cons, List.foldl_nil, digitChar_toNat]
      omega
    · rename_i hn
      rw [digitsAux_append, digitsValue_append_single, ih (n / 10) (by omega), digitChar_toNat]
      omega

/-- The text of `%zu` reads back as the number printed. -/
theorem digitsValue_decimal (n : Nat) : digitsValue (decimal n) = n :=
  digitsValue_digitsAux n n (Nat.le_refl n)

theorem digitsValue_replicate_zero (k : Nat) (s : Str) :
    digitsValue (List.replicate k '0' ++ s) = digitsValue s := by
  induction k with
  | zero => simp
  | succ k ih =>
    simp only [List.replicate_succ, List.cons_append, digitsValue, List.foldl_cons] at ih ⊢
    exact ih

/-- The zero-padded text of `%010zu` reads back as the number printed. -/
theorem digitsValue_zeroPad (w n : Nat) : digitsValue (zeroPad w (decimal n)) = n := by
  unfold zeroPad
  rw [digitsValue_replicate_zero, digitsValue_decimal]

/-! ## Where the objects lie -/

theorem preamble_a3_length : (preamble a3_height a3_width).length = 289 := by decide!

theorem object_offsets_a3 : object_offsets a3_height a3_width = [9, 43, 100, 289] := by
  unfold object_offsets
  rw [preamble_a3_length]

/-- Behind a front of `n` chars, an object starts with its header line. -/
theorem drop_take_obj_header (front : Str) (n k : Nat) (b back : Str) (hn : front.length = n) :
    ((front ++ (obj k b ++ back)).drop n).take (obj_header k).length = obj_header k := by
  rw [List.drop_left' hn]
  have : obj k b ++ back = obj_header k ++ (b ++ ("\nendobj\n".toList ++ back)) := by
    simp [obj, obj_header]
  rw [this, List.take_left]

/-- The objects of a document lie at the recorded offsets. -/
theorem document_objects (w h : Double) (data : Str) :
    ((document w h data).drop 9).take (obj_header 1).length = obj_header 1 ∧
    ((document w h data).drop 43).take (obj_header 2).length = obj_header 2 ∧
    ((document w h data).drop 100).take (obj_header 3).length = obj_header 3 ∧
    ((document w h data).drop (preamble w h).length).take (obj_header 4).length = obj_header 4 := by
  have h1 : document w h data = header ++ (obj 1 catalog ++ (obj 2 pages ++ (obj 3 (page w h) ++
      (obj 4 (stream_body data) ++ (xref_section 5 (object_offsets w h) ++ (trailer 5 ++
      (startxref (body w h data).length ++ eof_marker))))))) := by
    simp [document, body, preamble]
  have h2 : document w h data = (header ++ obj 1 catalog) ++ (obj 2 pages ++ (obj 3 (page w h) ++
      (obj 4 (stream_body data) ++ (xref_section 5 (object_offsets w h) ++ (trailer 5 ++
      (startxref (body w h data).length ++ eof_marker)))))) := by
    simp [document, body, preamble]
  have h3 : document w h data = (header ++ (obj 1 catalog ++ obj 2 pages)) ++ (obj 3 (page w h) ++
      (obj 4 (stream_body data) ++ (xref_section 5 (object_offsets w h) ++ (trailer 5 ++
      (startxref (body w h data).length ++ eof_marker))))) := by
    simp [document, body, preamble]
  have h4 : document w h data = preamble w h ++ (obj 4 (stream_body data) ++
      (xref_section 5 (object_offsets w h) ++ (trailer 5 ++
      (startxref (body w h data).length ++ eof_marker)))) := by
    simp [document, body]
  refine ⟨?_, ?_, ?_, ?_⟩
  · rw [h1]; exact drop_take_obj_header _ _ _ _ _ header_length
  · rw [h2]
    exact drop_take_obj_header _ _ _ _ _
      (by rw [List.length_append, header_length, obj_catalog_length])
  · rw [h3]
    exact drop_take_obj_header _ _ _ _ _
      (by rw [List.length_append, List.length_append, header_length, obj_catalog_length,
        obj_pages_length])
  · rw [h4]; exact drop_take_obj_header _ _ _ _ _ rfl

theorem xref_section_a3 :
    xref_section 5 [9, 43, 100, 289]
      = "xref\n0 5\n".toList ++ ("0000000000 65535 f\n".toList ++
        ("0000000009 00000 n\n".toList ++ ("0000000043 00000 n\n".toList ++
        ("0000000100 00000 n\n".toList ++ "0000000289 00000 n\n".toList)))) := by
  decide

/-- Claim C1 (offset integrity).  For every input on which `process_file`
returns, the output is the header and objects 1 to 4 followed by the
cross-reference section, whose four in-use entries record, in this order, the
offsets 9, 43, 100 and 289; and the output bytes from each of these offsets on
are the header line `k 0 obj` of object `k` = 1, 2, 3, 4. -/
theorem offset_integrity (input : Str) (u : Indeterminate) (r : Run)
    (h : process_file input u = some r) :
    r.pdf.file = body a3_height a3_width r.pdf.ops ++
      (("xref\n0 5\n".toList ++ ("0000000000 65535 f\n".toList ++
        ("0000000009 00000 n\n".toList ++ ("0000000043 00000 n\n".toList ++
        ("0000000100 00000 n\n".toList ++ "0000000289 00000 n\n".toList))))) ++
        (trailer 5 ++ (startxref (body a3_height a3_width r.pdf.ops).length ++ eof_marker))) ∧
    r.pdf.offsets = [9, 43, 100, 289] ∧
    (r.pdf.file.drop 9).take 8 = "1 0 obj\n".toList ∧
    (r.pdf.file.drop 43).take 8 = "2 0 obj\n".toList ∧
    (r.pdf.file.drop 100).take 8 = "3 0 obj\n".toList ∧
    (r.pdf.file.drop 289).take 8 = "4 0 obj\n".toList := by
  obtain ⟨hfile, hoffs, _, _, _, _⟩ := process_file_eq_some h
  have hobj := document_objects a3_height a3_width r.pdf.ops
  rw [preamble_a3_length] at hobj
  rw [← hfile] at hobj
  refine ⟨?_, ?_, hobj.1, hobj.2.1, hobj.2.2.1, hobj.2.2.2⟩
  · rw [hfile, ← xref_section_a3, ← object_offsets_a3]
    rfl
  · rw [hoffs, object_offsets_a3]

/-- Witness for `offset_integrity`: the sample conversion. -/
theorem offset_integrity_witness :
    process_file sample_input zero_indeterminate = some sample_run ∧
    (sample_run.pdf.file.drop 289).take 8 = "4 0 obj\n".toList :=
  ⟨process_file_sample,
   (offset_integrity sample_input zero_indeterminate sample_run process_file_sample).2.2.2.2.2⟩

/-- Claim C2.  For every input on which `process_file` returns, the output is
a front part (the header and objects 1 to 4), then the cross-reference section
beginning with the keyword `xref`, the trailer, and the line `startxref`
followed by a line with the decimal number of chars of the front part: the
byte position at which the keyword `xref` begins.  The number reads back as
that position. -/
theorem startxref_is_xref_position (input : Str) (u : Indeterminate) (r : Run)
    (h : process_file input u = some r) :
    ∃ front entries,
      front = header ++ (obj 1 catalog ++ (obj 2 pages ++ (obj 3 (page a3_height a3_width) ++
        obj 4 (stream_body r.pdf.ops)))) ∧
      r.pdf.file = front ++ ("xref\n".toList ++ (entries ++ (trailer 5 ++
        ("startxref\n".toList ++ (decimal front.length ++ ("\n".toList ++ "%%EOF\n".toList)))))) ∧
      (r.pdf.file.drop front.length).take 4 = "xref".toList ∧
      digitsValue (decimal front.length) = front.length := by
  obtain ⟨hfile, _, _, _, _, _⟩ := process_file_eq_some h
  refine ⟨body a3_height a3_width r.pdf.ops,
    "0 5\n".toList ++ ("0000000000 65535 f\n".toList ++ xref_entries (object_offsets a3_height a3_width)),
    ?_, ?_, ?_, digitsValue_decimal _⟩
  · simp [body, preamble]
  · rw [hfile]
    simp [document, xref_section_five, startxref, eof_marker]
  · rw [hfile]
    unfold document
    rw [List.drop_left, xref_section_five]
    rfl

set_option maxRecDepth 100000 in
/-- Witness for `startxref_is_xref_position`: in the sample conversion the
keyword `xref` begins at byte 527 and the start pointer is 527. -/
theorem startxref_is_xref_position_witness :
    process_file sample_input zero_indeterminate = some sample_run ∧
    (sample_run.pdf.file.drop 527).take 5 = "xref\n".toList ∧
    ∃ front entries,
      front = header ++ (obj 1 catalog ++ (obj 2 pages ++ (obj 3 (page a3_height a3_width) ++
        obj 4 (stream_body sample_run.pdf.ops)))) ∧
      sample_run.pdf.file = front ++ ("xref\n".toList ++ (entries ++ (trailer 5 ++
        ("startxref\n".toList ++ (decimal front.length ++ ("\n".toList ++ "%%EOF\n".toList)))))) ∧
      (sample_run.pdf.file.drop front.length).take 4 = "xref".toList ∧
      digitsValue (decimal front.length) = front.length :=
  ⟨process_file_sample, by decide!,
   startxref_is_xref_position sample_input zero_indeterminate sample_run process_file_sample⟩

/-! ## The escaping rule -/

/-- Claim C3.  For every string `s`, `escape s` returns an opening
parenthesis, the images of the chars of `s` in order, and a closing
parenthesis, where tab, carriage return and line feed have the image of a
single space, `(` has `\050`, `)` has `\051`, backslash has `\134`, and every
other char has itself as image; the escaped content of `(a)` is `\050a\051`
and that of `a<TAB>b` is `a b`. -/
theorem escape_spec (s : Str) :
    PDF.escape s = some ("(".toList ++ (s.map escape_char).flatten ++ ")".toList) ∧
    escape_char '\t' = " ".toList ∧ escape_char '\r' = " ".toList ∧
    escape_char '\n' = " ".toList ∧
    escape_char '(' = "\\050".toList ∧ escape_char ')' = "\\051".toList ∧
    escape_char '\\' = "\\134".toList ∧
    (∀ c : Char, c ≠ '\t' → c ≠ '\r' → c ≠ '\n' → c ≠ '(' → c ≠ ')' → c ≠ '\\' →
      escape_char c = [c]) ∧
    PDF.escape "(a)".toList = some ("(".toList ++ "\\050a\\051".toList ++ ")".toList) ∧
    PDF.escape "a\tb".toList = some ("(".toList ++ "a b".toList ++ ")".toList) := by
  have hj : ∀ t : Str, escaped t = (t.map escape_char).flatten := by
    intro t
    induction t with
    | nil => rfl
    | cons c t ih => simp [escaped, ih]
  refine ⟨?_, by decide, by decide, by decide, by decide, by decide, by decide, ?_, ?_, ?_⟩
  · rw [escape_eq, hj]
    simp
  · intro c h1 h2 h3 h4 h5 h6
    simp [escape_char, h1, h2, h3, h4, h5, h6]
  · rw [escape_eq]; decide
  · rw [escape_eq]; decide

/-! ## The round trip through a reader of PDF literal strings -/

theorem read_literal_body_cons (c : Char) (cs : Str) (st : LitState) (d : Nat) (out : Str) :
    read_literal_body (c :: cs) st d out =
      match lit_step st d out c with
      | LitStep.done res => some (res, cs)
      | LitStep.more st2 d2 out2 => read_literal_body cs st2 d2 out2 := rfl

theorem collapse_cons (c : Char) (s : Str) :
    collapse (c :: s) = (if c = '\t' ∨ c = '\r' ∨ c = '\n' then ' ' else c) :: collapse s := rfl

/-- Reading the image of one char yields the char, with the white-space
controls collapsed. -/
theorem read_escape_char (c : Char) (rest : Str) (d : Nat) (out : Str) :
    read_literal_body (escape_char c ++ rest) LitState.normal d out
      = read_literal_body rest LitState.normal d
          (out ++ [if c = '\t' ∨ c = '\r' ∨ c = '\n' then ' ' else c]) := by
  by_cases h1 : c = '\t' ∨ c = '\r' ∨ c = '\n'
  · have he : escape_char c = [' '] := by simp [escape_char, h1]
    rw [he, if_pos h1]
    rfl
  · rw [if_neg h1]
    by_cases h2 : c = '('
    · subst h2; rfl
    · by_cases h3 : c = ')'
      · subst h3; rfl
      · by_cases h4 : c = '\\'
        · subst h4; rfl
        · have he : escape_char c = [c] := by simp [escape_char, h1, h2, h3, h4]
          have h5 : c ≠ '\r' := fun e => h1 (Or.inr (Or.inl e))
          rw [he]
          simp only [List.singleton_append, read_literal_body_cons, lit_step, lit_plain, h2, h3,
            h4, h5, if_false]

theorem read_escaped (s rest : Str) (d : Nat) (out : Str) :
    read_literal_body (escaped s ++ rest) LitState.normal d out
      = read_literal_body rest LitState.normal d (out ++ collapse s) := by
  induction s generalizing out with
  | nil => simp [escaped, collapse]
  | cons c s ih =>
    rw [escaped, List.append_assoc, read_escape_char, ih, collapse_cons, List.append_assoc]
    rfl

/-- Claim C4 (escaping round trip).  For every string `s`, `escape s` returns
a text that a conforming reader of PDF literal strings reads completely, as one
literal string, and decodes to `s` with every tab, carriage return and line
feed replaced by a space and every other char unchanged. -/
theorem escape_round_trip (s : Str) :
    ∃ e, PDF.escape s = some e ∧ read_literal e = some (collapse s, []) ∧
      collapse s = s.map (fun c => if c = '\t' ∨ c = '\r' ∨ c = '\n' then ' ' else c) := by
  refine ⟨_, escape_eq s, ?_, rfl⟩
  have h := read_escaped s [')'] 0 []
  simp only [List.nil_append] at h
  show read_literal_body (escaped s ++ [')']) LitState.normal 0 [] = some (collapse s, [])
  rw [h]
  rfl

/-! ## The content-stream object -/

/-- Claim C5.  For every page size and every sequence of drawing calls on a
new writer (moves, draws, relative draws, texts of arbitrary chars) after
which `finish` returns, what `finish` appends to the output starts with object
4, which is `<< /Length n >>`, `stream`, the data, `endstream`: the data is
exactly the content buffer accumulated before `finish` (which begins with the
two setup operators), and `n` is the decimal number of chars of that data. -/
theorem content_stream_object (w h x y : Double) (calls : List Call) (p0 p q : PDF)
    (h0 : PDF.ctor w h x y = some p0) (h1 : run_calls p0 calls = some p)
    (h2 : p.finish = some q) :
    ∃ tail added,
      q.file = p.file ++ ("4 0 obj\n".toList ++ ("<< /Length ".toList ++ (decimal p.ops.length ++
        (" >>\nstream\n".toList ++ (p.ops ++ ("endstream".toList ++ ("\nendobj\n".toList ++
        ("xref\n".toList ++ tail)))))))) ∧
      digitsValue (decimal p.ops.length) = p.ops.length ∧
      p.ops = setup_ops ++ added ∧ p.file = p0.file ∧ q.ops = p.ops := by
  have hext := extends_run_calls h1
  have hopen : Open w h p := open_of_extends (open_ctor h0) hext
  obtain ⟨hq, _⟩ := finish_eq_some hopen h2
  obtain ⟨hf, _, _, _, _, t, ht, _⟩ := hext
  refine ⟨"0 5\n".toList ++ ("0000000000 65535 f\n".toList ++ (xref_entries (object_offsets w h) ++
    (trailer 5 ++ (startxref (body w h p.ops).length ++ eof_marker)))), t, ?_,
    digitsValue_decimal _, ?_, hf, ?_⟩
  · rw [hq, hopen.1]
    have h4 : obj 4 (stream_body p.ops) = "4 0 obj\n".toList ++ ("<< /Length ".toList ++
        (decimal p.ops.length ++ (" >>\nstream\n".toList ++ (p.ops ++ ("endstream".toList ++
        "\nendobj\n".toList))))) := by
      have : decimal 4 = "4".toList := by decide
      simp [obj, stream_body, this]
    simp only [document, body, xref_section_five, h4, List.append_assoc]
    rfl
  · rw [ht, ctor_ops h0]
  · rw [hq]

/-- Witness for `content_stream_object`: the sample calls, with a text that
holds a NUL, on an A3 page. -/
theorem content_stream_object_witness :
    ∃ p0 p q,
      PDF.ctor a3_height a3_width (Double.zero false) (Double.zero false) = some p0 ∧
      run_calls p0 sample_calls = some p ∧ p.finish = some q ∧
      ∃ tail added,
        q.file = p.file ++ ("4 0 obj\n".toList ++ ("<< /Length ".toList ++ (decimal p.ops.length ++
          (" >>\nstream\n".toList ++ (p.ops ++ ("endstream".toList ++ ("\nendobj\n".toList ++
          ("xref\n".toList ++ tail)))))))) ∧
        digitsValue (decimal p.ops.length) = p.ops.length ∧
        p.ops = setup_ops ++ added ∧ p.file = p0.file ∧ q.ops = p.ops := by
  have hs : ((PDF.ctor a3_height a3_width (Double.zero false) (Double.zero false)).bind
      (fun p0 => (run_calls p0 sample_calls).bind PDF.finish)).isSome = true := by decide!
  cases h0 : PDF.ctor a3_height a3_width (Double.zero false) (Double.zero false) with
  | none => rw [h0] at hs; cases hs
  | some p0 =>
    rw [h0, Option.some_bind] at hs
    cases h1 : run_calls p0 sample_calls with
    | none => rw [h1] at hs; cases hs
    | some p =>
      rw [h1, Option.some_bind] at hs
      cases h2 : p.finish with
      | none => rw [h2] at hs; cases hs
      | some q =>
        exact ⟨p0, p, q, rfl, h1, h2, content_stream_object _ _ _ _ _ _ _ _ h0 h1 h2⟩

/-! ## The count of objects -/

/-- Claim C6 (object count consistency).  For every input on which
`process_file` returns, the output is the header, then the four objects
numbered 1, 2, 3, 4 in this order (each `k 0 obj`, its body, `endobj`), then
the cross-reference section: the subsection line `0 5`, the free entry
`0000000000 65535 f`, and one in-use entry per recorded offset, in the order
of allocation; then the trailer naming object 1 as root with `/Size 5`.  Four
offsets are recorded, so both counts are 1 + the number of objects. -/
theorem object_count (input : Str) (u : Indeterminate) (r : Run)
    (h : process_file input u = some r) :
    r.pdf.file = "%PDF-1.1\n".toList ++
      (("1 0 obj\n".toList ++ (catalog ++ "\nendobj\n".toList)) ++
      (("2 0 obj\n".toList ++ (pages ++ "\nendobj\n".toList)) ++
      (("3 0 obj\n".toList ++ (page a3_height a3_width ++ "\nendobj\n".toList)) ++
      (("4 0 obj\n".toList ++ (stream_body r.pdf.ops ++ "\nendobj\n".toList)) ++
      ("xref\n".toList ++ ("0 5\n".toList ++ ("0000000000 65535 f\n".toList ++
      (xref_entries r.pdf.offsets ++
      ("trailer\n<< /Root 1 0 R /Size 5 >>\n".toList ++
      (startxref (body a3_height a3_width r.pdf.ops).length ++ "%%EOF\n".toList)))))))))) ∧
    r.pdf.offsets.length = 4 ∧ 1 + r.pdf.offsets.length = 5 ∧
    xref_entries r.pdf.offsets = (r.pdf.offsets.map xref_entry).flatten ∧
    ∀ o, xref_entry o = zeroPad 10 (decimal o) ++ " 00000 n\n".toList := by
  obtain ⟨hfile, hoffs, _, _, _, _⟩ := process_file_eq_some h
  have hfl : ∀ os : List Nat, xref_entries os = (os.map xref_entry).flatten := by
    intro os
    induction os with
    | nil => rfl
    | cons o os ih => simp [xref_entries, ih]
  refine ⟨?_, ?_, ?_, hfl _, fun _ => rfl⟩
  · rw [hfile, hoffs]
    have h1 : decimal 1 = "1".toList := by decide
    have h2 : decimal 2 = "2".toList := by decide
    have h3 : decimal 3 = "3".toList := by decide
    have h4 : decimal 4 = "4".toList := by decide
    have h5 : trailer 5 = "trailer\n<< /Root 1 0 R /Size 5 >>\n".toList := by decide
    simp only [document, body, preamble, header, obj, xref_section_five, h1, h2, h3, h4, h5,
      eof_marker, List.append_assoc]
    rfl
  · rw [hoffs]; rfl
  · rw [hoffs]; rfl

/-- Witness for `object_count`: the sample conversion. -/
theorem object_count_witness :
    process_file sample_input zero_indeterminate = some sample_run ∧
    sample_run.pdf.offsets.length = 4 ∧ 1 + sample_run.pdf.offsets.length = 5 :=
  ⟨process_file_sample,
   (object_count sample_input zero_indeterminate sample_run process_file_sample).2.1,
   (object_count sample_input zero_indeterminate sample_run process_file_sample).2.2.1⟩

/-! ## `draw` -/

theorem draw_all_eq (p : PDF) (pts : List (Double × Double)) :
    draw_all p pts = some { p with ops := p.ops ++ segments p.x p.y pts,
                                   x := (last_point p.x p.y pts).1,
                                   y := (last_point p.x p.y pts).2 } := by
  induction pts generalizing p with
  | nil => simp [draw_all, segments, last_point]
  | cons pt rest ih =>
    unfold draw_all
    rw [draw_eq, Option.some_bind, ih]
    simp [segments, last_point]

/-- Claim C7.  For every writer state with cursor `(cx, cy)` and every
`(x, y)`, `draw x y` returns; it appends to the content buffer exactly the two
operator lines `cx cy m` and `x y l s` (numbers in `%f` form), in this order,
sets the cursor to `(x, y)`, and leaves the output bytes, the byte counter and
the offsets unchanged.  So successive draws to `n` points append `n`
move/line/stroke pairs, each starting at the end point of the one before. -/
theorem draw_spec (p : PDF) (x y : Double) (pts : List (Double × Double)) :
    p.draw x y = some
      { file := p.file, width := p.width, height := p.height, x := x, y := y,
        offset := p.offset, offsets := p.offsets,
        ops := p.ops ++ ((fmt_f p.x ++ (" ".toList ++ (fmt_f p.y ++ " m\n".toList))) ++
          (fmt_f x ++ (" ".toList ++ (fmt_f y ++ " l s\n".toList)))) } ∧
    (∃ q, draw_all p pts = some q ∧ q.ops = p.ops ++ segments p.x p.y pts ∧
      (q.x, q.y) = last_point p.x p.y pts ∧
      q.file = p.file ∧ q.offset = p.offset ∧ q.offsets = p.offsets) ∧
    (∀ cx cy pt rest, segments cx cy (pt :: rest)
      = (fmt_f cx ++ (" ".toList ++ (fmt_f cy ++ " m\n".toList))) ++
        ((fmt_f pt.1 ++ (" ".toList ++ (fmt_f pt.2 ++ " l s\n".toList))) ++
          segments pt.1 pt.2 rest)) ∧
    (∀ cx cy, segments cx cy [] = []) := by
  refine ⟨?_, ?_, fun _ _ _ _ => rfl, fun _ _ => rfl⟩
  · rw [draw_eq]
    rfl
  · exact ⟨_, draw_all_eq p pts, rfl, rfl, rfl, rfl, rfl⟩

/-! ## The lines of the interpreter, one opcode at a time -/

theorem draw_loop_eq_draw_all (fuel : Nat) (ss : Str) (x y : Double) (p : PDF) :
    draw_loop PDF.draw fuel ss x y p = draw_all p ((read_pairs fuel ss x y).map scale) := by
  induction fuel generalizing ss x y p with
  | zero => rfl
  | succ fuel ih =>
    unfold draw_loop read_pairs
    split
    · rename_i x1 y1 rest heq
      simp only [heq, List.map_cons, draw_all, scale, Option.bind_eq_bind]
      congr 1
      funext q
      exact ih _ _ _ _
    · rename_i heq
      simp only [heq, List.map_nil, draw_all]

theorem draw_loop_eq_rdraw_all (fuel : Nat) (ss : Str) (x y : Double) (p : PDF) :
    draw_loop PDF.rdraw fuel ss x y p = rdraw_all p ((read_pairs fuel ss x y).map scale) := by
  induction fuel generalizing ss x y p with
  | zero => rfl
  | succ fuel ih =>
    unfold draw_loop read_pairs
    split
    · rename_i x1 y1 rest heq
      simp only [heq, List.map_cons, rdraw_all, scale, Option.bind_eq_bind]
      congr 1
      funext q
      exact ih _ _ _ _
    · rename_i heq
      simp only [heq, List.map_nil, rdraw_all]

theorem process_line_D (args : Str) (lx ly : Double) (r : Run) :
    process_line ('D' :: args) lx ly r
      = (draw_all r.pdf ((line_pairs args lx ly).map scale)).bind
          (fun pdf => some { r with pdf := pdf }) := by
  unfold process_line
  simp only [if_true, draw_loop_eq_draw_all, line_pairs]
  rfl

theorem process_line_I (args : Str) (lx ly : Double) (r : Run) :
    process_line ('I' :: args) lx ly r
      = (rdraw_all r.pdf ((line_pairs args lx ly).map scale)).bind
          (fun pdf => some { r with pdf := pdf }) := by
  unfold process_line
  have h1 : ('I' = 'D') = False := by decide
  simp only [h1, if_false, if_true, draw_loop_eq_rdraw_all, line_pairs]
  rfl

theorem process_line_M (args : Str) (lx ly : Double) (r : Run) :
    process_line ('M' :: args) lx ly r
      = some { r with
          pdf := (r.pdf.move
            (Double.mul (extract_pair (normalize_commas args) lx ly).1 dxy_unit)
            (Double.mul (extract_pair (normalize_commas args) lx ly).2.1 dxy_unit)) } := by
  unfold process_line
  have h1 : ('M' = 'D') = False := by decide
  have h2 : ('M' = 'I') = False := by decide
  have h3 : ('M' = 'J') = False := by decide
  simp only [h1, h2, h3, if_false, if_true]

theorem process_line_P (args : Str) (lx ly : Double) (r : Run) :
    process_line ('P' :: args) lx ly r
      = (r.pdf.print_text args).bind (fun pdf => some { r with pdf := pdf }) := by
  unfold process_line
  have h1 : ('P' = 'D') = False := by decide
  have h2 : ('P' = 'I') = False := by decide
  have h3 : ('P' = 'J') = False := by decide
  have h4 : ('P' = 'M') = False := by decide
  simp only [h1, h2, h3, h4, if_false, if_true]
  rfl

/-! ## Text lines -/

theorem nul_not_mem_escape_char (c : Char) (h : c ≠ '\x00') : '\x00' ∉ escape_char c := by
  unfold escape_char
  split
  · decide
  · split
    · decide
    · split
      · decide
      · split
        · decide
        · simp only [List.mem_singleton]
          exact fun e => h e.symm

theorem nul_not_mem_escaped (s : Str) (h : '\x00' ∉ s) : '\x00' ∉ escaped s := by
  induction s with
  | nil => simp [escaped]
  | cons c s ih =>
    simp only [List.mem_cons, not_or] at h
    simp only [escaped, List.mem_append, not_or]
    exact ⟨nul_not_mem_escape_char c (fun e => h.1 e.symm), ih h.2⟩

/-- A `P` line whose text holds no NUL: when the line is processed without a
throw, exactly one text operator with the whole escaped text is appended, at
the cursor, and nothing else changes. -/
theorem process_line_P_of_no_nul (args : Str) (lx ly : Double) (r r2 : Run)
    (hn : '\x00' ∉ args) (h : process_line ('P' :: args) lx ly r = some r2) :
    r2 = { r with pdf := { r.pdf with
      ops := r.pdf.ops ++ line_text r.pdf.x r.pdf.y ("(".toList ++ escaped args ++ ")".toList) } } := by
  rw [process_line_P] at h
  obtain ⟨q, hq, h⟩ := bind_eq_some_elim h
  cases h
  rw [print_text_eq_some hq]
  have : '\x00' ∉ '(' :: (escaped args ++ [')']) := by
    simp only [List.mem_cons, List.mem_append, not_or]
    exact ⟨by decide, nul_not_mem_escaped args hn, by decide, by simp⟩
  rw [cstr_of_not_mem this]
  simp

/-- Claim C8, at the line `P`, `a`, NUL, `b`: `escape` yields the literal of
all three chars, `(a<NUL>b)`, but the operator line appended to the content
buffer carries only `(a`, the literal cut before the NUL and left without its
closing parenthesis; so the buffer is not the one the claim describes. -/
theorem print_text_cuts_at_nul :
    PDF.escape "a\x00b".toList = some "(a\x00b)".toList ∧
    (process_file "Pa\x00b\n".toList zero_indeterminate).map (fun r => r.pdf.ops)
      = some (setup_text ++ "BT /F1 4 Tf 0.000000 0.000000 Td (a Tj ET\n".toList) ∧
    setup_text ++ "BT /F1 4 Tf 0.000000 0.000000 Td (a Tj ET\n".toList
      ≠ setup_text ++ line_text (Double.zero false) (Double.zero false) "(a\x00b)".toList := by
  refine ⟨by decide, by decide!, by decide!⟩

/-! ## Cursor tracking -/

theorem process_line_M_pair {args : Str} {lx ly x0 y0 : Double} {rest : Option Str} (r : Run)
    (hM : extract_pair (normalize_commas args) lx ly = (x0, y0, rest)) :
    ∃ r1, process_line ('M' :: args) lx ly r = some r1 ∧
      r1.pdf.x = Double.mul x0 dxy_unit ∧ r1.pdf.y = Double.mul y0 dxy_unit ∧
      r1.pdf.ops = r.pdf.ops := by
  refine ⟨_, process_line_M _ _ _ _, ?_, ?_, rfl⟩
  · simp [PDF.move, hM]
  · simp [PDF.move, hM]

theorem process_line_I_single {args : Str} {lx ly dx dy : Double} (r : Run)
    (hI : line_pairs args lx ly = [(dx, dy)]) :
    ∃ r2, process_line ('I' :: args) lx ly r = some r2 ∧
      r2.pdf.x = Double.add r.pdf.x (Double.mul dx dxy_unit) ∧
      r2.pdf.y = Double.add r.pdf.y (Double.mul dy dxy_unit) ∧
      r2.pdf.ops = r.pdf.ops ++ (line_m r.pdf.x r.pdf.y ++
        line_ls (Double.add r.pdf.x (Double.mul dx dxy_unit))
          (Double.add r.pdf.y (Double.mul dy dxy_unit))) := by
  have h : process_line ('I' :: args) lx ly r = some { r with pdf := { r.pdf with
      ops := r.pdf.ops ++ (line_m r.pdf.x r.pdf.y ++
        line_ls (Double.add r.pdf.x (Double.mul dx dxy_unit))
          (Double.add r.pdf.y (Double.mul dy dxy_unit))),
      x := Double.add r.pdf.x (Double.mul dx dxy_unit),
      y := Double.add r.pdf.y (Double.mul dy dxy_unit) } } := by
    rw [process_line_I, hI]
    simp only [List.map_cons, List.map_nil, rdraw_all, rdraw_eq, Option.some_bind]
    rfl
  exact ⟨_, h, rfl, rfl, rfl⟩

theorem process_line_D_pairs (args : Str) (lx ly : Double) (r : Run) :
    ∃ r3, process_line ('D' :: args) lx ly r = some r3 ∧
      r3.pdf.ops = r.pdf.ops ++ segments r.pdf.x r.pdf.y ((line_pairs args lx ly).map scale) ∧
      (r3.pdf.x, r3.pdf.y) = last_point r.pdf.x r.pdf.y ((line_pairs args lx ly).map scale) := by
  have h : process_line ('D' :: args) lx ly r = some { r with pdf := { r.pdf with
      ops := r.pdf.ops ++ segments r.pdf.x r.pdf.y ((line_pairs args lx ly).map scale),
      x := (last_point r.pdf.x r.pdf.y ((line_pairs args lx ly).map scale)).1,
      y := (last_point r.pdf.x r.pdf.y ((line_pairs args lx ly).map scale)).2 } } := by
    rw [process_line_D, draw_all_eq]
    rfl
  exact ⟨_, h, rfl, rfl⟩

/-- Claim C9, as the code has it.  Let an `M` line hold the complete pair
`(x0, y0)`, an `I` line exactly the pair `(dx, dy)`, and a `D` line the pairs
`(x1, y1), ...`.  Processing the three lines in this order returns, and the
move-to operator of the first segment of the `D` line starts from the cursor
`(x0 * 0.1 + dx * 0.1, y0 * 0.1 + dy * 0.1)`, every product and sum rounded as
a double: the point the relative draw of the `I` line ended at. -/
theorem cursor_tracking (r : Run) (mArgs iArgs dArgs : Str) (mx my ix iy dx0 dy0 : Double)
    (x0 y0 dx dy x1 y1 : Double) (restM : Str) (more : List (Double × Double))
    (hM : extract_pair (normalize_commas mArgs) mx my = (x0, y0, some restM))
    (hI : line_pairs iArgs ix iy = [(dx, dy)])
    (hD : line_pairs dArgs dx0 dy0 = (x1, y1) :: more) :
    ∃ r1 r2 r3,
      process_line ('M' :: mArgs) mx my r = some r1 ∧
      process_line ('I' :: iArgs) ix iy r1 = some r2 ∧
      process_line ('D' :: dArgs) dx0 dy0 r2 = some r3 ∧
      (r1.pdf.x, r1.pdf.y) = (Double.mul x0 dxy_unit, Double.mul y0 dxy_unit) ∧
      (r2.pdf.x, r2.pdf.y)
        = (Double.add (Double.mul x0 dxy_unit) (Double.mul dx dxy_unit),
           Double.add (Double.mul y0 dxy_unit) (Double.mul dy dxy_unit)) ∧
      r3.pdf.ops = r2.pdf.ops ++
        (line_m (Double.add (Double.mul x0 dxy_unit) (Double.mul dx dxy_unit))
                (Double.add (Double.mul y0 dxy_unit) (Double.mul dy dxy_unit)) ++
         (line_ls (Double.mul x1 dxy_unit) (Double.mul y1 dxy_unit) ++
          segments (Double.mul x1 dxy_unit) (Double.mul y1 dxy_unit) (more.map scale))) := by
  obtain ⟨r1, h1, h1x, h1y, _⟩ := process_line_M_pair r hM
  obtain ⟨r2, h2, h2x, h2y, _⟩ := process_line_I_single r1 hI
  obtain ⟨r3, h3, h3o, _⟩ := process_line_D_pairs dArgs dx0 dy0 r2
  refine ⟨r1, r2, r3, h1, h2, h3, ?_, ?_, ?_⟩
  · rw [h1x, h1y]
  · rw [h2x, h2y, h1x, h1y]
  · rw [h3o, hD, h2x, h2y, h1x, h1y]
    rfl

set_option maxRecDepth 100000 in
/-- Witness for `cursor_tracking`: the lines `M 1 2`, `I 3 4`, `D 5 6 7 8`
after the sample conversion. -/
theorem cursor_tracking_witness :
    extract_pair (normalize_commas " 1 2".toList) (Double.zero false) (Double.zero false)
      = (Double.ofNat 1, Double.ofNat 2, some []) ∧
    line_pairs " 3 4".toList (Double.zero false) (Double.zero false)
      = [(Double.ofNat 3, Double.ofNat 4)] ∧
    line_pairs " 5 6 7 8".toList (Double.zero false) (Double.zero false)
      = (Double.ofNat 5, Double.ofNat 6) :: [(Double.ofNat 7, Double.ofNat 8)] ∧
    ∃ r1 r2 r3,
      process_line "M 1 2".toList (Double.zero false) (Double.zero false) sample_run = some r1 ∧
      process_line "I 3 4".toList (Double.zero false) (Double.zero false) r1 = some r2 ∧
      process_line "D 5 6 7 8".toList (Double.zero false) (Double.zero false) r2 = some r3 ∧
      (r1.pdf.x, r1.pdf.y)
        = (Double.mul (Double.ofNat 1) dxy_unit, Double.mul (Double.ofNat 2) dxy_unit) ∧
      (r2.pdf.x, r2.pdf.y)
        = (Double.add (Double.mul (Double.ofNat 1) dxy_unit) (Double.mul (Double.ofNat 3) dxy_unit),
           Double.add (Double.mul (Double.ofNat 2) dxy_unit) (Double.mul (Double.ofNat 4) dxy_unit)) ∧
      r3.pdf.ops = r2.pdf.ops ++
        (line_m (Double.add (Double.mul (Double.ofNat 1) dxy_unit) (Double.mul (Double.ofNat 3) dxy_unit))
                (Double.add (Double.mul (Double.ofNat 2) dxy_unit) (Double.mul (Double.ofNat 4) dxy_unit)) ++
         (line_ls (Double.mul (Double.ofNat 5) dxy_unit) (Double.mul (Double.ofNat 6) dxy_unit) ++
          segments (Double.mul (Double.ofNat 5) dxy_unit) (Double.mul (Double.ofNat 6) dxy_unit)
            ([(Double.ofNat 7, Double.ofNat 8)].map scale))) :=
  ⟨by decide!, by decide!, by decide!,
   cursor_tracking sample_run " 1 2".toList " 3 4".toList " 5 6 7 8".toList _ _ _ _ _ _
     _ _ _ _ _ _ [] _ (by decide!) (by decide!) (by decide!)⟩

set_option maxRecDepth 100000 in
/-- Claim C9 as stated fails at the lines `M 1000000001 0`, `I 60000000009 0`,
`D 0 0`: the numbers are read exactly, and the move-to operator of the `D`
line is `6100000001.000001 0.000000 m`, while the point
`((x0 + dx) * 0.1, (y0 + dy) * 0.1)` of the claim prints as
`6100000001.000000 0.000000 m`. -/
theorem cursor_tracking_counterexample :
    extract "1000000001".toList = Extracted.ok (Double.ofNat 1000000001) [] ∧
    extract "60000000009".toList = Extracted.ok (Double.ofNat 60000000009) [] ∧
    extract "0".toList = Extracted.ok (Double.ofNat 0) [] ∧
    (process_file "M 1000000001 0\nI 60000000009 0\nD 0 0\n".toList zero_indeterminate).map
        (fun r => r.pdf.ops)
      = some (setup_text ++ ("100000000.100000 0.000000 m\n".toList ++
          ("6100000001.000001 0.000000 l s\n".toList ++
          ("6100000001.000001 0.000000 m\n".toList ++ "0.000000 0.000000 l s\n".toList)))) ∧
    line_m (Double.mul (Double.add (Double.ofNat 1000000001) (Double.ofNat 60000000009)) dxy_unit)
           (Double.mul (Double.add (Double.ofNat 0) (Double.ofNat 0)) dxy_unit)
      = "6100000001.000000 0.000000 m\n".toList ∧
    "6100000001.000001 0.000000 m\n".toList ≠ "6100000001.000000 0.000000 m\n".toList := by
  refine ⟨by decide!, by decide!, by decide!, by decide!, by decide!, by decide⟩

/-! ## Commas and spaces -/

theorem normalize_commas_idem (s : Str) : normalize_commas (normalize_commas s) = normalize_commas s := by
  induction s with
  | nil => rfl
  | cons c s ih =>
    simp only [normalize_commas, List.map_cons, List.map_map, List.cons.injEq] at ih ⊢
    refine ⟨?_, ih⟩
    by_cases h : c = ','
    · simp [h]
    · simp [h]

theorem normalize_commas_of_commasToSpaces {t1 t2 : Str} (h : CommasToSpaces t1 t2) :
    normalize_commas t2 = normalize_commas t1 := by
  induction h with
  | nil => rfl
  | cons hab _ ih =>
    rename_i a b l1 l2
    simp only [normalize_commas, List.map_cons, List.cons.injEq] at ih ⊢
    refine ⟨?_, ih⟩
    rcases hab with rfl | ⟨rfl, rfl⟩
    · rfl
    · decide

/-- A `D`, `I` or `M` line depends on its operand text only through the text
with the commas normalised. -/
theorem process_line_of_normalize_eq {c : Char} {t1 t2 : Str} (lx ly : Double) (r : Run)
    (hc : c = 'D' ∨ c = 'I' ∨ c = 'M') (h : normalize_commas t2 = normalize_commas t1) :
    process_line (c :: t2) lx ly r = process_line (c :: t1) lx ly r := by
  rcases hc with rfl | rfl | rfl
  · rw [process_line_D, process_line_D, line_pairs, line_pairs, h]
  · rw [process_line_I, process_line_I, line_pairs, line_pairs, h]
  · rw [process_line_M, process_line_M, h]

/-- Claim C10.  For every line with opcode `D`, `I` or `M` and every operand
text, replacing any of the commas of the operand text by spaces leaves the
outcome of processing the line the same (the same operators appended, the same
cursor, from every writer state); in particular the lines `D 10,20` and
`D 10 20` have the same outcome, and `normalize_commas` is idempotent. -/
theorem commas_as_spaces (c : Char) (t1 t2 : Str) (lx ly : Double) (r : Run)
    (hc : c = 'D' ∨ c = 'I' ∨ c = 'M') (ht : CommasToSpaces t1 t2) :
    process_line (c :: t2) lx ly r = process_line (c :: t1) lx ly r ∧
    process_line "D 10 20".toList lx ly r = process_line "D 10,20".toList lx ly r ∧
    normalize_commas (normalize_commas t1) = normalize_commas t1 :=
  ⟨process_line_of_normalize_eq lx ly r hc (normalize_commas_of_commasToSpaces ht),
   process_line_of_normalize_eq lx ly r (Or.inl rfl) (by decide),
   normalize_commas_idem t1⟩

set_option maxRecDepth 100000 in
/-- Witness for `commas_as_spaces`: the operand text ` 10,20 30,40` with its
first comma replaced, on a `D` line after the sample conversion; both lines
append the same two segments. -/
theorem commas_as_spaces_witness :
    CommasToSpaces " 10,20 30,40".toList " 10 20 30,40".toList ∧
    (process_line "D 10 20 30,40".toList (Double.zero false) (Double.zero false) sample_run).map
        (fun r => r.pdf.ops)
      = some (sample_ops ++ ("1.000000 1.000000 m\n".toList ++ ("1.000000 2.000000 l s\n".toList ++
          ("1.000000 2.000000 m\n".toList ++ "3.000000 4.000000 l s\n".toList)))) ∧
    process_line "D 10 20 30,40".toList (Double.zero false) (Double.zero false) sample_run
      = process_line "D 10,20 30,40".toList (Double.zero false) (Double.zero false) sample_run :=
  ⟨by simp [CommasToSpaces], by decide!,
   (commas_as_spaces 'D' " 10,20 30,40".toList " 10 20 30,40".toList (Double.zero false)
     (Double.zero false) sample_run (Or.inl rfl) (by simp [CommasToSpaces])).1⟩

/-! ## `process_file` returns on every input of moderate size -/

theorem line_m_length_le (x y : Double) : (line_m x y).length ≤ 6004 := by
  have h1 := fmt_f_length_le x
  have h2 := fmt_f_length_le y
  simp [line_m]
  omega

theorem line_ls_length_le (x y : Double) : (line_ls x y).length ≤ 6006 := by
  have h1 := fmt_f_length_le x
  have h2 := fmt_f_length_le y
  simp [line_ls]
  omega

theorem draw_returns (p : PDF) (x y : Double) :
    ∃ q, p.draw x y = some q ∧ q.ops.length ≤ p.ops.length + 12010 := by
  refine ⟨_, draw_eq p x y, ?_⟩
  have h1 := line_m_length_le p.x p.y
  have h2 := line_ls_length_le x y
  simp only [List.length_append]
  omega

theorem rdraw_returns (p : PDF) (dx dy : Double) :
    ∃ q, p.rdraw dx dy = some q ∧ q.ops.length ≤ p.ops.length + 12010 :=
  draw_returns p _ _

theorem draw_loop_returns (op : PDF → Double → Double → Option PDF)
    (hop : ∀ p x y, ∃ q, op p x y = some q ∧ q.ops.length ≤ p.ops.length + 12010)
    (fuel : Nat) (ss : Str) (x y : Double) (p : PDF) :
    ∃ q, draw_loop op fuel ss x y p = some q ∧ q.ops.length ≤ p.ops.length + 12010 * fuel := by
  induction fuel generalizing ss x y p with
  | zero => exact ⟨p, rfl, by omega⟩
  | succ fuel ih =>
    unfold draw_loop
    split
    · rename_i x1 y1 rest _
      obtain ⟨q, hq, hql⟩ := hop p (Double.mul x1 dxy_unit) (Double.mul y1 dxy_unit)
      obtain ⟨q2, hq2, hq2l⟩ := ih rest x1 y1 q
      refine ⟨q2, ?_, by omega⟩
      rw [hq]
      exact hq2
    · exact ⟨p, rfl, by omega⟩

theorem normalize_commas_length (s : Str) : (normalize_commas s).length = s.length := by
  simp [normalize_commas]

/-- The warning for an opcode that is not implemented: `warn` returns, and
the text is the C string of the message. -/
theorem warn_eq (err : Str) (cmd : Char) :
    warn err "command not implemented: %c".toList [Arg.chr cmd]
      = some (err ++ cstr ("dxy2pdf: command not implemented: ".toList ++ (cmd :: "\n".toList))) := by
  unfold warn
  have h1 : strfmt "%%s: %s\n".toList [Arg.str "command not implemented: %c".toList]
      = some "%s: command not implemented: %c\n".toList := by decide
  rw [h1]
  simp only [Option.bind_eq_bind, Option.some_bind]
  have he : expand (cstr "%s: command not implemented: %c\n".toList)
      [Arg.str program_name, Arg.chr cmd]
      = "dxy2pdf: command not implemented: ".toList ++ (cmd :: "\n".toList) := rfl
  rw [strfmt_of_lt (by rw [he]; simp [INT_MAX]), he]
  rfl

theorem process_line_returns (line : Str) (lx ly : Double) (r : Run)
    (hl : line.length ≤ 500000000) :
    ∃ r2, process_line line lx ly r = some r2 ∧
      r2.pdf.ops.length ≤ r.pdf.ops.length + 12010 * line.length := by
  unfold process_line
  split
  · exact ⟨r, rfl, by omega⟩
  · rename_i cmd args
    simp only [List.length_cons] at hl ⊢
    split
    · obtain ⟨q, hq, hql⟩ := draw_loop_returns PDF.draw draw_returns (normalize_commas args).length
        (normalize_commas args) lx ly r.pdf
      rw [normalize_commas_length] at hql
      refine ⟨{ r with pdf := q }, ?_, by simp only; omega⟩
      rw [hq]; rfl
    · split
      · obtain ⟨q, hq, hql⟩ := draw_loop_returns PDF.rdraw rdraw_returns
          (normalize_commas args).length (normalize_commas args) lx ly r.pdf
        rw [normalize_commas_length] at hql
        refine ⟨{ r with pdf := q }, ?_, by simp only; omega⟩
        rw [hq]; rfl
      · split
        · exact ⟨r, rfl, by omega⟩
        · split
          · exact ⟨_, rfl, by simp only [PDF.move]; omega⟩
          · split
            · refine ⟨_, by rw [print_text_of_short r.pdf args (by omega)]; rfl, ?_⟩
              have h1 := fmt_f_length_le r.pdf.x
              have h2 := fmt_f_length_le r.pdf.y
              have h3 := cstr_length_le ('(' :: (escaped args ++ [')']))
              have h4 := escaped_length_le args
              simp only [List.length_cons, List.length_append, List.length_nil] at h3
              simp [line_text]
              omega
            · split
              · exact ⟨r, rfl, by omega⟩
              · refine ⟨_, by rw [warn_eq]; rfl, by simp only; omega⟩

theorem process_lines_returns (u : Indeterminate) (lines : List Str) (n : Nat) (r : Run)
    (hl : (lines.map List.length).sum ≤ 500000000) :
    ∃ r2, process_lines u lines n r = some r2 ∧
      r2.pdf.ops.length ≤ r.pdf.ops.length + 12010 * (lines.map List.length).sum := by
  induction lines generalizing n r with
  | nil => exact ⟨r, rfl, by omega⟩
  | cons line rest ih =>
    simp only [List.map_cons, List.sum_cons] at hl ⊢
    unfold process_lines
    split
    · exact ⟨r, rfl, by omega⟩
    · obtain ⟨r1, h1, h1l⟩ := process_line_returns line (u.local_x n) (u.local_y n) r (by omega)
      obtain ⟨r2, h2, h2l⟩ := ih (n + 1) r1 (by omega)
      refine ⟨r2, ?_, by omega⟩
      rw [h1]
      exact h2

theorem getlines_from_length (input cur : Str) :
    ((getlines_from input cur).map List.length).sum ≤ input.length + cur.length := by
  induction input generalizing cur with
  | nil =>
    unfold getlines_from
    split <;> simp
  | cons c cs ih =>
    unfold getlines_from
    split
    · have := ih []
      simp only [List.map_cons, List.sum_cons, List.length_cons, List.length_nil] at this ⊢
      omega
    · have := ih (cur ++ [c])
      simp only [List.length_append, List.length_cons, List.length_nil] at this ⊢
      omega

theorem setup_ops_length_le : setup_ops.length ≤ 16000 := by
  have h1 := fmt_f_length_le (Double.div (Double.ofNat 1) PDF.unit)
  have h2 := fmt_f_length_le (Double.div (Double.ofNat 10) PDF.unit)
  have h3 := fmt_f_length_le (Double.ofDecimal 2 10)
  simp [setup_ops]
  omega

theorem stream_body_length_le (data : Str) (h : data.length < 10000000000) :
    (stream_body data).length ≤ data.length + 50 := by
  have h1 := decimal_length_le data.length 9 (by norm_num; exact h)
  simp [stream_body]
  omega

/-- On every input of at most 100000 chars `process_file` returns: no call of
`strfmt` comes near `INT_MAX`. -/
theorem process_file_returns (input : Str) (u : Indeterminate) (h : input.length ≤ 100000) :
    ∃ r, process_file input u = some r := by
  have hg := getlines_from_length input []
  simp only [List.length_nil, Nat.add_zero] at hg
  unfold process_file
  rw [ctor_eq]
  simp only [Option.bind_eq_bind, Option.some_bind]
  obtain ⟨r1, h1, h1l⟩ := process_lines_returns u (getlines input) 0
    { pdf := { file := preamble a3_height a3_width, width := a3_height, height := a3_width,
               x := u.cursor_x, y := u.cursor_y, offset := (preamble a3_height a3_width).length,
               offsets := [9, 43, 100], ops := setup_ops }, err := [] }
    (by unfold getlines; omega)
  rw [h1]
  simp only [Option.some_bind]
  have hopen : Open a3_height a3_width r1.pdf :=
    open_of_extends (open_ctor (ctor_eq _ _ _ _)) (extends_process_lines _ _ _ _ _ h1)
  have hs := setup_ops_length_le
  have hlen : r1.pdf.ops.length ≤ 1300000000 := by
    simp only at h1l
    unfold getlines at h1l
    omega
  have hb := stream_body_length_le r1.pdf.ops (by omega)
  rw [finish_of_lt hopen (by simp only [INT_MAX]; omega)]
  exact ⟨_, rfl⟩

/-- The reader of literal strings on a few literals: nested parentheses, an
escaped parenthesis, octal escapes of three, two and one digit, a line
continuation, and an end of line read as a line feed. -/
theorem read_literal_examples :
    read_literal "(a(b)c\\)\\101\\0501\\53\\7)x".toList = some ("a(b)c)A(1+\x07".toList, "x".toList) ∧
    read_literal "(a\\\nb\r\nc)".toList = some ("ab\nc".toList, []) ∧
    read_literal "(a".toList = none ∧ read_literal "a)".toList = none := by
  decide

/-! ## The loop over the pairs never runs out of fuel -/

/-- The main loop of the scanner collects exactly one char for every char it reads. -/
theorem extract_float_loop_length (s : Str) (fm fd fs se : Bool) (xtrc : Str) :
    (extract_float_loop s fm fd fs se xtrc).1.length
        + (extract_float_loop s fm fd fs se xtrc).2.length = xtrc.length + s.length := by
  induction s generalizing fm fd fs se xtrc with
  | nil => simp [extract_float_loop]
  | cons c cs ih =>
    unfold extract_float_loop
    split
    · have := ih fm fd fs false (xtrc ++ [c])
      simp only [List.length_append, List.length_cons, List.length_nil] at this ⊢
      omega
    · split
      · have := ih true fd fs false (xtrc ++ [c])
        simp only [List.length_append, List.length_cons, List.length_nil] at this ⊢
        omega
      · split
        · have := ih fm true fs false (xtrc ++ ['.'])
          simp only [List.length_append, List.length_cons, List.length_nil] at this ⊢
          omega
        · split
          · have := ih fm fd true true (xtrc ++ ['e'])
            simp only [List.length_append, List.length_cons, List.length_nil] at this ⊢
            omega
          · simp

theorem extract_float_loop_length_ge (s : Str) (fm fd fs se : Bool) (xtrc : Str) :
    xtrc.length ≤ (extract_float_loop s fm fd fs se xtrc).1.length := by
  induction s generalizing fm fd fs se xtrc with
  | nil => simp [extract_float_loop]
  | cons c cs ih =>
    unfold extract_float_loop
    split
    · have := ih fm fd fs false (xtrc ++ [c])
      simp only [List.length_append, List.length_cons, List.length_nil] at this ⊢
      omega
    · split
      · have := ih true fd fs false (xtrc ++ [c])
        simp only [List.length_append, List.length_cons, List.length_nil] at this ⊢
        omega
      · split
        · have := ih fm true fs false (xtrc ++ ['.'])
          simp only [List.length_append, List.length_cons, List.length_nil] at this ⊢
          omega
        · split
          · have := ih fm fd true true (xtrc ++ ['e'])
            simp only [List.length_append, List.length_cons, List.length_nil] at this ⊢
            omega
          · simp

theorem takeWhile_dropWhile_length (f : Char → Bool) (s : Str) :
    (s.takeWhile f).length + (s.dropWhile f).length = s.length := by
  induction s with
  | nil => rfl
  | cons c cs ih =>
    simp only [List.takeWhile_cons, List.dropWhile_cons]
    split
    · simp only [List.length_cons]; omega
    · simp

/-- The scanner collects something only if it reads something: when the
collected text is not empty, the rest of the stream is shorter than the stream. -/
theorem extract_float_length (s : Str) (h : (extract_float s).1 ≠ []) :
    (extract_float s).2.length < s.length := by
  unfold extract_float at h ⊢
  cases s with
  | nil =>
    exfalso
    apply h
    rfl
  | cons c cs =>
    simp only at h ⊢
    by_cases hc : c = '+' ∨ c = '-'
    · simp only [hc, if_true] at h ⊢
      have h1 := takeWhile_dropWhile_length (fun c => c == '0') cs
      split
      · have h2 := extract_float_loop_length (cs.dropWhile (fun c => c == '0')) false false false
          false [c]
        have h3 := extract_float_loop_length_ge (cs.dropWhile (fun c => c == '0')) false false
          false false [c]
        simp only [List.length_cons, List.length_nil] at h2 h3 ⊢
        omega
      · rename_i hz
        have h2 := extract_float_loop_length (cs.dropWhile (fun c => c == '0')) true false false
          false ([c] ++ ['0'])
        have h3 := extract_float_loop_length_ge (cs.dropWhile (fun c => c == '0')) true false
          false false ([c] ++ ['0'])
        simp only [List.length_cons, List.length_nil, List.length_append] at h2 h3 ⊢
        omega
    · simp only [hc, if_false] at h ⊢
      have h1 := takeWhile_dropWhile_length (fun c => c == '0') (c :: cs)
      split
      · rename_i hz
        rw [hz] at h1
        simp only [hz, if_true] at h
        have h2 := extract_float_loop_length ((c :: cs).dropWhile (fun c => c == '0')) false false
          false false []
        have h4 : 0 < (extract_float_loop ((c :: cs).dropWhile (fun c => c == '0')) false false
            false false []).1.length := List.length_pos.mpr h
        simp only [List.length_cons, List.length_nil] at h1 h2 ⊢
        omega
      · rename_i hz
        have h2 := extract_float_loop_length ((c :: cs).dropWhile (fun c => c == '0')) true false
          false false ([] ++ ['0'])
        have h5 : 0 < ((c :: cs).takeWhile (fun c => c == '0')).length := List.length_pos.mpr hz
        have h3 := extract_float_loop_length_ge ((c :: cs).dropWhile (fun c => c == '0')) true
          false false false ([] ++ ['0'])
        simp only [List.length_cons, List.length_nil, List.length_append] at h1 h2 h3 h5 ⊢
        omega

theorem dropWhile_length_le (f : Char → Bool) (s : Str) : (s.dropWhile f).length ≤ s.length := by
  have := takeWhile_dropWhile_length f s
  omega

theorem convert_to_v_ne_nil {xtrc : Str} (h : (convert_to_v xtrc).2 = true) : xtrc ≠ [] := by
  intro he
  subst he
  revert h
  decide

/-- A successful extraction reads at least one char. -/
theorem extract_ok_length {ss rest : Str} {v : Double} (h : extract ss = Extracted.ok v rest) :
    rest.length < ss.length := by
  unfold extract at h
  have hd := dropWhile_length_le isspace ss
  split at h
  · cases h
  · rename_i c s heq
    simp only at h
    split at h
    · rename_i hv
      have hx := extract_float_length (c :: s) (convert_to_v_ne_nil hv)
      cases h
      rw [heq] at hd
      omega
    · cases h

theorem extract_pair_some_length {ss rest : Str} {x y x1 y1 : Double}
    (h : extract_pair ss x y = (x1, y1, some rest)) : rest.length < ss.length := by
  unfold extract_pair at h
  split at h
  · cases h
  · cases h
  · rename_i v r1 h1
    have hl1 := extract_ok_length h1
    split at h
    · cases h
    · cases h
    · rename_i w r2 h2
      have hl2 := extract_ok_length h2
      cases h
      omega

/-- The pairs read do not depend on the fuel, once it covers the stream:
the loop ends because an extraction fails, never because the fuel is used up. -/
theorem read_pairs_fuel (fuel1 fuel2 : Nat) (ss : Str) (x y : Double)
    (h1 : ss.length ≤ fuel1) (h2 : ss.length ≤ fuel2) :
    read_pairs fuel1 ss x y = read_pairs fuel2 ss x y := by
  induction fuel1 generalizing fuel2 ss x y with
  | zero =>
    have hs : ss = [] := List.length_eq_zero.mp (by omega)
    subst hs
    cases fuel2 with
    | zero => rfl
    | succ f => rfl
  | succ f1 ih =>
    cases fuel2 with
    | zero =>
      have hs : ss = [] := List.length_eq_zero.mp (by omega)
      subst hs
      rfl
    | succ f2 =>
      unfold read_pairs
      split
      · rename_i x1 y1 rest heq
        have hl := extract_pair_some_length heq
        rw [ih f2 rest x1 y1 (by omega) (by omega)]
      · rfl

/-! ## The empty line ends the input -/

theorem process_lines_takeWhile (u : Indeterminate) (lines : List Str) (n : Nat) (r : Run) :
    process_lines u (lines.takeWhile (fun l => !l.isEmpty)) n r = process_lines u lines n r := by
  induction lines generalizing n r with
  | nil => rfl
  | cons line rest ih =>
    cases line with
    | nil => rfl
    | cons c cs =>
      simp only [List.takeWhile_cons, List.isEmpty_cons, Bool.not_false, if_true]
      unfold process_lines
      simp only [List.length_cons, Nat.succ_ne_zero, if_false]
      cases process_line (c :: cs) (u.local_x n) (u.local_y n) r with
      | none => rfl
      | some r1 => exact ih (n + 1) r1

/-- Claim C11.  Let `input2` be an input whose lines are the lines of `input`
that precede its first empty line.  Then `process_file` has the same outcome on
both (the same output bytes and the same warnings, or a throw on both): the
lines after the first empty line have no effect.  And whenever `process_file`
returns, its output is the header and objects 1 to 4 followed by one
cross-reference section, the trailer, the start pointer and `%%EOF` with its
newline, with which the output ends: `finish` ran once, last. -/
theorem empty_line_ends_input (input input2 : Str) (u : Indeterminate)
    (h : getlines input2 = (getlines input).takeWhile (fun l => !l.isEmpty)) :
    process_file input u = process_file input2 u ∧
    ∀ r, process_file input u = some r →
      r.pdf.file = body a3_height a3_width r.pdf.ops ++
        (xref_section 5 r.pdf.offsets ++ (trailer 5 ++
        (startxref (body a3_height a3_width r.pdf.ops).length ++ "%%EOF\n".toList))) ∧
      "%%EOF\n".toList <:+ r.pdf.file := by
  constructor
  · unfold process_file
    simp only [h, process_lines_takeWhile]
  · intro r hr
    obtain ⟨hfile, hoffs, _, _, _, _⟩ := process_file_eq_some hr
    have hf : r.pdf.file = body a3_height a3_width r.pdf.ops ++
        (xref_section 5 r.pdf.offsets ++ (trailer 5 ++
        (startxref (body a3_height a3_width r.pdf.ops).length ++ "%%EOF\n".toList))) := by
      rw [hfile, hoffs]
      rfl
    refine ⟨hf, ?_⟩
    rw [hf]
    refine ⟨body a3_height a3_width r.pdf.ops ++ (xref_section 5 r.pdf.offsets ++ (trailer 5 ++
        startxref (body a3_height a3_width r.pdf.ops).length)), ?_⟩
    simp only [List.append_assoc]

set_option maxRecDepth 100000 in
/-- Witness for `empty_line_ends_input`: the sample input followed by further
lines (one of them with an opcode that is not implemented), against the sample
input without its empty line; both yield the sample output and no warning. -/
theorem empty_line_ends_input_witness :
    getlines "M 0,0\nD 10,0 10,10\nP hello\n".toList
      = (getlines "M 0,0\nD 10,0 10,10\nP hello\n\nX 1 2\nD 50 50\n".toList).takeWhile
          (fun l => !l.isEmpty) ∧
    process_file "M 0,0\nD 10,0 10,10\nP hello\n\nX 1 2\nD 50 50\n".toList zero_indeterminate
      = some sample_run ∧
    process_file "M 0,0\nD 10,0 10,10\nP hello\n\nX 1 2\nD 50 50\n".toList zero_indeterminate
      = process_file "M 0,0\nD 10,0 10,10\nP hello\n".toList zero_indeterminate :=
  ⟨by decide, by decide!,
   (empty_line_ends_input "M 0,0\nD 10,0 10,10\nP hello\n\nX 1 2\nD 50 50\n".toList
     "M 0,0\nD 10,0 10,10\nP hello\n".toList zero_indeterminate (by decide)).1⟩

/-! ## Warnings -/

theorem process_line_J (args : Str) (lx ly : Double) (r : Run) :
    process_line ('J' :: args) lx ly r = some r := by
  unfold process_line
  have h1 : ('J' = 'D') = False := by decide
  have h2 : ('J' = 'I') = False := by decide
  simp only [h1, h2, if_false, if_true]

theorem process_line_S (args : Str) (lx ly : Double) (r : Run) :
    process_line ('S' :: args) lx ly r = some r := by
  unfold process_line
  have h1 : ('S' = 'D') = False := by decide
  have h2 : ('S' = 'I') = False := by decide
  have h3 : ('S' = 'J') = False := by decide
  have h4 : ('S' = 'M') = False := by decide
  have h5 : ('S' = 'P') = False := by decide
  simp only [h1, h2, h3, h4, h5, if_false, if_true]

/-- A line with an opcode that is not recognised: the writer is untouched and
the C string of the message goes to `std::cerr`. -/
theorem process_line_unrecognized (c : Char) (args : Str) (lx ly : Double) (r : Run)
    (hD : c ≠ 'D') (hI : c ≠ 'I') (hJ : c ≠ 'J') (hM : c ≠ 'M') (hP : c ≠ 'P') (hS : c ≠ 'S') :
    process_line (c :: args) lx ly r = some { r with
      err := r.err ++ cstr ("dxy2pdf: command not implemented: ".toList ++ (c :: "\n".toList)) } := by
  unfold process_line
  simp only [hD, hI, hJ, hM, hP, hS, if_false]
  rw [warn_eq]
  rfl

theorem warning_text_of_ne_nul (c : Char) (h : c ≠ '\x00') :
    cstr ("dxy2pdf: command not implemented: ".toList ++ (c :: "\n".toList))
      = "dxy2pdf: command not implemented: ".toList ++ (c :: "\n".toList) := by
  apply cstr_of_not_mem
  simp only [List.mem_append, List.mem_cons, not_or]
  exact ⟨by decide, fun e => h e.symm, by decide⟩

/-- The lines with a recognised opcode write nothing to `std::cerr`. -/
theorem process_line_err_of_recognized (c : Char) (args : Str) (lx ly : Double) (r r2 : Run)
    (hc : c = 'D' ∨ c = 'I' ∨ c = 'J' ∨ c = 'M' ∨ c = 'P' ∨ c = 'S')
    (h : process_line (c :: args) lx ly r = some r2) : r2.err = r.err := by
  rcases hc with rfl | rfl | rfl | rfl | rfl | rfl
  · rw [process_line_D] at h
    obtain ⟨q, _, h⟩ := bind_eq_some_elim h
    cases h; rfl
  · rw [process_line_I] at h
    obtain ⟨q, _, h⟩ := bind_eq_some_elim h
    cases h; rfl
  · rw [process_line_J] at h
    cases h; rfl
  · rw [process_line_M] at h
    cases h; rfl
  · rw [process_line_P] at h
    obtain ⟨q, _, h⟩ := bind_eq_some_elim h
    cases h; rfl
  · rw [process_line_S] at h
    cases h; rfl

/-- What the claim on warnings says, shown for every opcode other than NUL.
A line with opcode `J` or `S` changes nothing and warns of nothing; a line
with an opcode outside `D I J M P S` leaves the writer as it is and writes
exactly the one message naming the opcode; a line with opcode `D`, `I`, `M`
or `P` writes no warning; and the lines that follow are processed from the
outcome of the line. -/
theorem warnings_of_ne_nul (c : Char) (args : Str) (lx ly : Double) (r : Run)
    (u : Indeterminate) (rest : List Str) (n : Nat) (hc : c ≠ '\x00') :
    (c = 'J' ∨ c = 'S' → process_line (c :: args) lx ly r = some r) ∧
    (c ≠ 'D' → c ≠ 'I' → c ≠ 'J' → c ≠ 'M' → c ≠ 'P' → c ≠ 'S' →
      process_line (c :: args) lx ly r = some { r with
        err := r.err ++ ("dxy2pdf: command not implemented: ".toList ++ (c :: "\n".toList)) }) ∧
    (c = 'D' ∨ c = 'I' ∨ c = 'J' ∨ c = 'M' ∨ c = 'P' ∨ c = 'S' →
      ∀ r2, process_line (c :: args) lx ly r = some r2 → r2.err = r.err) ∧
    process_lines u ((c :: args) :: rest) n r
      = (process_line (c :: args) (u.local_x n) (u.local_y n) r).bind
          (fun r2 => process_lines u rest (n + 1) r2) := by
  refine ⟨?_, ?_, ?_, rfl⟩
  · rintro (rfl | rfl)
    · exact process_line_J _ _ _ _
    · exact process_line_S _ _ _ _
  · intro hD hI hJ hM hP hS
    rw [process_line_unrecognized c args lx ly r hD hI hJ hM hP hS, warning_text_of_ne_nul c hc]
  · intro h r2 h2
    exact process_line_err_of_recognized c args lx ly r r2 h h2

set_option maxRecDepth 100000 in
/-- Witness for `warnings_of_ne_nul`: the line `X 1 2` after the sample
conversion gives the one warning naming `X` and leaves the writer as it is. -/
theorem warnings_of_ne_nul_witness :
    'X' ≠ '\x00' ∧
    process_line "X 1 2".toList (Double.zero false) (Double.zero false) sample_run
      = some { sample_run with err := "dxy2pdf: command not implemented: X\n".toList } :=
  ⟨by decide,
   (warnings_of_ne_nul 'X' " 1 2".toList (Double.zero false) (Double.zero false) sample_run
     zero_indeterminate [] 0 (by decide)).2.1 (by decide) (by decide) (by decide) (by decide)
     (by decide) (by decide)⟩

set_option maxRecDepth 100000 in
/-- Claim C12, at a line whose opcode is the NUL char: the message written to
`std::cerr` is `dxy2pdf: command not implemented: ` and ends there; it holds
neither the opcode nor the newline of the message the claim describes. -/
theorem warning_for_nul_opcode :
    process_line "\x00 1 2".toList (Double.zero false) (Double.zero false) sample_run
      = some { sample_run with err := "dxy2pdf: command not implemented: ".toList } ∧
    "dxy2pdf: command not implemented: ".toList
      ≠ "dxy2pdf: command not implemented: \x00\n".toList ∧
    (process_file "\x00 1 2\nX\n".toList zero_indeterminate).map (fun r => r.err)
      = some "dxy2pdf: command not implemented: dxy2pdf: command not implemented: X\n".toList := by
  refine ⟨by decide!, by decide, by decide!⟩

/-! ## Counting the operator lines -/

theorem digitChar_ne_newline (n : Nat) : digitChar n ≠ '\n' := by
  unfold digitChar
  have h : n % 10 < 10 := Nat.mod_lt _ (by decide)
  generalize n % 10 = k at h
  interval_cases k <;> decide

theorem newline_not_mem_digitsAux (b : Nat) (fuel n : Nat) (acc : Str) (h : '\n' ∉ acc) :
    '\n' ∉ digitsAux b fuel n acc := by
  induction fuel generalizing n acc with
  | zero =>
    simp only [digitsAux, List.mem_cons, not_or]
    exact ⟨fun e => digitChar_ne_newline _ e.symm, h⟩
  | succ fuel ih =>
    unfold digitsAux
    split
    · simp only [List.mem_cons, not_or]
      exact ⟨fun e => digitChar_ne_newline _ e.symm, h⟩
    · apply ih
      simp only [List.mem_cons, not_or]
      exact ⟨fun e => digitChar_ne_newline _ e.symm, h⟩

theorem newline_not_mem_decimal (n : Nat) : '\n' ∉ decimal n :=
  newline_not_mem_digitsAux 10 n n [] (by simp)

theorem newline_not_mem_zeroPad (w : Nat) {s : Str} (h : '\n' ∉ s) : '\n' ∉ zeroPad w s := by
  unfold zeroPad
  simp only [List.mem_append, not_or]
  refine ⟨?_, h⟩
  intro hm
  have := List.eq_of_mem_replicate hm
  exact absurd this (by decide)

/-- The text of `%f` holds no newline. -/
theorem newline_not_mem_fmt_f (d : Double) : '\n' ∉ fmt_f d := by
  unfold fmt_f
  simp only [List.mem_append, not_or]
  constructor
  · split <;> simp
  · split
    · decide
    · split
      · decide
      · simp only [List.mem_append, List.mem_cons, not_or]
        exact ⟨newline_not_mem_decimal _, by decide,
          newline_not_mem_zeroPad _ (newline_not_mem_decimal _)⟩

theorem line_m_count (x y : Double) : (line_m x y).count '\n' = 1 := by
  simp only [line_m, List.count_append, List.count_eq_zero_of_not_mem (newline_not_mem_fmt_f _)]
  decide

theorem line_ls_count (x y : Double) : (line_ls x y).count '\n' = 1 := by
  simp only [line_ls, List.count_append, List.count_eq_zero_of_not_mem (newline_not_mem_fmt_f _)]
  decide

/-- `n` segments are `2 n` operator lines. -/
theorem segments_count (cx cy : Double) (pts : List (Double × Double)) :
    (segments cx cy pts).count '\n' = 2 * pts.length := by
  induction pts generalizing cx cy with
  | nil => rfl
  | cons pt rest ih =>
    simp only [segments, List.count_append, line_m_count, line_ls_count, ih, List.length_cons]
    omega

/-! ## Relative draws -/

theorem rdraw_all_eq_draw_all (p : PDF) (ds : List (Double × Double)) :
    rdraw_all p ds = draw_all p (absolute p.x p.y ds) := by
  induction ds generalizing p with
  | nil => rfl
  | cons d rest ih =>
    unfold rdraw_all absolute draw_all
    rw [rdraw_eq, draw_eq]
    simp only [Option.some_bind]
    exact ih _

theorem absolute_length (cx cy : Double) (ds : List (Double × Double)) :
    (absolute cx cy ds).length = ds.length := by
  induction ds generalizing cx cy with
  | nil => rfl
  | cons d rest ih => simp [absolute, ih]

/-! ## The `D` and `I` lines as sequences of draws -/

theorem process_line_I_eq (args : Str) (lx ly : Double) (r : Run) :
    process_line ('I' :: args) lx ly r = some { r with pdf := { r.pdf with
      ops := r.pdf.ops ++ segments r.pdf.x r.pdf.y
        (absolute r.pdf.x r.pdf.y ((line_pairs args lx ly).map scale)),
      x := (last_point r.pdf.x r.pdf.y
        (absolute r.pdf.x r.pdf.y ((line_pairs args lx ly).map scale))).1,
      y := (last_point r.pdf.x r.pdf.y
        (absolute r.pdf.x r.pdf.y ((line_pairs args lx ly).map scale))).2 } } := by
  rw [process_line_I, rdraw_all_eq_draw_all, draw_all_eq]
  rfl

theorem process_line_D_eq (args : Str) (lx ly : Double) (r : Run) :
    process_line ('D' :: args) lx ly r = some { r with pdf := { r.pdf with
      ops := r.pdf.ops ++ segments r.pdf.x r.pdf.y ((line_pairs args lx ly).map scale),
      x := (last_point r.pdf.x r.pdf.y ((line_pairs args lx ly).map scale)).1,
      y := (last_point r.pdf.x r.pdf.y ((line_pairs args lx ly).map scale)).2 } } := by
  rw [process_line_D, draw_all_eq]
  rfl

/-- Claim C13.  Let `(x1, y1), ..., (xn, yn)` be the pairs the operand text of
a line parses to (the pairs read until an extraction fails, whatever fuel at
least the length of the text the loop is given).  Processing the line as a `D`
line is calling `draw (xi * 0.1) (yi * 0.1)` for `i = 1..n` in order, and as
an `I` line calling `rdraw` likewise.  Either way the line returns, appends
`n` segments of two operator lines each (`2 n` newlines), every segment
starting where the one before ended, the first at the cursor, and leaves the
cursor at the last end point; with `n = 0` the outcome is the state as it was. -/
theorem polyline_lines (args : Str) (lx ly : Double) (r : Run) :
    process_line ('D' :: args) lx ly r
      = (draw_all r.pdf ((line_pairs args lx ly).map scale)).bind
          (fun pdf => some { r with pdf := pdf }) ∧
    process_line ('I' :: args) lx ly r
      = (rdraw_all r.pdf ((line_pairs args lx ly).map scale)).bind
          (fun pdf => some { r with pdf := pdf }) ∧
    process_line ('D' :: args) lx ly r = some { r with pdf := { r.pdf with
      ops := r.pdf.ops ++ segments r.pdf.x r.pdf.y ((line_pairs args lx ly).map scale),
      x := (last_point r.pdf.x r.pdf.y ((line_pairs args lx ly).map scale)).1,
      y := (last_point r.pdf.x r.pdf.y ((line_pairs args lx ly).map scale)).2 } } ∧
    process_line ('I' :: args) lx ly r = some { r with pdf := { r.pdf with
      ops := r.pdf.ops ++ segments r.pdf.x r.pdf.y
        (absolute r.pdf.x r.pdf.y ((line_pairs args lx ly).map scale)),
      x := (last_point r.pdf.x r.pdf.y
        (absolute r.pdf.x r.pdf.y ((line_pairs args lx ly).map scale))).1,
      y := (last_point r.pdf.x r.pdf.y
        (absolute r.pdf.x r.pdf.y ((line_pairs args lx ly).map scale))).2 } } ∧
    (segments r.pdf.x r.pdf.y ((line_pairs args lx ly).map scale)).count '\n'
      = 2 * (line_pairs args lx ly).length ∧
    (segments r.pdf.x r.pdf.y
        (absolute r.pdf.x r.pdf.y ((line_pairs args lx ly).map scale))).count '\n'
      = 2 * (line_pairs args lx ly).length ∧
    (line_pairs args lx ly = [] →
      process_line ('D' :: args) lx ly r = some r ∧ process_line ('I' :: args) lx ly r = some r) ∧
    (∀ fuel, (normalize_commas args).length ≤ fuel →
      read_pairs fuel (normalize_commas args) lx ly = line_pairs args lx ly) := by
  refine ⟨process_line_D _ _ _ _, process_line_I _ _ _ _, process_line_D_eq _ _ _ _,
    process_line_I_eq _ _ _ _, ?_, ?_, ?_, ?_⟩
  · rw [segments_count, List.length_map]
  · rw [segments_count, absolute_length, List.length_map]
  · intro h
    rw [process_line_D_eq, process_line_I_eq, h]
    simp [segments, absolute, last_point]
  · intro fuel hf
    exact read_pairs_fuel _ _ _ _ _ hf (Nat.le_refl _)

set_option maxRecDepth 100000 in
/-- The pairs of some operand texts: commas and spaces separate alike, an odd
trailing number and everything from the first token that is no number on are
dropped, and a text without a complete pair has no pairs. -/
theorem line_pairs_examples :
    line_pairs " 10,0 10,10".toList (Double.zero false) (Double.zero false)
      = [(Double.ofNat 10, Double.ofNat 0), (Double.ofNat 10, Double.ofNat 10)] ∧
    line_pairs " 1 2 3".toList (Double.zero false) (Double.zero false)
      = [(Double.ofNat 1, Double.ofNat 2)] ∧
    line_pairs " 1 2 x 3 4".toList (Double.zero false) (Double.zero false)
      = [(Double.ofNat 1, Double.ofNat 2)] ∧
    line_pairs " 7".toList (Double.zero false) (Double.zero false) = [] ∧
    line_pairs "".toList (Double.zero false) (Double.zero false) = [] := by
  decide!

/-! ## `M` lines without a complete pair -/

set_option maxRecDepth 100000 in
/-- Claim C14, at the line `M 5 abc` (one number, then a token that is no
number): the line holds no complete pair, yet `move` is called, with the
number read and the zero stored by the failed extraction.  After `M 10 10`
the cursor is `(1, 1)`; after `M 5 abc` the next segment starts from
`(0.5, 0)`, not from `(1, 1)`.  An `M` line with no operand at all moves the
cursor to the indeterminate values of its uninitialised locals. -/
theorem move_without_pair :
    complete_pair " 5 abc".toList = false ∧
    (process_file "M 10 10\nM 5 abc\nD 20 20\n".toList zero_indeterminate).map
        (fun r => r.pdf.ops)
      = some (setup_text ++ ("0.500000 0.000000 m\n".toList ++ "2.000000 2.000000 l s\n".toList)) ∧
    (process_file "M 10 10\nD 20 20\n".toList zero_indeterminate).map (fun r => r.pdf.ops)
      = some (setup_text ++ ("1.000000 1.000000 m\n".toList ++ "2.000000 2.000000 l s\n".toList)) ∧
    ∀ (lx ly : Double) (r : Run),
      process_line "M".toList lx ly r
        = some { r with pdf := { r.pdf with x := Double.mul lx dxy_unit,
                                            y := Double.mul ly dxy_unit } } := by
  refine ⟨by decide!, by decide!, by decide!, ?_⟩
  intro lx ly r
  exact process_line_M [] lx ly r

/-! ## What does not depend on indeterminate values -/

/-- Whether `ss >> x >> y` succeeds, and the rest of the stream then, do not
depend on the prior values of `x` and `y`. -/
theorem extract_pair_rest (ss : Str) (x y x2 y2 : Double) :
    (extract_pair ss x y).2.2 = (extract_pair ss x2 y2).2.2 := by
  unfold extract_pair
  cases extract ss with
  | eof => rfl
  | fail v => rfl
  | ok v rest =>
    simp only
    cases extract rest with
    | eof => rfl
    | fail w => rfl
    | ok w rest2 => rfl

/-- When `ss >> x >> y` succeeds, the values read do not depend on the prior
values of `x` and `y`. -/
theorem extract_pair_some_indep {ss rest : Str} {x y x1 y1 : Double} (x2 y2 : Double)
    (h : extract_pair ss x y = (x1, y1, some rest)) :
    extract_pair ss x2 y2 = (x1, y1, some rest) := by
  unfold extract_pair at h ⊢
  cases h1 : extract ss with
  | eof => rw [h1] at h; cases h
  | fail v => rw [h1] at h; cases h
  | ok v r1 =>
    rw [h1] at h
    simp only at h ⊢
    cases h2 : extract r1 with
    | eof => rw [h2] at h; cases h
    | fail w => rw [h2] at h; cases h
    | ok w r2 =>
      rw [h2] at h
      exact h

theorem read_pairs_indep (fuel : Nat) (ss : Str) (x y x2 y2 : Double) :
    read_pairs fuel ss x y = read_pairs fuel ss x2 y2 := by
  cases fuel with
  | zero => rfl
  | succ f =>
    unfold read_pairs
    cases h : extract_pair ss x y with
    | mk x1 r =>
      cases r with
      | mk y1 rest =>
        cases rest with
        | none =>
          have h2 := extract_pair_rest ss x y x2 y2
          rw [h] at h2
          cases h3 : extract_pair ss x2 y2 with
          | mk a r3 =>
            cases r3 with
            | mk b rest3 =>
              rw [h3] at h2
              simp only at h2
              subst h2
              rfl
        | some rest =>
          rw [extract_pair_some_indep x2 y2 h]

theorem line_pairs_indep (args : Str) (x y x2 y2 : Double) :
    line_pairs args x y = line_pairs args x2 y2 :=
  read_pairs_indep _ _ _ _ _ _

theorem complete_pair_eq {args : Str} (h : complete_pair args = true) (x y : Double) :
    ∃ x1 y1 rest, extract_pair (normalize_commas args) x y = (x1, y1, some rest) := by
  unfold complete_pair at h
  cases h1 : extract_pair (normalize_commas args) (Double.zero false) (Double.zero false) with
  | mk x1 r =>
    cases r with
    | mk y1 rest =>
      rw [h1] at h
      cases rest with
      | none => cases h
      | some rest => exact ⟨x1, y1, rest, extract_pair_some_indep x y h1⟩

/-- A line other than an `M` line without a complete pair is processed alike
whatever the indeterminate values of its locals. -/
theorem process_line_indep (line : Str) (lx ly lx2 ly2 : Double) (r : Run)
    (h : ∀ args, line = 'M' :: args → complete_pair args = true) :
    process_line line lx ly r = process_line line lx2 ly2 r := by
  cases line with
  | nil => rfl
  | cons c args =>
    by_cases hM : c = 'M'
    · subst hM
      obtain ⟨x1, y1, rest, h1⟩ := complete_pair_eq (h args rfl) lx ly
      rw [process_line_M, process_line_M, h1, extract_pair_some_indep lx2 ly2 h1]
    · unfold process_line
      simp only [hM, if_false, draw_loop_eq_draw_all, draw_loop_eq_rdraw_all,
        read_pairs_indep _ _ lx ly lx2 ly2]

theorem process_lines_indep (u u2 : Indeterminate) (lines : List Str) (n n2 : Nat) (r : Run)
    (h : moves_complete lines = true) :
    process_lines u lines n r = process_lines u2 lines n2 r := by
  induction lines generalizing n n2 r with
  | nil => rfl
  | cons line rest ih =>
    unfold moves_complete at h
    simp only [Bool.and_eq_true] at h
    have hl : ∀ args, line = 'M' :: args → complete_pair args = true := by
      intro args hargs
      subst hargs
      have h1 := h.1
      simp only [if_true] at h1
      exact h1
    unfold process_lines
    by_cases hlen : line.length = 0
    · simp only [hlen, if_true]
    · simp only [hlen, if_false]
      rw [process_line_indep line (u.local_x n) (u.local_y n) (u2.local_x n2) (u2.local_y n2) r hl]
      cases process_line line (u2.local_x n2) (u2.local_y n2) r with
      | none => simp only [Option.bind_eq_bind, Option.none_bind]
      | some r1 =>
        simp only [Option.bind_eq_bind, Option.some_bind]
        exact ih (n + 1) (n2 + 1) r1 h.2

/-- The constructor uses the initial cursor only to store it. -/
theorem ctor_cursor (w h x y x2 y2 : Double) :
    PDF.ctor w h x y = (PDF.ctor w h x2 y2).map (fun p => { p with x := x, y := y }) := by
  rw [ctor_eq, ctor_eq]
  rfl

/-- After a first `M` line with a complete pair, the cursor the writer started
with is forgotten. -/
theorem process_lines_first_move (u u2 : Indeterminate) (lines : List Str) (r : Run)
    (a b : Double) (h1 : starts_with_move lines = true) (h2 : moves_complete lines = true) :
    process_lines u lines 0 { r with pdf := { r.pdf with x := a, y := b } }
      = process_lines u2 lines 0 r := by
  cases lines with
  | nil => cases h1
  | cons line rest =>
    cases line with
    | nil => cases h1
    | cons c args =>
      unfold starts_with_move at h1
      simp only at h1
      by_cases hM : c = 'M'
      · subst hM
        simp only [if_true] at h1
        unfold moves_complete at h2
        simp only [Bool.and_eq_true] at h2
        obtain ⟨x1, y1, rs, he⟩ := complete_pair_eq h1 (u.local_x 0) (u.local_y 0)
        have he2 := extract_pair_some_indep (u2.local_x 0) (u2.local_y 0) he
        unfold process_lines
        have hlen : ¬ ('M' :: args).length = 0 := by simp
        simp only [hlen, if_false]
        rw [process_line_M, process_line_M, he, he2]
        simp only [Option.bind_eq_bind, Option.some_bind, PDF.move]
        exact process_lines_indep u u2 rest (0 + 1) (0 + 1) _ h2.2
      · simp only [hM, if_false] at h1
        cases h1

/-- When the first line is an `M` line with a complete pair and every `M`
line has one, the outcome of `process_file` does not depend on any
indeterminate value: neither the initial cursor nor an uninitialised local is
ever read into the outcome. -/
theorem process_file_indep (input : Str) (u u2 : Indeterminate)
    (h1 : starts_with_move (getlines input) = true)
    (h2 : moves_complete (getlines input) = true) :
    process_file input u = process_file input u2 := by
  unfold process_file
  rw [ctor_cursor a3_height a3_width u.cursor_x u.cursor_y u2.cursor_x u2.cursor_y]
  cases PDF.ctor a3_height a3_width u2.cursor_x u2.cursor_y with
  | none => simp only [Option.map_none', Option.bind_eq_bind, Option.none_bind]
  | some p0 =>
    simp only [Option.map_some', Option.bind_eq_bind, Option.some_bind]
    have := process_lines_first_move u u2 (getlines input) { pdf := p0, err := [] }
      u.cursor_x u.cursor_y h1 h2
    simp only at this
    rw [this]

/-! ## The conversion as a sequence of drawing calls -/

theorem run_calls_append (p : PDF) (a b : List Call) :
    run_calls p (a ++ b) = (run_calls p a).bind (fun q => run_calls q b) := by
  induction a generalizing p with
  | nil => rfl
  | cons c a ih =>
    simp only [List.cons_append, run_calls]
    cases c.run p with
    | none => rfl
    | some q =>
      simp only [Option.some_bind]
      exact ih q

theorem draw_all_eq_run_calls (p : PDF) (pts : List (Double × Double)) :
    draw_all p pts = run_calls p (pts.map (fun pt => Call.draw pt.1 pt.2)) := by
  induction pts generalizing p with
  | nil => rfl
  | cons pt rest ih =>
    simp only [draw_all, List.map_cons, run_calls, Call.run]
    cases p.draw pt.1 pt.2 with
    | none => rfl
    | some q => simp only [Option.some_bind, ih]

theorem rdraw_all_eq_run_calls (p : PDF) (pts : List (Double × Double)) :
    rdraw_all p pts = run_calls p (pts.map (fun pt => Call.rdraw pt.1 pt.2)) := by
  induction pts generalizing p with
  | nil => rfl
  | cons pt rest ih =>
    simp only [rdraw_all, List.map_cons, run_calls, Call.run]
    cases p.rdraw pt.1 pt.2 with
    | none => rfl
    | some q => simp only [Option.some_bind, ih]

/-- The writer after a line is the writer after the drawing calls of the line. -/
theorem process_line_calls {line : Str} {lx ly : Double} {r r2 : Run}
    (h : process_line line lx ly r = some r2) :
    run_calls r.pdf (calls_of_line line lx ly) = some r2.pdf := by
  cases line with
  | nil =>
    cases h
    rfl
  | cons c args =>
    unfold calls_of_line
    simp only
    by_cases hD : c = 'D'
    · subst hD
      rw [process_line_D, draw_all_eq_run_calls] at h
      obtain ⟨q, hq, h⟩ := bind_eq_some_elim h
      cases h
      simp only [if_true, List.map_map] at hq ⊢
      exact hq
    · by_cases hI : c = 'I'
      · subst hI
        rw [process_line_I, rdraw_all_eq_run_calls] at h
        obtain ⟨q, hq, h⟩ := bind_eq_some_elim h
        cases h
        simp only [hD, if_false, if_true, List.map_map] at hq ⊢
        exact hq
      · by_cases hM : c = 'M'
        · subst hM
          rw [process_line_M] at h
          cases h
          simp only [hD, hI, if_false, if_true]
          rfl
        · by_cases hP : c = 'P'
          · subst hP
            rw [process_line_P] at h
            obtain ⟨q, hq, h⟩ := bind_eq_some_elim h
            cases h
            simp only [hD, hI, hM, if_false, if_true, run_calls, Call.run, hq]
            rfl
          · simp only [hD, hI, hM, hP, if_false, run_calls]
            by_cases hJ : c = 'J'
            · subst hJ
              rw [process_line_J] at h
              cases h; rfl
            · by_cases hS : c = 'S'
              · subst hS
                rw [process_line_S] at h
                cases h; rfl
              · rw [process_line_unrecognized c args lx ly r hD hI hJ hM hP hS] at h
                cases h; rfl

theorem process_lines_calls (u : Indeterminate) (lines : List Str) (n : Nat) (r r2 : Run)
    (h : process_lines u lines n r = some r2) :
    run_calls r.pdf (calls_of_lines u lines n) = some r2.pdf := by
  induction lines generalizing n r with
  | nil => cases h; rfl
  | cons line rest ih =>
    unfold process_lines at h
    unfold calls_of_lines
    by_cases hlen : line.length = 0
    · simp only [hlen, if_true] at h ⊢
      cases h; rfl
    · simp only [hlen, if_false] at h ⊢
      obtain ⟨r1, h1, h⟩ := bind_eq_some_elim h
      rw [run_calls_append, process_line_calls h1]
      exact ih (n + 1) r1 h

/-- The conversion is: construct the writer, issue the drawing calls of the
lines, and call `finish` last. -/
theorem process_file_calls {input : Str} {u : Indeterminate} {r : Run}
    (h : process_file input u = some r) :
    ∃ p0 p, PDF.ctor a3_height a3_width u.cursor_x u.cursor_y = some p0 ∧
      run_calls p0 (calls_of_lines u (getlines input) 0) = some p ∧
      p.finish = some r.pdf := by
  unfold process_file at h
  obtain ⟨p0, hp0, h⟩ := bind_eq_some_elim h
  obtain ⟨r1, hl, h⟩ := bind_eq_some_elim h
  obtain ⟨q, hf, h⟩ := bind_eq_some_elim h
  cases h
  exact ⟨p0, r1.pdf, hp0, process_lines_calls _ _ _ _ _ hl, hf⟩

/-! ## The cursor as an optional pair -/

theorem tracked_call_agrees {p q : PDF} {call : Call} (h : call.run p = some q) :
    tracked_call (some (p.x, p.y)) call = some (some (q.x, q.y)) := by
  cases call with
  | move x y => cases h; rfl
  | draw x y =>
    simp only [Call.run, draw_eq] at h
    cases h; rfl
  | rdraw dx dy =>
    simp only [Call.run, rdraw_eq] at h
    cases h; rfl
  | print_text s =>
    simp only [Call.run] at h
    rw [print_text_eq_some h]
    rfl

/-- Once the cursor is stored, the optional cursor is the cursor of the
writer after every call, and no call reads an absent cursor. -/
theorem tracked_calls_agree {p q : PDF} {calls : List Call} (h : run_calls p calls = some q) :
    tracked_calls (some (p.x, p.y)) calls = some (some (q.x, q.y)) := by
  induction calls generalizing p with
  | nil => cases h; rfl
  | cons call rest ih =>
    unfold run_calls at h
    cases hc : call.run p with
    | none => rw [hc] at h; cases h
    | some p1 =>
      rw [hc] at h
      unfold tracked_calls
      rw [tracked_call_agrees hc]
      exact ih h

theorem tracked_calls_some (c : Double × Double) (calls : List Call) :
    ∃ c2, tracked_calls (some c) calls = some (some c2) := by
  induction calls generalizing c with
  | nil => exact ⟨c, rfl⟩
  | cons call rest ih =>
    unfold tracked_calls
    cases call with
    | move x y => exact ih (x, y)
    | draw x y => exact ih (x, y)
    | rdraw dx dy => exact ih (Double.add c.1 dx, Double.add c.2 dy)
    | print_text s => exact ih c

theorem calls_of_lines_move {u : Indeterminate} {lines : List Str}
    (h : starts_with_move lines = true) :
    ∃ x y rest, calls_of_lines u lines 0 = Call.move x y :: rest := by
  cases lines with
  | nil => cases h
  | cons line more =>
    cases line with
    | nil => cases h
    | cons c args =>
      unfold starts_with_move at h
      simp only at h
      by_cases hM : c = 'M'
      · subst hM
        unfold calls_of_lines calls_of_line
        have hlen : ¬ ('M' :: args).length = 0 := by simp
        have h1 : ('M' = 'D') = False := by decide
        have h2 : ('M' = 'I') = False := by decide
        simp only [hlen, h1, h2, if_false, if_true, List.cons_append, List.nil_append]
        exact ⟨_, _, _, rfl⟩
      · simp only [hM, if_false] at h
        cases h

/-- Claim C20.  Model the cursor as an optional pair that is absent at
construction, stored by `move` and `draw`, and read by `draw`, `rdraw` and
`print_text`.  For every input whose first line is an `M` line with a complete
numeric pair and in which every `M` line has a complete numeric pair: along
the drawing calls `process_file` issues, no call reads an absent cursor, and
the optional cursor ends up present; when `process_file` returns, that
optional cursor is the cursor of the writer `finish` is called on; and the
outcome of `process_file` is the same for all indeterminate values of the
initial cursor and of uninitialised locals (none of them is ever read). -/
theorem cursor_defined (input : Str) (u : Indeterminate)
    (h1 : starts_with_move (getlines input) = true)
    (h2 : moves_complete (getlines input) = true) :
    (∃ c, tracked_calls none (calls_of_lines u (getlines input) 0) = some (some c)) ∧
    (∀ u2, process_file input u2 = process_file input u) ∧
    (∀ r, process_file input u = some r →
      ∃ p0 p, PDF.ctor a3_height a3_width u.cursor_x u.cursor_y = some p0 ∧
        run_calls p0 (calls_of_lines u (getlines input) 0) = some p ∧
        p.finish = some r.pdf ∧
        tracked_calls none (calls_of_lines u (getlines input) 0) = some (some (p.x, p.y))) := by
  obtain ⟨x, y, rest, hc⟩ := calls_of_lines_move (u := u) h1
  refine ⟨?_, fun u2 => process_file_indep input u2 u h1 h2, ?_⟩
  · rw [hc]
    exact tracked_calls_some (x, y) rest
  · intro r hr
    obtain ⟨p0, p, hp0, hrun, hfin⟩ := process_file_calls hr
    refine ⟨p0, p, hp0, hrun, hfin, ?_⟩
    rw [hc] at hrun ⊢
    have : run_calls (p0.move x y) rest = some p := hrun
    exact tracked_calls_agree this

set_option maxRecDepth 100000 in
/-- Witness for `cursor_defined`: the sample input; its calls leave the
optional cursor at `(1, 1)`. -/
theorem cursor_defined_witness :
    starts_with_move (getlines sample_input) = true ∧
    moves_complete (getlines sample_input) = true ∧
    tracked_calls none (calls_of_lines zero_indeterminate (getlines sample_input) 0)
      = some (some (Double.ofNat 1, Double.ofNat 1)) ∧
    ∀ u2, process_file sample_input u2 = process_file sample_input zero_indeterminate :=
  ⟨by decide!, by decide!, by decide!,
   (cursor_defined sample_input zero_indeterminate (by decide!) (by decide!)).2.1⟩

set_option maxRecDepth 100000 in
/-- Without a first `M` line the first draw reads the absent cursor: on the
input `D 1 1` the optional cursor is read while absent, and the move-to
operator prints the indeterminate initial cursor. -/
theorem cursor_undefined_example :
    tracked_calls none (calls_of_lines zero_indeterminate (getlines "D 1 1\n".toList) 0) = none ∧
    (process_file "D 1 1\n".toList
        { zero_indeterminate with cursor_x := Double.ofNat 7, cursor_y := Double.ofNat 9 }).map
        (fun r => r.pdf.ops)
      = some (setup_text ++ ("7.000000 9.000000 m\n".toList ++ "0.100000 0.100000 l s\n".toList)) := by
  refine ⟨by decide!, by decide!⟩

/-! ## The sample conversion and the empty plot -/

theorem starts_with_append (pat b : Str) : starts_with pat (pat ++ b) = true := by
  induction pat with
  | nil => rfl
  | cons a pat ih =>
    show (decide (a = a) && starts_with pat (pat ++ b)) = true
    rw [ih]
    simp

theorem occurrences_from_ne_nil (pat a b : Str) (n : Nat) :
    occurrences_from pat (a ++ (pat ++ b)) n ≠ [] := by
  induction a generalizing n with
  | nil =>
    have hs := starts_with_append pat b
    rw [List.nil_append]
    cases hpb : pat ++ b with
    | nil =>
      rw [hpb] at hs
      unfold occurrences_from
      rw [hs]
      simp
    | cons c s =>
      rw [hpb] at hs
      unfold occurrences_from
      rw [hs]
      simp
  | cons x a ih =>
    rw [List.cons_append]
    unfold occurrences_from
    split
    · simp
    · exact ih (n + 1)

/-- A text that stands somewhere in `s` stands at one of the listed positions. -/
theorem occurrences_ne_nil {pat s : Str} (h : pat <:+: s) : occurrences pat s ≠ [] := by
  obtain ⟨a, b, rfl⟩ := h
  rw [List.append_assoc]
  exact occurrences_from_ne_nil pat a b 0

set_option maxHeartbeats 4000000 in
set_option maxRecDepth 100000 in
/-- The claim C15 as stated fails: in the output of the sample conversion the
text `(hello)` stands nowhere.  The operand text of the line `P hello` is
everything behind the opcode, the separating space included, so the literal
is `( hello)`, which stands at byte 495, inside the text-show operator. -/
theorem sample_literal_counterexample :
    process_file sample_input zero_indeterminate = some sample_run ∧
    occurrences "(hello)".toList sample_run.pdf.file = [] ∧
    ¬ ("(hello)".toList <:+: sample_run.pdf.file) ∧
    occurrences "( hello)".toList sample_run.pdf.file = [495] ∧
    (sample_run.pdf.file.drop 462).take 48
      = "BT /F1 4 Tf 1.000000 1.000000 Td ( hello) Tj ET\n".toList := by
  have h1 : occurrences "(hello)".toList sample_run.pdf.file = [] := by decide!
  have h2 : ¬ ("(hello)".toList <:+: sample_run.pdf.file) := fun hi => occurrences_ne_nil hi h1
  have h3 : occurrences "( hello)".toList sample_run.pdf.file = [495] := by decide!
  have h4 : (sample_run.pdf.file.drop 462).take 48
      = "BT /F1 4 Tf 1.000000 1.000000 Td ( hello) Tj ET\n".toList := by decide!
  exact ⟨process_file_sample, h1, h2, h3, h4⟩

set_option maxHeartbeats 4000000 in
set_option maxRecDepth 100000 in
/-- Claim C15, amended.  For the input consisting of the lines `M 0,0`,
`D 10,0 10,10`, `P hello` and an empty line, whatever the indeterminate
initial values, `process_file` returns without a warning; the content stream
is the two setup operators, a segment moved from (0, 0) and stroked to
(1.0, 0.0), a segment moved from there and stroked to (1.0, 1.0), and a
text-show operator at (1.0, 1.0) whose escaped literal is `( hello)`, the
escaped form of the operand text ` hello`; the output is the front part with
this content stream in object 4, the cross-reference section, the trailer and
`startxref` with the value 527, which is the number of bytes of the front part
and the byte position at which the keyword `xref` stands. -/
theorem sample_scenario (u : Indeterminate) :
    process_file sample_input u = some sample_run ∧
    sample_run.err = [] ∧
    sample_run.pdf.ops = setup_text ++
      (segments (Double.ofNat 0) (Double.ofNat 0)
          [(Double.ofNat 1, Double.ofNat 0), (Double.ofNat 1, Double.ofNat 1)] ++
        line_text (Double.ofNat 1) (Double.ofNat 1) "( hello)".toList) ∧
    segments (Double.ofNat 0) (Double.ofNat 0)
        [(Double.ofNat 1, Double.ofNat 0), (Double.ofNat 1, Double.ofNat 1)]
      = "0.000000 0.000000 m\n".toList ++ ("1.000000 0.000000 l s\n".toList ++
        ("1.000000 0.000000 m\n".toList ++ "1.000000 1.000000 l s\n".toList)) ∧
    line_text (Double.ofNat 1) (Double.ofNat 1) "( hello)".toList
      = "BT /F1 4 Tf 1.000000 1.000000 Td ( hello) Tj ET\n".toList ∧
    PDF.escape " hello".toList = some "( hello)".toList ∧
    sample_run.pdf.file = body a3_height a3_width sample_run.pdf.ops ++
      (xref_section 5 [9, 43, 100, 289] ++ (trailer 5 ++
      ("startxref\n527\n".toList ++ "%%EOF\n".toList))) ∧
    (body a3_height a3_width sample_run.pdf.ops).length = 527 ∧
    (sample_run.pdf.file.drop 527).take 5 = "xref\n".toList ∧
    occurrences "\nxref\n".toList sample_run.pdf.file = [526] := by
  have h0 : process_file sample_input u = some sample_run := by
    rw [process_file_indep sample_input u zero_indeterminate (by decide!) (by decide!)]
    exact process_file_sample
  have h2 : sample_run.pdf.ops = setup_text ++
      (segments (Double.ofNat 0) (Double.ofNat 0)
          [(Double.ofNat 1, Double.ofNat 0), (Double.ofNat 1, Double.ofNat 1)] ++
        line_text (Double.ofNat 1) (Double.ofNat 1) "( hello)".toList) := by decide!
  have h3 : segments (Double.ofNat 0) (Double.ofNat 0)
        [(Double.ofNat 1, Double.ofNat 0), (Double.ofNat 1, Double.ofNat 1)]
      = "0.000000 0.000000 m\n".toList ++ ("1.000000 0.000000 l s\n".toList ++
        ("1.000000 0.000000 m\n".toList ++ "1.000000 1.000000 l s\n".toList)) := by decide!
  have h4 : line_text (Double.ofNat 1) (Double.ofNat 1) "( hello)".toList
      = "BT /F1 4 Tf 1.000000 1.000000 Td ( hello) Tj ET\n".toList := by decide!
  have h5 : PDF.escape " hello".toList = some "( hello)".toList := by decide!
  have h6 : sample_run.pdf.file = body a3_height a3_width sample_run.pdf.ops ++
      (xref_section 5 [9, 43, 100, 289] ++ (trailer 5 ++
      ("startxref\n527\n".toList ++ "%%EOF\n".toList))) := by decide!
  have h7 : (body a3_height a3_width sample_run.pdf.ops).length = 527 := by decide!
  have h8 : (sample_run.pdf.file.drop 527).take 5 = "xref\n".toList := by decide!
  have h9 : occurrences "\nxref\n".toList sample_run.pdf.file = [526] := by decide!
  exact ⟨h0, rfl, h2, h3, h4, h5, h6, h7, h8, h9⟩

set_option maxRecDepth 100000 in
theorem setup_ops_eq_text : setup_ops = setup_text := by decide!

set_option maxRecDepth 100000 in
theorem document_empty_plot :
    document a3_height a3_width setup_text
      = preamble a3_height a3_width ++
        ("4 0 obj\n<< /Length 56 >>\nstream\n".toList ++
        (("2.834646 0 0 2.834646 28.346457 28.346457 cm\n".toList ++ "0.200000 w\n".toList) ++
        ("endstream\nendobj\n".toList ++
        (xref_section 5 [9, 43, 100, 289] ++ (trailer 5 ++
        ("startxref\n394\n".toList ++ "%%EOF\n".toList)))))) := by
  decide!

/-- When the first line is empty or there is no line, `process_file` is the
constructor followed by `finish`. -/
theorem process_file_no_lines (input : Str) (u : Indeterminate)
    (h : getlines input = [] ∨ getlines input = [[]]) :
    process_file input u = some
      { pdf := { file := document a3_height a3_width setup_text, width := a3_height,
                 height := a3_width, x := u.cursor_x, y := u.cursor_y,
                 offset := (body a3_height a3_width setup_text).length,
                 offsets := object_offsets a3_height a3_width, ops := setup_text },
        err := [] } := by
  have hp : ∀ r : Run, process_lines u (getlines input) 0 r = some r := by
    intro r
    rcases h with h | h <;> rw [h] <;> rfl
  have hl : (stream_body setup_text).length < INT_MAX := by decide
  unfold process_file
  generalize a3_height = w
  generalize a3_width = h
  have hc := ctor_eq w h u.cursor_x u.cursor_y
  rw [setup_ops_eq_text] at hc
  have hopen := open_ctor hc
  have hf := finish_of_lt hopen hl
  rw [hc]
  simp only [Option.bind_eq_bind, Option.some_bind]
  rw [hp, Option.some_bind]
  show (PDF.finish _).bind _ = _
  rw [hf]
  rfl

/-- Claim C16 (the empty plot).  For the input that is a single empty line,
and likewise for the input with no line at all, whatever the indeterminate
initial values, `process_file` returns, with no warning; the content buffer is
exactly the two setup operators of the constructor (the `cm` line and the line
`0.200000 w`), 56 bytes together; and the output is the header and objects 1
to 3, object 4 with `/Length 56` and exactly these two lines as its stream,
the cross-reference section, the trailer and `startxref`. -/
theorem empty_plot (u : Indeterminate) :
    ∃ r, process_file "\n".toList u = some r ∧ process_file [] u = some r ∧
      r.err = [] ∧
      r.pdf.ops = "2.834646 0 0 2.834646 28.346457 28.346457 cm\n".toList ++ "0.200000 w\n".toList ∧
      r.pdf.ops = setup_ops ∧
      r.pdf.ops.length = 56 ∧
      r.pdf.file = preamble a3_height a3_width ++
        ("4 0 obj\n<< /Length 56 >>\nstream\n".toList ++
        (("2.834646 0 0 2.834646 28.346457 28.346457 cm\n".toList ++ "0.200000 w\n".toList) ++
        ("endstream\nendobj\n".toList ++
        (xref_section 5 [9, 43, 100, 289] ++ (trailer 5 ++
        ("startxref\n394\n".toList ++ "%%EOF\n".toList)))))) := by
  refine ⟨_, process_file_no_lines "\n".toList u (Or.inr (by decide)),
    process_file_no_lines [] u (Or.inl (by decide)), rfl, rfl, setup_ops_eq_text.symm, ?_,
    document_empty_plot⟩
  show setup_text.length = 56
  decide

/-! ## Calls on a finished writer -/

theorem strfmt_xref_of (n : Nat) (h : n < 18446744073709551616) :
    strfmt "xref\n0 %zu\n".toList [Arg.num n]
      = some ("xref\n0 ".toList ++ (decimal n ++ "\n".toList)) := by
  have he : expand (cstr "xref\n0 %zu\n".toList) [Arg.num n]
      = "xref\n0 ".toList ++ (decimal n ++ "\n".toList) := rfl
  apply strfmt_eq_of he
  · simp only [List.mem_append, not_or]
    exact ⟨by decide, nul_not_mem_digits _ _, by decide⟩
  · have := decimal_length_le_of_lt n h
    simp [INT_MAX]
    omega

theorem strfmt_trailer_of (n : Nat) (h : n < 18446744073709551616) :
    strfmt "trailer\n<< /Root 1 0 R /Size %zu >>\n".toList [Arg.num n] = some (trailer n) := by
  have he : expand (cstr "trailer\n<< /Root 1 0 R /Size %zu >>\n".toList) [Arg.num n]
      = trailer n := rfl
  apply strfmt_eq_of he
  · simp only [trailer, List.mem_append, not_or]
    exact ⟨by decide, nul_not_mem_digits _ _, by decide⟩
  · have := decimal_length_le_of_lt n h
    simp [trailer, INT_MAX]
    omega

theorem finish_loop_eq (os : List Nat) (file : Str)
    (h : ∀ o ∈ os, o < 18446744073709551616) :
    PDF.finish_loop os file = some (file ++ xref_entries os) := by
  induction os generalizing file with
  | nil => simp [PDF.finish_loop, xref_entries]
  | cons o os ih =>
    unfold PDF.finish_loop
    rw [strfmt_entry o (h o (List.mem_cons_self _ _))]
    simp only [Option.bind_eq_bind, Option.some_bind]
    rw [ih _ (fun o2 ho2 => h o2 (List.mem_cons_of_mem _ ho2))]
    simp [xref_entries]

/-- The method `finish` has no precondition on the state of the writer: it
returns on every writer whose content buffer is below the size limit, and
appends one more object with the content buffer, a cross-reference section, a
trailer, `startxref` and the end marker. -/
theorem finish_returns (p : PDF) (hn : '\x00' ∉ p.ops)
    (hl : (stream_body p.ops).length < INT_MAX)
    (ho : p.offset < 18446744073709551616)
    (hos : ∀ o ∈ p.offsets, o < 18446744073709551616)
    (hlen : p.offsets.length + 2 < 18446744073709551616) :
    ∃ q, p.finish = some q ∧ q.ops = p.ops ∧
      q.file = p.file ++ (obj (p.offsets.length + 1) (stream_body p.ops) ++
        (xref_section (1 + (p.offsets.length + 1)) (p.offsets ++ [p.offset]) ++
        (trailer (1 + (p.offsets.length + 1)) ++
        (startxref ((p.offset + (obj (p.offsets.length + 1) (stream_body p.ops)).length)
            % 18446744073709551616) ++ "%%EOF\n".toList)))) := by
  have hs := (strfmt_stream_iff p.ops _ hn).2 ⟨rfl, hl⟩
  have hos2 : ∀ o ∈ p.offsets ++ [p.offset], o < 18446744073709551616 := by
    intro o hm
    rw [List.mem_append] at hm
    rcases hm with hm | hm
    · exact hos o hm
    · rw [List.mem_singleton] at hm
      rw [hm]
      exact ho
  unfold PDF.finish PDF.add_object_fmt
  dsimp only
  rw [hs]
  simp only [Option.bind_eq_bind, Option.some_bind]
  rw [add_object_eq _ _ (by omega)]
  simp only [Option.some_bind, List.length_append, List.length_cons, List.length_nil,
    Nat.zero_add]
  rw [strfmt_xref_of _ (by omega), strfmt_free, strfmt_trailer_of _ (by omega)]
  simp only [Option.some_bind]
  rw [finish_loop_eq _ _ hos2]
  simp only [Option.some_bind]
  rw [strfmt_startxref _ (Nat.mod_lt _ (by decide))]
  refine ⟨_, rfl, rfl, ?_⟩
  simp only [xref_section, List.append_assoc]

/-- The writer `process_file` returns accepts `finish` once more. -/
theorem finish_again {input : Str} {u : Indeterminate} {r : Run}
    (h : process_file input u = some r) :
    ∃ q, r.pdf.finish = some q ∧ r.pdf.file.length < q.file.length ∧ r.pdf.file <+: q.file := by
  obtain ⟨_, hoffs, hoff, hn, _, hl⟩ := process_file_eq_some h
  have hb : (body a3_height a3_width r.pdf.ops).length < 18446744073709551616 := by
    have h1 := preamble_length_le a3_height a3_width
    have h2 := obj_length 4 (stream_body r.pdf.ops)
    have h3 : (decimal 4).length = 1 := by decide
    rw [body_length]
    simp only [INT_MAX] at hl
    omega
  obtain ⟨q, hq, _, hf⟩ := finish_returns r.pdf hn hl (by rw [hoff]; exact hb)
    (by
      rw [hoffs, object_offsets_a3]
      intro o ho
      simp only [List.mem_cons, List.mem_singleton, List.mem_nil_iff, or_false] at ho
      omega)
    (by rw [hoffs, object_offsets_a3]; decide)
  refine ⟨q, hq, ?_, ?_⟩
  · rw [hf]
    have h2 := obj_length (r.pdf.offsets.length + 1) (stream_body r.pdf.ops)
    simp only [List.length_append]
    omega
  · rw [hf]
    exact List.prefix_append _ _

set_option maxHeartbeats 4000000 in
set_option maxRecDepth 100000 in
/-- The claim C17 as stated fails: the writer has no guard.  The writer
returned by the sample conversion is the result of `finish`; on it `draw`,
`rdraw` and `print_text` return and extend the content buffer, `move` sets
the cursor, and a second `finish` returns and writes 415 more bytes (a fifth
object and a second cross-reference section). -/
theorem calls_after_finish_counterexample :
    (∃ p : PDF, p.finish = some sample_run.pdf) ∧
    sample_run.pdf.draw (Double.ofNat 2) (Double.ofNat 3)
      = some { sample_run.pdf with
          ops := sample_ops ++
            ("1.000000 1.000000 m\n".toList ++ "2.000000 3.000000 l s\n".toList),
          x := Double.ofNat 2, y := Double.ofNat 3 } ∧
    sample_run.pdf.rdraw (Double.ofNat 2) (Double.ofNat 3)
      = some { sample_run.pdf with
          ops := sample_ops ++
            ("1.000000 1.000000 m\n".toList ++ "3.000000 4.000000 l s\n".toList),
          x := Double.ofNat 3, y := Double.ofNat 4 } ∧
    sample_run.pdf.print_text "x".toList
      = some { sample_run.pdf with
          ops := sample_ops ++ "BT /F1 4 Tf 1.000000 1.000000 Td (x) Tj ET\n".toList } ∧
    sample_run.pdf.move (Double.ofNat 2) (Double.ofNat 3)
      = { sample_run.pdf with x := Double.ofNat 2, y := Double.ofNat 3 } ∧
    sample_run.pdf.file.length = 685 ∧
    (sample_run.pdf.finish.map (fun q => q.file.length)) = some 1100 := by
  have h0 : ∃ p : PDF, p.finish = some sample_run.pdf := by
    obtain ⟨_, p, _, _, hf⟩ := process_file_calls process_file_sample
    exact ⟨p, hf⟩
  have h1 : sample_run.pdf.draw (Double.ofNat 2) (Double.ofNat 3)
      = some { sample_run.pdf with
          ops := sample_ops ++
            ("1.000000 1.000000 m\n".toList ++ "2.000000 3.000000 l s\n".toList),
          x := Double.ofNat 2, y := Double.ofNat 3 } := by decide!
  have h2 : sample_run.pdf.rdraw (Double.ofNat 2) (Double.ofNat 3)
      = some { sample_run.pdf with
          ops := sample_ops ++
            ("1.000000 1.000000 m\n".toList ++ "3.000000 4.000000 l s\n".toList),
          x := Double.ofNat 3, y := Double.ofNat 4 } := by decide!
  have h3 : sample_run.pdf.print_text "x".toList
      = some { sample_run.pdf with
          ops := sample_ops ++ "BT /F1 4 Tf 1.000000 1.000000 Td (x) Tj ET\n".toList } := by
    decide!
  have h5 : sample_run.pdf.file.length = 685 := by decide!
  have h6 : (sample_run.pdf.finish.map (fun q => q.file.length)) = some 1100 := by decide!
  exact ⟨h0, h1, h2, h3, rfl, h5, h6⟩

/-- Claim C17, amended.  The writer has no finished state and no guard.  When
`process_file` returns, it has called the constructor, then the drawing calls
of the lines in order, then `finish` once, and returns the writer `finish`
produced: it issues no drawing call after `finish`.  But the writer itself
still accepts every call after `finish`: `move` sets the cursor, `draw` and
`rdraw` return and append their two operator lines to the content buffer,
`print_text` returns for every text of at most 500000000 chars, and a second
`finish` returns and writes further bytes to the output. -/
theorem calls_precede_finish (input : Str) (u : Indeterminate) (r : Run)
    (h : process_file input u = some r) :
    (∃ p0 p, PDF.ctor a3_height a3_width u.cursor_x u.cursor_y = some p0 ∧
      run_calls p0 (calls_of_lines u (getlines input) 0) = some p ∧
      p.finish = some r.pdf) ∧
    (∀ x y, r.pdf.move x y = { r.pdf with x := x, y := y }) ∧
    (∀ x y, r.pdf.draw x y
      = some { r.pdf with ops := r.pdf.ops ++ (line_m r.pdf.x r.pdf.y ++ line_ls x y),
                          x := x, y := y }) ∧
    (∀ dx dy, r.pdf.rdraw dx dy
      = some { r.pdf with
          ops := r.pdf.ops ++ (line_m r.pdf.x r.pdf.y ++
            line_ls (Double.add r.pdf.x dx) (Double.add r.pdf.y dy)),
          x := Double.add r.pdf.x dx, y := Double.add r.pdf.y dy }) ∧
    (∀ s : Str, s.length ≤ 500000000 → r.pdf.print_text s
      = some { r.pdf with
          ops := r.pdf.ops ++ line_text r.pdf.x r.pdf.y (cstr ('(' :: (escaped s ++ [')']))) }) ∧
    (∃ q, r.pdf.finish = some q ∧ r.pdf.file.length < q.file.length ∧ r.pdf.file <+: q.file) :=
  ⟨process_file_calls h, fun _ _ => rfl, fun x y => draw_eq r.pdf x y,
   fun dx dy => rdraw_eq r.pdf dx dy, fun s hs => print_text_of_short r.pdf s hs,
   finish_again h⟩

/-- Witness for `calls_precede_finish`: the sample conversion. -/
theorem calls_precede_finish_witness :
    process_file sample_input zero_indeterminate = some sample_run ∧
    (∃ p0 p, PDF.ctor a3_height a3_width zero_indeterminate.cursor_x zero_indeterminate.cursor_y
        = some p0 ∧
      run_calls p0 (calls_of_lines zero_indeterminate (getlines sample_input) 0) = some p ∧
      p.finish = some sample_run.pdf) ∧
    (∃ q, sample_run.pdf.finish = some q ∧ sample_run.pdf.file.length < q.file.length ∧
      sample_run.pdf.file <+: q.file) :=
  ⟨process_file_sample,
   (calls_precede_finish sample_input zero_indeterminate sample_run process_file_sample).1,
   (calls_precede_finish sample_input zero_indeterminate sample_run process_file_sample).2.2.2.2.2⟩

/-! ## The byte-offset counter -/

set_option maxRecDepth 100000 in
/-- The claim C18 as stated fails for `finish`: the writer the sample
conversion returns is the result of `finish`; its counter is 527, the byte
position of the keyword `xref`, while 685 bytes have been emitted. -/
theorem offset_after_finish_counterexample :
    (∃ p : PDF, p.finish = some sample_run.pdf) ∧
    sample_run.pdf.offset = 527 ∧ sample_run.pdf.file.length = 685 ∧
    sample_run.pdf.offset ≠ sample_run.pdf.file.length := by
  have h0 : ∃ p : PDF, p.finish = some sample_run.pdf := by
    obtain ⟨_, p, _, _, hf⟩ := process_file_calls process_file_sample
    exact ⟨p, hf⟩
  have h1 : sample_run.pdf.file.length = 685 := by decide!
  refine ⟨h0, rfl, h1, ?_⟩
  rw [h1]
  decide

/-- Claim C18, amended.  After construction, and after every sequence of
`move`, `draw`, `rdraw` and `print_text` on the constructed writer, the
byte-offset counter equals the number of bytes emitted so far (the header and
objects 1 to 3: the drawing calls emit nothing).  `finish` advances the
counter over object 4 only: after `finish` the counter is the number of bytes
in front of the cross-reference section, which is the value printed after
`startxref`, and is smaller than the number of bytes emitted, because the
cross-reference section, the trailer, `startxref` and the end marker are
written to the stream directly and not counted. -/
theorem offset_counter (w h x y : Double) (calls : List Call) (p0 p q : PDF)
    (h0 : PDF.ctor w h x y = some p0) (h1 : run_calls p0 calls = some p)
    (h2 : p.finish = some q) :
    p0.offset = p0.file.length ∧ p.offset = p.file.length ∧ p.file = p0.file ∧
    q.offset = (body w h p.ops).length ∧
    q.file = body w h p.ops ++ (xref_section 5 (object_offsets w h) ++ (trailer 5 ++
      (startxref q.offset ++ "%%EOF\n".toList))) ∧
    q.offset < q.file.length ∧
    q.file.length = q.offset + ((xref_section 5 (object_offsets w h)).length +
      ((trailer 5).length + ((startxref q.offset).length + 6))) := by
  have hopen0 := open_ctor h0
  have hext := extends_run_calls h1
  have hopen := open_of_extends hopen0 hext
  obtain ⟨hq, _⟩ := finish_eq_some hopen h2
  have hqo : q.offset = (body w h p.ops).length := by rw [hq]
  have hqf : q.file = body w h p.ops ++ (xref_section 5 (object_offsets w h) ++ (trailer 5 ++
      (startxref q.offset ++ "%%EOF\n".toList))) := by
    rw [hqo, hq]
    rfl
  have hlen : q.file.length = q.offset + ((xref_section 5 (object_offsets w h)).length +
      ((trailer 5).length + ((startxref q.offset).length + 6))) := by
    rw [hqf]
    simp only [List.length_append]
    rw [← hqo]
    rfl
  refine ⟨?_, ?_, ?_, hqo, hqf, ?_, hlen⟩
  · rw [hopen0.2.1, hopen0.1]
  · rw [hopen.2.1, hopen.1]
  · exact hext.1
  · rw [hlen]
    have : 0 < (trailer 5).length := by decide
    omega

set_option maxRecDepth 100000 in
/-- Witness for `offset_counter`: the sample drawing calls on an A3 page. -/
theorem offset_counter_witness :
    ∃ p0 p q,
      PDF.ctor a3_height a3_width (Double.zero false) (Double.zero false) = some p0 ∧
      run_calls p0 sample_calls = some p ∧ p.finish = some q ∧
      p0.offset = p0.file.length ∧ p.offset = p.file.length ∧
      q.offset = (body a3_height a3_width p.ops).length ∧ q.offset < q.file.length := by
  have hs : ((PDF.ctor a3_height a3_width (Double.zero false) (Double.zero false)).bind
      (fun p0 => (run_calls p0 sample_calls).bind PDF.finish)).isSome = true := by decide!
  cases h0 : PDF.ctor a3_height a3_width (Double.zero false) (Double.zero false) with
  | none => rw [h0] at hs; cases hs
  | some p0 =>
    rw [h0, Option.some_bind] at hs
    cases h1 : run_calls p0 sample_calls with
    | none => rw [h1] at hs; cases hs
    | some p =>
      rw [h1, Option.some_bind] at hs
      cases h2 : p.finish with
      | none => rw [h2] at hs; cases hs
      | some q =>
        have ht := offset_counter _ _ _ _ _ _ _ _ h0 h1 h2
        exact ⟨p0, p, q, rfl, h1, h2, ht.1, ht.2.1, ht.2.2.2.1, ht.2.2.2.2.2.1⟩

/-! ## Definitions and references of objects -/

theorem drop_take_append (a b : Str) (n k : Nat) (h : n + k ≤ a.length) :
    ((a ++ b).drop n).take k = (a.drop n).take k := by
  rw [List.drop_append_of_le_length (by omega), List.take_append_of_le_length]
  rw [List.length_drop]
  omega

set_option maxRecDepth 100000 in
theorem preamble_a3_refs :
    ((preamble a3_height a3_width).drop 27).take 5 = "2 0 R".toList ∧
    ((preamble a3_height a3_width).drop 61).take 5 = "3 0 R".toList ∧
    ((preamble a3_height a3_width).drop 119).take 5 = "2 0 R".toList ∧
    ((preamble a3_height a3_width).drop 135).take 5 = "4 0 R".toList := by
  decide!

set_option maxRecDepth 100000 in
/-- The claim C19 as stated fails: in the output of the sample conversion the
reference `2 0 R` stands at byte 27 (in the catalog) and at byte 119, and
object 2 is defined at byte 43; `3 0 R` stands at byte 61 and object 3 is
defined at byte 100; `4 0 R` stands at byte 135 and object 4 is defined at
byte 289.  Only the reference `1 0 R`, in the trailer, and the second `2 0 R`,
in the page, stand behind the definition. -/
theorem forward_reference_counterexample :
    process_file sample_input zero_indeterminate = some sample_run ∧
    occurrences "1 0 obj".toList sample_run.pdf.file = [9] ∧
    occurrences "1 0 R".toList sample_run.pdf.file = [648] ∧
    occurrences "2 0 obj".toList sample_run.pdf.file = [43] ∧
    occurrences "2 0 R".toList sample_run.pdf.file = [27, 119] ∧
    occurrences "3 0 obj".toList sample_run.pdf.file = [100] ∧
    occurrences "3 0 R".toList sample_run.pdf.file = [61] ∧
    occurrences "4 0 obj".toList sample_run.pdf.file = [289] ∧
    occurrences "4 0 R".toList sample_run.pdf.file = [135] := by
  refine ⟨process_file_sample, ?_⟩
  decide!

set_option maxRecDepth 100000 in
theorem trailer_ref (back : Str) :
    (((xref_section 5 [9, 43, 100, 289] ++ trailer 5) ++ back).drop 121).take 5
      = "1 0 R".toList := by
  rw [drop_take_append _ _ _ _ (by decide!)]
  decide!

/-- Claim C19, amended.  In every document `process_file` produces, the
objects are defined in the order 1, 2, 3, 4, at the bytes 9, 43, 100 and 289.
Two references stand behind the definition of the object they name: the
`/Parent 2 0 R` of the page, at byte 119, and the `/Root 1 0 R` of the
trailer, 121 bytes behind the start of the cross-reference section.  The
other three stand in front of it: the `/Pages 2 0 R` of the catalog at byte
27 (object 2 is defined at byte 43), the `/Kids [3 0 R]` of the pages tree at
byte 61 (object 3 at byte 100), and the `/Contents 4 0 R` of the page at
byte 135 (object 4 at byte 289). -/
theorem reference_positions (input : Str) (u : Indeterminate) (r : Run)
    (h : process_file input u = some r) :
    (r.pdf.file.drop 9).take 8 = "1 0 obj\n".toList ∧
    (r.pdf.file.drop 43).take 8 = "2 0 obj\n".toList ∧
    (r.pdf.file.drop 100).take 8 = "3 0 obj\n".toList ∧
    (r.pdf.file.drop 289).take 8 = "4 0 obj\n".toList ∧
    (r.pdf.file.drop 119).take 5 = "2 0 R".toList ∧
    (r.pdf.file.drop ((body a3_height a3_width r.pdf.ops).length + 121)).take 5
      = "1 0 R".toList ∧
    289 < (body a3_height a3_width r.pdf.ops).length ∧
    (r.pdf.file.drop 27).take 5 = "2 0 R".toList ∧
    (r.pdf.file.drop 61).take 5 = "3 0 R".toList ∧
    (r.pdf.file.drop 135).take 5 = "4 0 R".toList := by
  obtain ⟨hfile, _, _, _, _, _⟩ := process_file_eq_some h
  have hobj := document_objects a3_height a3_width r.pdf.ops
  rw [preamble_a3_length, ← hfile] at hobj
  have hp := preamble_a3_refs
  have hl := preamble_a3_length
  have hd : r.pdf.file = preamble a3_height a3_width ++
      (obj 4 (stream_body r.pdf.ops) ++ (xref_section 5 (object_offsets a3_height a3_width) ++
      (trailer 5 ++ (startxref (body a3_height a3_width r.pdf.ops).length ++ eof_marker)))) := by
    rw [hfile]
    simp only [document, body, List.append_assoc]
  have hpre : ∀ n k, n + k ≤ 289 → (r.pdf.file.drop n).take k
      = ((preamble a3_height a3_width).drop n).take k := by
    intro n k hnk
    rw [hd]
    exact drop_take_append _ _ _ _ (by omega)
  have hb : (body a3_height a3_width r.pdf.ops).length
      = 289 + (obj 4 (stream_body r.pdf.ops)).length := by
    rw [body_length, hl]
  have ho := obj_length 4 (stream_body r.pdf.ops)
  refine ⟨hobj.1, hobj.2.1, hobj.2.2.1, hobj.2.2.2, ?_, ?_, ?_, ?_, ?_, ?_⟩
  · rw [hpre _ _ (by omega)]; exact hp.2.2.1
  · have hx : r.pdf.file = body a3_height a3_width r.pdf.ops ++
        ((xref_section 5 [9, 43, 100, 289] ++ trailer 5) ++
          (startxref (body a3_height a3_width r.pdf.ops).length ++ eof_marker)) := by
      rw [hfile]
      unfold document
      rw [object_offsets_a3]
      simp only [List.append_assoc]
    rw [hx, List.drop_append]
    exact trailer_ref _
  · omega
  · rw [hpre _ _ (by omega)]; exact hp.1
  · rw [hpre _ _ (by omega)]; exact hp.2.1
  · rw [hpre _ _ (by omega)]; exact hp.2.2.2

/-- Witness for `reference_positions`: the sample conversion, where the
trailer's `1 0 R` stands at byte 648. -/
theorem reference_positions_witness :
    process_file sample_input zero_indeterminate = some sample_run ∧
    (sample_run.pdf.file.drop 27).take 5 = "2 0 R".toList ∧
    (sample_run.pdf.file.drop 43).take 8 = "2 0 obj\n".toList :=
  ⟨process_file_sample,
   (reference_positions sample_input zero_indeterminate sample_run process_file_sample).2.2.2.2.2.2.2.1,
   (reference_positions sample_input zero_indeterminate sample_run process_file_sample).2.1⟩

end Dxy2pdf
